import Mathlib

/-!
# TaskScheduler (Src/Scheduler.cpp): a shallow embedding

The scheduler state is an explicit record; fiber and thread "pointers" are
indices into the `fiberContext` / `threadContext` arrays and `nullptr` is
`none`.  Every operation of `Scheduler.cpp` is a function on that record.  A
result of `none` means the operation produced no state: an `ASSERT` failed, a
null pointer or a negative array index was used, or the driven fiber never
switched back.

Declarations that `Scheduler.cpp` uses but that live in headers outside the
translated file (the atomic counter, the event, the queues, the `ASSERT` and
`VERIFY` macros, the compile-time constants) are parameters or are modelled
from the specification; each such definition says so.
-/

namespace MT

/-! ## Platform collaborators -/

/-- Compile-time constants and platform queries used by `Scheduler.cpp`; their
header is not part of the translated file, so they are parameters. -/
structure Config where
  /-- `TaskGroup::COUNT`: valid groups are `0 .. GROUP_COUNT - 1`. -/
  GROUP_COUNT : Nat
  /-- `TaskGroup::GROUP_UNDEFINED`. -/
  GROUP_UNDEFINED : Nat
  MT_MAX_THREAD_COUNT : Nat
  MT_MAX_FIBERS_COUNT : Nat
  /-- `Thread::GetNumberOfHardwareThreads()`. -/
  hardwareThreads : Int

/-! Modelled from the spec: the atomic counter (`Get`, `Set`, `Inc`, `Dec`,
`Add`; the last three return the new value).  Its declaration is missing from
the sources; a counter holds an unbounded integer, and each operation below
gives the value that is both stored and returned. -/

/-- Modelled from the spec: `AtomicInt::Inc`, the new value. -/
@[simp] def AtomicInt.Inc (v : Int) : Int := v + 1

/-- Modelled from the spec: `AtomicInt::Dec`, the new value. -/
@[simp] def AtomicInt.Dec (v : Int) : Int := v - 1

/-- Modelled from the spec: `AtomicInt::Add`, the new value. -/
@[simp] def AtomicInt.Add (v : Int) (sum : Int) : Int := v + sum

/-- The cast `(uint32)n` of a `size_t` value.  A `size_t` accumulator wraps at
a multiple of `2^32`, which this cast absorbs, so the accumulator itself is a
natural number. -/
def toUint32 (n : Nat) : Int := ((n % 2 ^ 32 : Nat) : Int)

/-- Modelled from the spec: the two reset modes of the platform event. -/
inductive EventReset where
  | AUTOMATIC
  | MANUAL
  deriving DecidableEq, Repr

/-- Modelled from the spec: the platform event (`Signal`, `Wait`, `Reset`;
auto- or manual-reset).  Its declaration is missing from the sources; the
second constructor argument is the initial signaled state. -/
structure Event where
  resetType : EventReset
  signaled : Bool
  deriving DecidableEq, Repr

/-- Modelled from the spec: an event is created with a reset mode and its
initial signaled state. -/
def Event.Create (resetType : EventReset) (initialState : Bool) : Event :=
  { resetType := resetType, signaled := initialState }

/-- Modelled from the spec: `Signal` sets the event. -/
def Event.Signal (e : Event) : Event := { e with signaled := true }

/-- Modelled from the spec: `Reset` clears the event. -/
def Event.Reset (e : Event) : Event := { e with signaled := false }

/-- Modelled from the spec: `Wait` as observed at one instant; the answer is
the signaled state, and an auto-reset event is consumed by a successful wait. -/
def Event.Wait (e : Event) : Bool × Event :=
  match e.resetType with
  | EventReset.MANUAL => (e.signaled, e)
  | EventReset.AUTOMATIC => (e.signaled, { e with signaled := false })

/-! ## Data model -/

/-- Modelled from the spec: the task statuses named by `Scheduler.cpp`; the
enumeration is declared in `Scheduler.h`. -/
inductive FiberTaskStatus where
  | UNKNOWN
  | RUNNED
  | FINISHED
  | AWAITING_GROUP
  | AWAITING_CHILD
  deriving DecidableEq, Repr

/-- Modelled from the spec: `TaskDesc`, a callable plus a user-data handle with
a validity predicate; `TaskDesc()` is the invalid descriptor. -/
structure TaskDesc where
  taskFunc : Option Nat
  userData : Nat
  deriving DecidableEq, Repr

/-- Modelled from the spec: `TaskDesc::IsValid`. -/
def TaskDesc.IsValid (d : TaskDesc) : Bool := d.taskFunc.isSome

/-- Modelled from the spec: a task descriptor with the group it was submitted
to and the fiber that spawned it. -/
structure GroupedTask where
  desc : TaskDesc
  group : Nat
  parentFiber : Option Nat
  deriving DecidableEq, Repr

/-- Modelled from the spec: a bucket is a pointer plus a count; here the list
of its `count` tasks. -/
structure TaskBucket where
  tasks : List GroupedTask
  deriving DecidableEq, Repr

def TaskBucket.count (b : TaskBucket) : Nat := b.tasks.length

/-- The fields of `FiberContext` that `Scheduler.cpp` reads or writes. -/
structure FiberContext where
  taskStatus : FiberTaskStatus
  currentTask : TaskDesc
  currentGroup : Nat
  childrenFibersCount : Int
  parentFiber : Option Nat
  threadContext : Option Nat
  deriving DecidableEq, Repr

/-- The two thread states named by `Scheduler.cpp`. -/
inductive ThreadState where
  | ALIVE
  | EXIT
  deriving DecidableEq, Repr

/-- The fields of `ThreadContext` that `Scheduler.cpp` reads or writes. -/
structure ThreadContext where
  /-- FIFO of runnable tasks: `PushRange` appends, `TryPop` takes the head. -/
  queue : List GroupedTask
  hasNewTasksEvent : Event
  state : ThreadState
  deriving DecidableEq, Repr

/-- The counter and the event of `TaskScheduler::GroupStats`. -/
structure GroupStats where
  inProgressTaskCount : Int
  allDoneEvent : Event
  deriving DecidableEq, Repr

/-- The fields of `TaskScheduler` that `Scheduler.cpp` reads or writes. -/
structure TaskScheduler where
  roundRobinThreadIndex : Int
  threadsCount : Nat
  threadContext : Nat → ThreadContext
  fiberContext : Nat → FiberContext
  /-- LIFO free list, top of the stack first. -/
  availableFibers : List Nat
  /-- Per-group LIFO of parked fibers, top of the stack first. -/
  waitTaskQueues : Nat → List Nat
  groupStats : Nat → GroupStats
  allGroupStats : GroupStats

/-- Array store `a[i] = v`. -/
def setAt {α : Type} (a : Nat → α) (i : Nat) (v : α) : Nat → α :=
  fun j => if j = i then v else a j

/-! ## Constructors (lines 11-31, 95-128) -/

/-- `ThreadContext::ThreadContext()`. -/
def ThreadContext.new : ThreadContext :=
  { queue := [], hasNewTasksEvent := Event.Create EventReset.AUTOMATIC true,
    state := ThreadState.ALIVE }

/-- `FiberContext::FiberContext()`; the task descriptor is default-constructed. -/
def FiberContext.new (cfg : Config) : FiberContext :=
  { taskStatus := FiberTaskStatus.UNKNOWN, currentTask := { taskFunc := none, userData := 0 },
    currentGroup := cfg.GROUP_UNDEFINED, childrenFibersCount := 0,
    parentFiber := none, threadContext := none }

/-- `TaskScheduler::GroupStats::GroupStats()`. -/
def GroupStats.new : GroupStats :=
  { inProgressTaskCount := 0, allDoneEvent := Event.Create EventReset.MANUAL true }

/-- The fiber pool after the constructor pushed `0, 1, .., n-1` in that order. -/
def initialPool : Nat → List Nat
  | 0 => []
  | n + 1 => n :: initialPool n

/-- `TaskScheduler::TaskScheduler()`. -/
def TaskScheduler.new (cfg : Config) : TaskScheduler :=
  let wanted : Int := max (cfg.hardwareThreads - 2) 1
  let threadsCount : Nat :=
    if wanted > (cfg.MT_MAX_THREAD_COUNT : Int) then cfg.MT_MAX_THREAD_COUNT else wanted.toNat
  { roundRobinThreadIndex := 0
    threadsCount := threadsCount
    threadContext := fun _ => ThreadContext.new
    fiberContext := fun _ => FiberContext.new cfg
    availableFibers := initialPool cfg.MT_MAX_FIBERS_COUNT
    waitTaskQueues := fun _ => []
    groupStats := fun _ => GroupStats.new
    allGroupStats := GroupStats.new }

/-! ## Fiber pool (lines 33-41, 144-163) -/

/-- `FiberContext::Reset`; the `ASSERT` on the children counter is a fault. -/
def FiberContext.Reset (cfg : Config) (fc : FiberContext) : Option FiberContext :=
  if fc.childrenFibersCount = 0 then
    some { fc with currentGroup := cfg.GROUP_UNDEFINED,
                   currentTask := { taskFunc := none, userData := 0 },
                   parentFiber := none, threadContext := none }
  else none

/-- `TaskScheduler::RequestFiberContext`: the acquired fiber and the new state;
an empty pool is a fault. -/
def RequestFiberContext (st : TaskScheduler) (task : GroupedTask) :
    Option (Nat × TaskScheduler) :=
  match st.availableFibers with
  | [] => none
  | f :: pool =>
    let fc := st.fiberContext f
    some (f, { st with
      availableFibers := pool
      fiberContext := setAt st.fiberContext f
        { fc with currentTask := task.desc, currentGroup := task.group,
                  parentFiber := task.parentFiber } })

/-- `TaskScheduler::ReleaseFiberContext`. -/
def ReleaseFiberContext (cfg : Config) (st : TaskScheduler) (f : Nat) : Option TaskScheduler :=
  match FiberContext.Reset cfg (st.fiberContext f) with
  | none => none
  | some fc =>
    some { st with fiberContext := setAt st.fiberContext f fc,
                   availableFibers := f :: st.availableFibers }

/-- `TaskScheduler::RestoreAwaitingTasks` (lines 166-170): the body only takes
a reference to the group's queue; moving the fibers is a TODO. -/
def RestoreAwaitingTasks (st : TaskScheduler) (_taskGroup : Nat) : TaskScheduler := st

/-! ## Submission (lines 382-420) -/

/-- Lines 386-390: the number of tasks over all buckets. -/
def RunTasksImpl.count (buckets : List TaskBucket) : Nat :=
  buckets.foldl (fun count b => count + b.count) 0

/-- Lines 392-395: the parent's children counter is raised first. -/
def RunTasksImpl.addChildren (st : TaskScheduler) (parentFiber : Option Nat) (count : Nat) :
    TaskScheduler :=
  match parentFiber with
  | none => st
  | some p =>
    let fc := st.fiberContext p
    { st with
      fiberContext := setAt st.fiberContext p
        { fc with childrenFibersCount := AtomicInt.Add fc.childrenFibersCount (toUint32 count) } }

/-- Line 412: `bucket.tasks[taskIndex].parentFiber = parentFiber`. -/
def stampParent (parentFiber : Option Nat) (t : GroupedTask) : GroupedTask :=
  { t with parentFiber := parentFiber }

/-- Lines 399-417: one round of the bucket loop.  A zero `threadsCount`
(division by zero) or a negative array index is a fault. -/
def RunTasksImpl.dispatch (st : TaskScheduler) (taskGroup : Nat) (parentFiber : Option Nat)
    (bucket : TaskBucket) : Option TaskScheduler :=
  let rr := AtomicInt.Inc st.roundRobinThreadIndex
  if st.threadsCount = 0 then none
  else
    let bucketIndex : Int := Int.tmod rr (st.threadsCount : Int)
    if bucketIndex < 0 then none
    else
      let i := bucketIndex.toNat
      let context := st.threadContext i
      let all := st.allGroupStats
      let all := { all with allDoneEvent := all.allDoneEvent.Reset }
      let all := { all with
        inProgressTaskCount := AtomicInt.Add all.inProgressTaskCount (toUint32 bucket.count) }
      let gs := st.groupStats taskGroup
      let gs := { gs with allDoneEvent := gs.allDoneEvent.Reset }
      let gs := { gs with
        inProgressTaskCount := AtomicInt.Add gs.inProgressTaskCount (toUint32 bucket.count) }
      let context := { context with
        queue := context.queue ++ bucket.tasks.map (stampParent parentFiber) }
      let context := { context with hasNewTasksEvent := context.hasNewTasksEvent.Signal }
      some { st with
        roundRobinThreadIndex := rr
        allGroupStats := all
        groupStats := setAt st.groupStats taskGroup gs
        threadContext := setAt st.threadContext i context }

/-- Lines 397-419: the bucket loop. -/
def RunTasksImpl.loop (taskGroup : Nat) (parentFiber : Option Nat) :
    TaskScheduler → List TaskBucket → Option TaskScheduler
  | st, [] => some st
  | st, bucket :: rest =>
    match RunTasksImpl.dispatch st taskGroup parentFiber bucket with
    | none => none
    | some st1 => RunTasksImpl.loop taskGroup parentFiber st1 rest

/-- `TaskScheduler::RunTasksImpl`. -/
def RunTasksImpl (cfg : Config) (st : TaskScheduler) (taskGroup : Nat)
    (buckets : List TaskBucket) (parentFiber : Option Nat) : Option TaskScheduler :=
  if taskGroup < cfg.GROUP_COUNT then
    RunTasksImpl.loop taskGroup parentFiber
      (RunTasksImpl.addChildren st parentFiber (RunTasksImpl.count buckets)) buckets
  else none

/-! ## Waiting from outside (lines 422-434) -/

/-- `TaskScheduler::WaitGroup`: `isWorkerThread` is the answer of
`IsWorkerThread()` for the calling thread. -/
def WaitGroup (st : TaskScheduler) (isWorkerThread : Bool) (group : Nat) : Bool :=
  if isWorkerThread then false else (st.groupStats group).allDoneEvent.Wait.1

/-- `TaskScheduler::WaitAll`. -/
def WaitAll (st : TaskScheduler) (isWorkerThread : Bool) : Bool :=
  if isWorkerThread then false else st.allGroupStats.allDoneEvent.Wait.1

/-! ## Yield operations called from inside a task (lines 43-92) -/

/-- `FiberContext::WaitGroupAndYield`, called by fiber `f` while it executes on
worker `w`.  The flag of the result tells whether the fiber switched to the
scheduler fiber (`true`) or the call returned to the task body (`false`).  The
`VERIFY` macro runs its third argument when the condition fails. -/
def WaitGroupAndYield (cfg : Config) (st : TaskScheduler) (w f group : Nat) :
    Option (TaskScheduler × Bool) :=
  let fc := st.fiberContext f
  match fc.threadContext with
  | none => none
  | some t =>
    if t ≠ w then none
    else if group = fc.currentGroup then some (st, false)
    else if ¬ group < cfg.GROUP_COUNT then some (st, false)
    else
      let fc := { fc with taskStatus := FiberTaskStatus.AWAITING_GROUP }
      let waitTaskQueues := setAt st.waitTaskQueues group (f :: st.waitTaskQueues group)
      let fc := { fc with threadContext := none }
      some ({ st with fiberContext := setAt st.fiberContext f fc,
                      waitTaskQueues := waitTaskQueues }, true)

/-- `FiberContext::RunSubtasksAndYield`, called by fiber `f` while it executes
on worker `w`; on success the fiber has switched to the scheduler fiber. -/
def RunSubtasksAndYield (cfg : Config) (st : TaskScheduler) (w f taskGroup : Nat)
    (buckets : List TaskBucket) : Option TaskScheduler :=
  match (st.fiberContext f).threadContext with
  | none => none
  | some t =>
    if t ≠ w then none
    else if ¬ taskGroup < cfg.GROUP_COUNT then none
    else
      match RunTasksImpl cfg st taskGroup buckets (some f) with
      | none => none
      | some st1 =>
        let fc := st1.fiberContext f
        match fc.threadContext with
        | none => none
        | some t1 =>
          if t1 ≠ w then none
          else
            let fc := { fc with taskStatus := FiberTaskStatus.AWAITING_CHILD }
            let fc := { fc with threadContext := none }
            some { st1 with fiberContext := setAt st1.fiberContext f fc }

/-! ## Task bodies (lines 289-307) -/

/-- A call a task body can make on its `FiberContext`. -/
inductive TaskCall where
  | WaitGroupAndYield (group : Nat)
  | RunSubtasksAndYield (taskGroup : Nat) (buckets : List TaskBucket)

/-- Lines 302-304 of `FiberMain`: the task function returned; the status
becomes `FINISHED` and the fiber switches to the scheduler fiber of the worker
it is bound to. -/
def FiberMain.finish (st : TaskScheduler) (f : Nat) : Option TaskScheduler :=
  let fc := st.fiberContext f
  match fc.threadContext with
  | none => none
  | some _ =>
    some { st with
      fiberContext := setAt st.fiberContext f { fc with taskStatus := FiberTaskStatus.FINISHED } }

/-- Fiber `f` runs on worker `w` from the moment it is switched into until it
switches back.  `calls` are the calls the task body makes in that stretch, in
order: the body stops at the first call that yields, and returns to
`FiberMain` when none of them does. -/
def FiberMain.run (cfg : Config) (w f : Nat) : TaskScheduler → List TaskCall → Option TaskScheduler
  | st, [] => FiberMain.finish st f
  | st, TaskCall.WaitGroupAndYield group :: rest =>
    match WaitGroupAndYield cfg st w f group with
    | none => none
    | some (st1, true) => some st1
    | some (st1, false) => FiberMain.run cfg w f st1 rest
  | st, TaskCall.RunSubtasksAndYield taskGroup buckets :: _ =>
    RunSubtasksAndYield cfg st w f taskGroup buckets

/-! ## ExecuteTask (lines 172-286) -/

/-- How one round of the driver loop of `ExecuteTask` ends. -/
inductive ExecuteTask.Next where
  /-- `return dropContext`. -/
  | ret (dropContext : Bool)
  /-- The loop goes round again with `fiberContext = parent`. -/
  | next (parent : Nat)
  deriving DecidableEq, Repr

/-- Lines 178-188: the checks at the top of the loop, the binding of the fiber
to the worker and the status `RUNNED`; line 191 then switches into the fiber. -/
def ExecuteTask.enter (cfg : Config) (st : TaskScheduler) (w f : Nat) : Option TaskScheduler :=
  let fc := st.fiberContext f
  if ¬ fc.currentTask.IsValid then none
  else if ¬ fc.currentGroup < cfg.GROUP_COUNT then none
  else
    let fc := { fc with threadContext := some w }
    let fc := { fc with taskStatus := FiberTaskStatus.RUNNED }
    some { st with fiberContext := setAt st.fiberContext f fc }

/-- Lines 199-207: the group counter of a finished task. -/
def ExecuteTask.updateGroup (st : TaskScheduler) (taskGroup : Nat) : Option TaskScheduler :=
  let gs := st.groupStats taskGroup
  let groupTaskCount := AtomicInt.Dec gs.inProgressTaskCount
  let st := { st with
    groupStats := setAt st.groupStats taskGroup { gs with inProgressTaskCount := groupTaskCount } }
  if groupTaskCount < 0 then none
  else if groupTaskCount = 0 then
    let st := RestoreAwaitingTasks st taskGroup
    let gs := st.groupStats taskGroup
    some { st with
      groupStats := setAt st.groupStats taskGroup
        { gs with allDoneEvent := gs.allDoneEvent.Signal } }
  else some st

/-- Lines 209-216: the counter of all groups. -/
def ExecuteTask.updateTotal (st : TaskScheduler) : Option TaskScheduler :=
  let all := st.allGroupStats
  let groupTaskCount := AtomicInt.Dec all.inProgressTaskCount
  let st := { st with allGroupStats := { all with inProgressTaskCount := groupTaskCount } }
  if groupTaskCount < 0 then none
  else if groupTaskCount = 0 then
    let all := st.allGroupStats
    some { st with allGroupStats := { all with allDoneEvent := all.allDoneEvent.Signal } }
  else some st

/-- Lines 227-264: the parent of a finished fiber. -/
def ExecuteTask.parent (st : TaskScheduler) (w : Nat) (parentFiberContext : Option Nat) :
    Option (TaskScheduler × ExecuteTask.Next) :=
  match parentFiberContext with
  | none => some (st, ExecuteTask.Next.ret true)
  | some p =>
    let pc := st.fiberContext p
    let childrenFibersCount := AtomicInt.Dec pc.childrenFibersCount
    let pc := { pc with childrenFibersCount := childrenFibersCount }
    let st := { st with fiberContext := setAt st.fiberContext p pc }
    if childrenFibersCount < 0 then none
    else if childrenFibersCount = 0 then
      match pc.threadContext with
      | some _ => none
      | none =>
        let pc := { pc with threadContext := some w }
        some ({ st with fiberContext := setAt st.fiberContext p pc }, ExecuteTask.Next.next p)
    else some (st, ExecuteTask.Next.ret true)

/-- Lines 194-284: what `ExecuteTask` does once the fiber has switched back. -/
def ExecuteTask.handle (cfg : Config) (st : TaskScheduler) (w f iteration : Nat) :
    Option (TaskScheduler × ExecuteTask.Next) :=
  let fc := st.fiberContext f
  match fc.taskStatus with
  | FiberTaskStatus.FINISHED =>
    let taskGroup := fc.currentGroup
    if ¬ taskGroup < cfg.GROUP_COUNT then none
    else
      match ExecuteTask.updateGroup st taskGroup with
      | none => none
      | some st1 =>
        match ExecuteTask.updateTotal st1 with
        | none => none
        | some st2 =>
          let parentFiberContext := fc.parentFiber
          match (if iteration > 0 then ReleaseFiberContext cfg st2 f else some st2) with
          | none => none
          | some st3 => ExecuteTask.parent st3 w parentFiberContext
  | FiberTaskStatus.AWAITING_GROUP => some (st, ExecuteTask.Next.ret false)
  | FiberTaskStatus.AWAITING_CHILD => some (st, ExecuteTask.Next.ret false)
  | FiberTaskStatus.RUNNED => none
  | FiberTaskStatus.UNKNOWN => none

/-- The driver loop of `ExecuteTask` from round `iteration` on.  `script` gives,
round by round, the calls made by the task body of the fiber driven in that
round; when it is used up the driven fiber does not switch back and there is
no result. -/
def ExecuteTask.loop (cfg : Config) (w : Nat) :
    TaskScheduler → Nat → Nat → List (List TaskCall) → Option (Bool × TaskScheduler)
  | _, _, _, [] => none
  | st, f, iteration, calls :: script =>
    match ExecuteTask.enter cfg st w f with
    | none => none
    | some st1 =>
      match FiberMain.run cfg w f st1 calls with
      | none => none
      | some st2 =>
        match ExecuteTask.handle cfg st2 w f iteration with
        | none => none
        | some (st3, ExecuteTask.Next.ret dropContext) => some (dropContext, st3)
        | some (st3, ExecuteTask.Next.next parent) =>
          ExecuteTask.loop cfg w st3 parent (iteration + 1) script

/-- `TaskScheduler::ExecuteTask(threadContext, fiberContext)`. -/
def ExecuteTask (cfg : Config) (st : TaskScheduler) (w f : Nat) (script : List (List TaskCall)) :
    Option (Bool × TaskScheduler) :=
  ExecuteTask.loop cfg w st f 0 script

/-! ## ThreadMain (lines 310-379) -/

/-- Lines 319-328: pop a task, acquire a fiber for it and put the guard on its
children counter.  An empty queue gives no result (the worker waits). -/
def ThreadMain.acquire (st : TaskScheduler) (w : Nat) : Option (Nat × TaskScheduler) :=
  let context := st.threadContext w
  match context.queue with
  | [] => none
  | task :: rest =>
    let st := { st with threadContext := setAt st.threadContext w { context with queue := rest } }
    match RequestFiberContext st task with
    | none => none
    | some (f, st1) =>
      let fc := st1.fiberContext f
      if ¬ fc.currentTask.IsValid then none
      else
        some (f, { st1 with
          fiberContext := setAt st1.fiberContext f
            { fc with childrenFibersCount := AtomicInt.Inc fc.childrenFibersCount } })

/-- How the inner loop of `ThreadMain` goes on after `ExecuteTask` returned. -/
inductive ThreadMain.Next where
  /-- Lines 337-343: the fiber went back to the pool. -/
  | released
  /-- Lines 349 and 355: `break` with the fiber kept. -/
  | kept
  /-- The loop goes round again and calls `ExecuteTask` on the same fiber. -/
  | again
  deriving DecidableEq, Repr

/-- Lines 337-338: the guard is taken off before the fiber is released. -/
def ThreadMain.dropGuard (st : TaskScheduler) (f : Nat) : Option TaskScheduler :=
  let fc := st.fiberContext f
  let childrenFibersCount := AtomicInt.Dec fc.childrenFibersCount
  let st := { st with
    fiberContext := setAt st.fiberContext f { fc with childrenFibersCount := childrenFibersCount } }
  if childrenFibersCount = 0 then some st else none

/-- Lines 335-360: the checks after `ExecuteTask` returned `canDropContext`. -/
def ThreadMain.afterExecute (cfg : Config) (st : TaskScheduler) (f : Nat) (canDropContext : Bool) :
    Option (TaskScheduler × ThreadMain.Next) :=
  let fc := st.fiberContext f
  if canDropContext = true ∨ fc.taskStatus = FiberTaskStatus.FINISHED then
    match ThreadMain.dropGuard st f with
    | none => none
    | some st1 =>
      match ReleaseFiberContext cfg st1 f with
      | none => none
      | some st2 => some (st2, ThreadMain.Next.released)
  else if fc.childrenFibersCount > 1 then some (st, ThreadMain.Next.kept)
  else if fc.taskStatus = FiberTaskStatus.AWAITING_GROUP then some (st, ThreadMain.Next.kept)
  else some (st, ThreadMain.Next.again)

/-- Lines 363-368: the guard of a fiber that was kept is taken off. -/
def ThreadMain.releaseGuard (st : TaskScheduler) (f : Nat) : Option TaskScheduler :=
  let fc := st.fiberContext f
  let childrenFibersCount := AtomicInt.Dec fc.childrenFibersCount
  let st := { st with
    fiberContext := setAt st.fiberContext f { fc with childrenFibersCount := childrenFibersCount } }
  if childrenFibersCount < 0 then none else some st

/-! ## The scheduler as a transition system

Worker threads interleave.  A worker is observed at the points where it hands
control over: inside a task fiber, between the return of `ExecuteTask` and the
checks of `ThreadMain`, and between the `break` of the inner loop and the
release of the guard. -/

/-- Where a worker thread stands. -/
inductive Worker where
  /-- At the top of the `while` loop of `ThreadMain`. -/
  | idle
  /-- Inside `ExecuteTask(context, first)`, in round `iteration` of its loop,
  switched into fiber `current` (line 191). -/
  | inFiber (first current iteration : Nat)
  /-- `ExecuteTask(context, first)` returned `canDropContext` (line 332). -/
  | returned (first : Nat) (canDropContext : Bool)
  /-- The inner loop was left with `fiberContext = first` (line 363). -/
  | kept (first : Nat)
  deriving DecidableEq, Repr

/-- The scheduler together with the position of every worker thread. -/
structure System where
  sched : TaskScheduler
  worker : Nat → Worker

/-- The atomic steps. -/
inductive Step where
  /-- `RunTasksImpl(taskGroup, buckets, nullptr)` called from outside the workers. -/
  | RunTasks (taskGroup : Nat) (buckets : List TaskBucket)
  /-- Worker `w` pops a task, acquires a fiber, calls `ExecuteTask` and switches
  into the fiber. -/
  | Start (w : Nat)
  /-- The fiber running on worker `w` makes `calls` and switches back;
  `ExecuteTask` handles the outcome, and either returns or switches into the
  parent. -/
  | Switch (w : Nat) (calls : List TaskCall)
  /-- Worker `w` runs the checks of `ThreadMain` after `ExecuteTask` returned. -/
  | Continue (w : Nat)
  /-- Worker `w` takes the guard off a fiber it kept. -/
  | Unguard (w : Nat)

/-- `TaskScheduler::TaskScheduler()` with every worker at the top of its loop. -/
def System.new (cfg : Config) : System :=
  { sched := TaskScheduler.new cfg, worker := fun _ => Worker.idle }

/-- One atomic step; `none` when the step is not possible or faults. -/
def System.step (cfg : Config) (S : System) : Step → Option System
  | Step.RunTasks taskGroup buckets =>
    match RunTasksImpl cfg S.sched taskGroup buckets none with
    | none => none
    | some st => some { S with sched := st }
  | Step.Start w =>
    if ¬ w < S.sched.threadsCount then none
    else
      match S.worker w with
      | Worker.idle =>
        match ThreadMain.acquire S.sched w with
        | none => none
        | some (f, st) =>
          match ExecuteTask.enter cfg st w f with
          | none => none
          | some st1 => some { sched := st1, worker := setAt S.worker w (Worker.inFiber f f 0) }
      | _ => none
  | Step.Switch w calls =>
    match S.worker w with
    | Worker.inFiber first current iteration =>
      match FiberMain.run cfg w current S.sched calls with
      | none => none
      | some st =>
        match ExecuteTask.handle cfg st w current iteration with
        | none => none
        | some (st1, ExecuteTask.Next.ret dropContext) =>
          some { sched := st1, worker := setAt S.worker w (Worker.returned first dropContext) }
        | some (st1, ExecuteTask.Next.next parent) =>
          match ExecuteTask.enter cfg st1 w parent with
          | none => none
          | some st2 =>
            some { sched := st2,
                   worker := setAt S.worker w (Worker.inFiber first parent (iteration + 1)) }
    | _ => none
  | Step.Continue w =>
    match S.worker w with
    | Worker.returned first canDropContext =>
      match ThreadMain.afterExecute cfg S.sched first canDropContext with
      | none => none
      | some (st, ThreadMain.Next.released) =>
        some { sched := st, worker := setAt S.worker w Worker.idle }
      | some (st, ThreadMain.Next.kept) =>
        some { sched := st, worker := setAt S.worker w (Worker.kept first) }
      | some (st, ThreadMain.Next.again) =>
        match ExecuteTask.enter cfg st w first with
        | none => none
        | some st1 => some { sched := st1, worker := setAt S.worker w (Worker.inFiber first first 0) }
    | _ => none
  | Step.Unguard w =>
    match S.worker w with
    | Worker.kept first =>
      match ThreadMain.releaseGuard S.sched first with
      | none => none
      | some st => some { sched := st, worker := setAt S.worker w Worker.idle }
    | _ => none

/-- Run a list of steps from a state. -/
def System.run (cfg : Config) : System → List Step → Option System
  | S, [] => some S
  | S, e :: es =>
    match System.step cfg S e with
    | none => none
    | some S1 => System.run cfg S1 es

/-! ## Auxiliary definitions for the statements -/

/-- Sum of `f 0, .., f (n-1)`. -/
def sumTo (f : Nat → Nat) : Nat → Nat
  | 0 => 0
  | n + 1 => sumTo f n + f n

/-- The worker the next bucket goes to (line 399). -/
def RunTasksImpl.target (st : TaskScheduler) : Nat :=
  (Int.tmod (st.roundRobinThreadIndex + 1) (st.threadsCount : Int)).toNat

/-- The tasks that a call of `RunTasksImpl` made at round-robin counter value
`r` appends to the FIFO of worker `w`: bucket `i` (counted from `k`) goes, whole
and stamped with the parent, to worker `(r + i + 1) mod threadsCount`. -/
def RunTasksImpl.appended (threadsCount : Nat) (p : Option Nat) (w : Nat) (r : Int) (k : Nat)
    (bs : List TaskBucket) : List GroupedTask :=
  (((bs.enumFrom k).filter
      (fun ib => ((r + (ib.1 : Int) + 1) % (threadsCount : Int)).toNat = w)).map
    (fun ib => ib.2.tasks.map (stampParent p))).flatten

/-- A configuration for the concrete checks: three groups, two workers, four fibers. -/
def exampleConfig : Config :=
  { GROUP_COUNT := 3, GROUP_UNDEFINED := 4, MT_MAX_THREAD_COUNT := 2, MT_MAX_FIBERS_COUNT := 4,
    hardwareThreads := 4 }

/-- A valid task of group `g` for the concrete checks. -/
def exampleTask (g : Nat) : GroupedTask :=
  { desc := { taskFunc := some 1, userData := 0 }, group := g, parentFiber := none }

/-- The rounds of the driver loop of `ExecuteTask`, in order: the fiber driven,
the value of `iteration`, and the state in which that fiber had just switched
back (before line 194). -/
def ExecuteTask.rounds (cfg : Config) (w : Nat) :
    TaskScheduler → Nat → Nat → List (List TaskCall) → List (Nat × Nat × TaskScheduler)
  | _, _, _, [] => []
  | st, f, iteration, calls :: script =>
    match ExecuteTask.enter cfg st w f with
    | none => []
    | some st1 =>
      match FiberMain.run cfg w f st1 calls with
      | none => []
      | some st2 =>
        (f, iteration, st2) ::
          (match ExecuteTask.handle cfg st2 w f iteration with
           | some (st3, ExecuteTask.Next.next parent) =>
             ExecuteTask.rounds cfg w st3 parent (iteration + 1) script
           | _ => [])

/-! ## Accounting of unfinished tasks -/

/-- A fiber whose task has started and has not finished. -/
def FiberContext.live (fc : FiberContext) : Bool :=
  match fc.taskStatus with
  | FiberTaskStatus.RUNNED => true
  | FiberTaskStatus.AWAITING_GROUP => true
  | FiberTaskStatus.AWAITING_CHILD => true
  | FiberTaskStatus.FINISHED => false
  | FiberTaskStatus.UNKNOWN => false

/-- The fiber a worker took from the pool and has not given up yet: the one it
put the guard on (line 328). -/
def Worker.first : Worker → Option Nat
  | Worker.idle => none
  | Worker.inFiber first _ _ => some first
  | Worker.returned first _ => some first
  | Worker.kept first => some first

/-- One for a fiber whose task is unfinished and has group and parent
satisfying `sel`, zero otherwise. -/
def FiberContext.weight (fc : FiberContext) (sel : Nat → Option Nat → Bool) : Nat :=
  if (fc.live && sel fc.currentGroup fc.parentFiber) = true then 1 else 0

/-- Where a worker stands after the fiber it drove came back `FINISHED` in
round `iteration`: `ExecuteTask` returned `true`, or it switched into the
parent `chain`. -/
def Worker.afterFinish (first iteration : Nat) : Option Nat → Worker
  | none => Worker.returned first true
  | some q => Worker.inFiber first q (iteration + 1)

/-- The number of unfinished tasks whose group and parent satisfy `sel`: the
tasks waiting in the FIFOs of the workers plus the fibers whose task has
started and not finished. -/
def unfinished (cfg : Config) (st : TaskScheduler) (sel : Nat → Option Nat → Bool) : Nat :=
  sumTo (fun w => (st.threadContext w).queue.countP (fun t => sel t.group t.parentFiber))
      st.threadsCount
    + sumTo (fun f => (st.fiberContext f).weight sel) cfg.MT_MAX_FIBERS_COUNT

/-- The number of workers that hold fiber `p` under their guard. -/
def guards (S : System) (p : Nat) : Nat :=
  sumTo (fun w => if (S.worker w).first = some p then 1 else 0) S.sched.threadsCount

/-- Buckets as the callers of `RunTasksImpl` build them: every task carries the
group it is submitted to, and there are fewer than `2^32` tasks in all. -/
def wellFormedBuckets (taskGroup : Nat) (buckets : List TaskBucket) : Prop :=
  (∀ b ∈ buckets, ∀ t ∈ b.tasks, t.group = taskGroup) ∧
  (buckets.map TaskBucket.count).sum < 2 ^ 32

def TaskCall.wellFormed : TaskCall → Prop
  | TaskCall.WaitGroupAndYield _ => True
  | TaskCall.RunSubtasksAndYield taskGroup buckets => wellFormedBuckets taskGroup buckets

def Step.wellFormed : Step → Prop
  | Step.RunTasks taskGroup buckets => wellFormedBuckets taskGroup buckets
  | Step.Switch _ calls => ∀ c ∈ calls, c.wellFormed
  | _ => True

/-- The states the scheduler reaches from its constructor by atomic steps with
well-formed submissions. -/
def System.Reachable (cfg : Config) (S : System) : Prop :=
  ∃ steps : List Step, (∀ e ∈ steps, e.wellFormed) ∧
    System.run cfg (System.new cfg) steps = some S

/-- What the scheduler relies on when it binds a fiber to a worker: a fiber
whose task is unfinished holds a valid task of a valid group, and a fiber that
has yielded is bound to no worker. -/
def FiberContext.consistent (cfg : Config) (fc : FiberContext) : Prop :=
  (fc.live = true → fc.currentTask.IsValid = true ∧ fc.currentGroup < cfg.GROUP_COUNT) ∧
  ((fc.taskStatus = FiberTaskStatus.AWAITING_CHILD ∨
      fc.taskStatus = FiberTaskStatus.AWAITING_GROUP) → fc.threadContext = none)

/-- The invariant of the transition system.  The clause on the counters of the
groups needs every task to carry the group it was submitted to; `T` says
whether the submissions are known to be so. -/
structure System.Inv (cfg : Config) (T : Prop) (S : System) : Prop where
  group : T → ∀ g, (S.sched.groupStats g).inProgressTaskCount
    = (unfinished cfg S.sched (fun g1 _ => g1 == g) : Nat)
  total : S.sched.allGroupStats.inProgressTaskCount
    = (unfinished cfg S.sched (fun _ _ => true) : Nat)
  children : ∀ p, (S.sched.fiberContext p).childrenFibersCount
    = ((guards S p + unfinished cfg S.sched (fun _ q => q == some p) : Nat) : Int)
  parked : ∀ p, (S.sched.fiberContext p).taskStatus ≠ FiberTaskStatus.AWAITING_CHILD →
    unfinished cfg S.sched (fun _ q => q == some p) = 0
  poolNodup : S.sched.availableFibers.Nodup
  pool : ∀ f ∈ S.sched.availableFibers, f < cfg.MT_MAX_FIBERS_COUNT ∧
    (S.sched.fiberContext f).live = false ∧ guards S f = 0
  liveBound : ∀ f, (S.sched.fiberContext f).live = true → f < cfg.MT_MAX_FIBERS_COUNT
  beyond : ∀ w, S.sched.threadsCount ≤ w →
    S.worker w = Worker.idle ∧ (S.sched.threadContext w).queue = []
  unique : ∀ p, guards S p ≤ 1
  firstBound : ∀ w o, (S.worker w).first = some o → o < cfg.MT_MAX_FIBERS_COUNT
  inFiber : ∀ w o c i, S.worker w = Worker.inFiber o c i →
    (S.sched.fiberContext c).taskStatus = FiberTaskStatus.RUNNED ∧
    (S.sched.fiberContext c).threadContext = some w ∧ (i = 0 → c = o) ∧
    (0 < i → (S.sched.fiberContext o).taskStatus = FiberTaskStatus.FINISHED ∧ guards S c = 0)
  returned : ∀ w o b, S.worker w = Worker.returned o b →
    (S.sched.fiberContext o).taskStatus = FiberTaskStatus.FINISHED ∨
    (b = false ∧ ((S.sched.fiberContext o).taskStatus = FiberTaskStatus.AWAITING_GROUP ∨
      (S.sched.fiberContext o).taskStatus = FiberTaskStatus.AWAITING_CHILD))

/-! ## Counters and events of the groups -/

/-- Sum of `f 0, .., f (n-1)` over the integers. -/
def sumInt (f : Nat → Int) : Nat → Int
  | 0 => 0
  | n + 1 => sumInt f n + f n

/-- The submissions a step makes: group and buckets of each `RunTasksImpl` call
it may run. -/
def Step.submits : Step → Nat → List TaskBucket → Prop
  | Step.RunTasks taskGroup buckets, g, bs => g = taskGroup ∧ bs = buckets
  | Step.Switch _ calls, g, bs => TaskCall.RunSubtasksAndYield g bs ∈ calls
  | _, _, _ => False

/-- Every `RunTasksImpl` call the step may run submits fewer than `2^32` tasks. -/
def Step.bounded (e : Step) : Prop :=
  ∀ g bs, e.submits g bs → (bs.map TaskBucket.count).sum < 2 ^ 32

/-- Every bucket the step submits holds at least one task and fewer than `2^32`. -/
def Step.nonEmptyBuckets (e : Step) : Prop :=
  ∀ g bs, e.submits g bs → ∀ b ∈ bs, 0 < b.count ∧ b.count < 2 ^ 32

/-- The counters and events of the groups: the counter of all groups is the sum
of the group counters, no counter is negative, and a signaled event goes with a
counter at zero. -/
structure StatsInv (cfg : Config) (st : TaskScheduler) : Prop where
  sum : st.allGroupStats.inProgressTaskCount
    = sumInt (fun g => (st.groupStats g).inProgressTaskCount) cfg.GROUP_COUNT
  groupNonneg : ∀ g, 0 ≤ (st.groupStats g).inProgressTaskCount
  totalNonneg : 0 ≤ st.allGroupStats.inProgressTaskCount
  groupEvent : ∀ g, (st.groupStats g).allDoneEvent.signaled = true →
    (st.groupStats g).inProgressTaskCount = 0
  totalEvent : st.allGroupStats.allDoneEvent.signaled = true →
    st.allGroupStats.inProgressTaskCount = 0

/-- A counter at zero goes with a signaled event. -/
structure DoneInv (st : TaskScheduler) : Prop where
  group : ∀ g, (st.groupStats g).inProgressTaskCount = 0 →
    (st.groupStats g).allDoneEvent.signaled = true
  total : st.allGroupStats.inProgressTaskCount = 0 →
    st.allGroupStats.allDoneEvent.signaled = true

/-! ## `ExecuteTask`: what each piece does -/

theorem ExecuteTask.enter_some {cfg : Config} {st st1 : TaskScheduler} {w f : Nat}
    (h : ExecuteTask.enter cfg st w f = some st1) :
    (st.fiberContext f).currentTask.IsValid = true ∧
    (st.fiberContext f).currentGroup < cfg.GROUP_COUNT ∧
    st1 = { st with
      fiberContext := setAt st.fiberContext f
        { st.fiberContext f with
          threadContext := some w, taskStatus := FiberTaskStatus.RUNNED } } := by
  unfold ExecuteTask.enter at h
  dsimp only at h
  split at h
  · cases h
  · split at h
    · cases h
    · rename_i h0 h1
      simp only [Option.some.injEq] at h
      exact ⟨by simpa using h0, by simpa using h1, h.symm⟩

theorem ExecuteTask.updateGroup_some {st st1 : TaskScheduler} {g : Nat}
    (h : ExecuteTask.updateGroup st g = some st1) :
    0 ≤ (st.groupStats g).inProgressTaskCount - 1 ∧
    st1 = { st with
      groupStats := setAt st.groupStats g
        { inProgressTaskCount := (st.groupStats g).inProgressTaskCount - 1
          allDoneEvent :=
            if (st.groupStats g).inProgressTaskCount - 1 = 0
            then (st.groupStats g).allDoneEvent.Signal else (st.groupStats g).allDoneEvent } } := by
  unfold ExecuteTask.updateGroup at h
  dsimp only [RestoreAwaitingTasks, AtomicInt.Dec] at h
  split at h
  · cases h
  · rename_i h0
    split at h
    · rename_i h1
      simp only [Option.some.injEq] at h
      refine ⟨by omega, ?_⟩
      rw [← h]
      congr 1
      funext j
      by_cases hj : j = g
      · subst hj; simp [setAt, h1]
      · simp [setAt, hj]
    · rename_i h1
      simp only [Option.some.injEq] at h
      refine ⟨by omega, ?_⟩
      rw [← h]
      simp [h1]

theorem ExecuteTask.updateTotal_some {st st1 : TaskScheduler}
    (h : ExecuteTask.updateTotal st = some st1) :
    0 ≤ st.allGroupStats.inProgressTaskCount - 1 ∧
    st1 = { st with
      allGroupStats :=
        { inProgressTaskCount := st.allGroupStats.inProgressTaskCount - 1
          allDoneEvent :=
            if st.allGroupStats.inProgressTaskCount - 1 = 0
            then st.allGroupStats.allDoneEvent.Signal else st.allGroupStats.allDoneEvent } } := by
  unfold ExecuteTask.updateTotal at h
  dsimp only [AtomicInt.Dec] at h
  split at h
  · cases h
  · rename_i h0
    split at h
    · rename_i h1
      simp only [Option.some.injEq] at h
      refine ⟨by omega, ?_⟩
      rw [← h]
      simp [h1]
    · rename_i h1
      simp only [Option.some.injEq] at h
      refine ⟨by omega, ?_⟩
      rw [← h]
      simp [h1]

theorem ReleaseFiberContext_some {cfg : Config} {st st1 : TaskScheduler} {f : Nat}
    (h : ReleaseFiberContext cfg st f = some st1) :
    (st.fiberContext f).childrenFibersCount = 0 ∧
    st1 = { st with
      fiberContext := setAt st.fiberContext f
        { st.fiberContext f with
          currentGroup := cfg.GROUP_UNDEFINED, currentTask := { taskFunc := none, userData := 0 },
          parentFiber := none, threadContext := none }
      availableFibers := f :: st.availableFibers } := by
  unfold ReleaseFiberContext FiberContext.Reset at h
  split at h
  · cases h
  · rename_i fc hfc
    split at hfc
    · rename_i h0
      simp only [Option.some.injEq] at hfc h
      exact ⟨h0, by rw [← h, ← hfc]⟩
    · cases hfc

theorem ExecuteTask.parent_none {st : TaskScheduler} {w : Nat} :
    ExecuteTask.parent st w none = some (st, ExecuteTask.Next.ret true) := rfl

theorem ExecuteTask.parent_some {st st1 : TaskScheduler} {w q : Nat} {nxt : ExecuteTask.Next}
    (h : ExecuteTask.parent st w (some q) = some (st1, nxt)) :
    0 ≤ (st.fiberContext q).childrenFibersCount - 1 ∧
    (((st.fiberContext q).childrenFibersCount - 1 = 0 ∧ (st.fiberContext q).threadContext = none ∧
        nxt = ExecuteTask.Next.next q ∧
        st1 = { st with
          fiberContext := setAt st.fiberContext q
            { st.fiberContext q with
              childrenFibersCount := (st.fiberContext q).childrenFibersCount - 1,
              threadContext := some w } }) ∨
     (0 < (st.fiberContext q).childrenFibersCount - 1 ∧ nxt = ExecuteTask.Next.ret true ∧
        st1 = { st with
          fiberContext := setAt st.fiberContext q
            { st.fiberContext q with
              childrenFibersCount := (st.fiberContext q).childrenFibersCount - 1 } })) := by
  unfold ExecuteTask.parent at h
  dsimp only [AtomicInt.Dec] at h
  split at h
  · cases h
  · rename_i h0
    split at h
    · rename_i h1
      split at h
      · cases h
      · rename_i h2
        simp only [Option.some.injEq, Prod.mk.injEq] at h
        refine ⟨by omega, Or.inl ⟨h1, h2, h.2.symm, ?_⟩⟩
        rw [← h.1]
        congr 1
        funext j
        by_cases hj : j = q
        · subst hj; simp [setAt]
        · simp [setAt, hj]
    · rename_i h1
      simp only [Option.some.injEq, Prod.mk.injEq] at h
      exact ⟨by omega, Or.inr ⟨by omega, h.2.symm, h.1.symm⟩⟩


theorem ExecuteTask.handle_finished {cfg : Config} {s s' : TaskScheduler} {w c it : Nat}
    {nxt : ExecuteTask.Next}
    (hst : (s.fiberContext c).taskStatus = FiberTaskStatus.FINISHED)
    (h : ExecuteTask.handle cfg s w c it = some (s', nxt)) :
    (s.fiberContext c).currentGroup < cfg.GROUP_COUNT ∧
    ∃ s1 s2 s3, ExecuteTask.updateGroup s (s.fiberContext c).currentGroup = some s1 ∧
      ExecuteTask.updateTotal s1 = some s2 ∧
      (if it > 0 then ReleaseFiberContext cfg s2 c else some s2) = some s3 ∧
      ExecuteTask.parent s3 w (s.fiberContext c).parentFiber = some (s', nxt) := by
  unfold ExecuteTask.handle at h
  simp only [hst] at h
  split at h
  · cases h
  · rename_i hg
    split at h
    · cases h
    · rename_i s1 h1
      split at h
      · cases h
      · rename_i s2 h2
        split at h
        · cases h
        · rename_i s3 h3
          exact ⟨by simpa using hg, s1, s2, s3, h1, h2, h3, h⟩

theorem ExecuteTask.handle_awaiting {cfg : Config} {s : TaskScheduler} {w c it : Nat}
    (hst : (s.fiberContext c).taskStatus = FiberTaskStatus.AWAITING_GROUP ∨
      (s.fiberContext c).taskStatus = FiberTaskStatus.AWAITING_CHILD) :
    ExecuteTask.handle cfg s w c it = some (s, ExecuteTask.Next.ret false) := by
  unfold ExecuteTask.handle
  rcases hst with h | h <;> simp [h]

theorem ExecuteTask.handle_status {cfg : Config} {s : TaskScheduler} {w c it : Nat}
    {r : TaskScheduler × ExecuteTask.Next}
    (h : ExecuteTask.handle cfg s w c it = some r) :
    (s.fiberContext c).taskStatus = FiberTaskStatus.FINISHED ∨
    (s.fiberContext c).taskStatus = FiberTaskStatus.AWAITING_GROUP ∨
    (s.fiberContext c).taskStatus = FiberTaskStatus.AWAITING_CHILD := by
  unfold ExecuteTask.handle at h
  cases hs : (s.fiberContext c).taskStatus <;> simp [hs] at h ⊢

/-- The fiber state that the parent step of a finished fiber starts from. -/
theorem ExecuteTask.handle_finished_fibers {cfg : Config} {s s1 s2 s3 : TaskScheduler}
    {c it : Nat}
    (h1 : ExecuteTask.updateGroup s (s.fiberContext c).currentGroup = some s1)
    (h2 : ExecuteTask.updateTotal s1 = some s2)
    (h3 : (if it > 0 then ReleaseFiberContext cfg s2 c else some s2) = some s3) :
    (∀ q, (s3.fiberContext q).childrenFibersCount = (s.fiberContext q).childrenFibersCount) ∧
    (∀ q, q ≠ c → s3.fiberContext q = s.fiberContext q) ∧
    (it = 0 → s3.fiberContext = s.fiberContext) ∧
    (0 < it → (s.fiberContext c).childrenFibersCount = 0) := by
  obtain ⟨_, e1⟩ := ExecuteTask.updateGroup_some h1
  obtain ⟨_, e2⟩ := ExecuteTask.updateTotal_some h2
  have hf2 : s2.fiberContext = s.fiberContext := by subst e2; subst e1; rfl
  by_cases hit : it > 0
  · simp only [hit, if_true] at h3
    obtain ⟨hz, e3⟩ := ReleaseFiberContext_some h3
    rw [hf2] at hz
    refine ⟨?_, ?_, fun h => by omega, fun _ => hz⟩
    · intro q
      subst e3
      by_cases hq : q = c
      · subst hq; simp [setAt, hf2]
      · simp [setAt, hq, hf2]
    · intro q hq
      subst e3
      simp [setAt, hq, hf2]
  · simp only [hit, if_false, Option.some.injEq] at h3
    subst h3
    exact ⟨fun q => by rw [hf2], fun q _ => by rw [hf2], fun _ => hf2, fun h => absurd h hit⟩


theorem ExecuteTask.handle_spec {cfg : Config} {s s' : TaskScheduler} {w c it : Nat}
    {nxt : ExecuteTask.Next} (h : ExecuteTask.handle cfg s w c it = some (s', nxt)) :
    (nxt = ExecuteTask.Next.ret false ↔
      ((s.fiberContext c).taskStatus = FiberTaskStatus.AWAITING_GROUP ∨
       (s.fiberContext c).taskStatus = FiberTaskStatus.AWAITING_CHILD)) ∧
    (nxt = ExecuteTask.Next.ret true ↔
      ((s.fiberContext c).taskStatus = FiberTaskStatus.FINISHED ∧
       ((s.fiberContext c).parentFiber = none ∨
        ∃ q, (s.fiberContext c).parentFiber = some q ∧
          0 < (s.fiberContext q).childrenFibersCount - 1))) ∧
    (∀ q, nxt = ExecuteTask.Next.next q ↔
      ((s.fiberContext c).taskStatus = FiberTaskStatus.FINISHED ∧
       (s.fiberContext c).parentFiber = some q ∧
       (s.fiberContext q).childrenFibersCount - 1 = 0)) ∧
    (∀ q, nxt = ExecuteTask.Next.next q → (s'.fiberContext q).threadContext = some w) ∧
    ((s.fiberContext c).taskStatus = FiberTaskStatus.FINISHED →
      ∀ q, (s.fiberContext c).parentFiber = some q →
        (s'.fiberContext q).childrenFibersCount = (s.fiberContext q).childrenFibersCount - 1) := by
  rcases ExecuteTask.handle_status h with hst | hst | hst
  · obtain ⟨_, s1, s2, s3, h1, h2, h3, h4⟩ := ExecuteTask.handle_finished hst h
    obtain ⟨hc, _, _, _⟩ := ExecuteTask.handle_finished_fibers h1 h2 h3
    cases hp : (s.fiberContext c).parentFiber with
    | none =>
      rw [hp, ExecuteTask.parent_none] at h4
      simp only [Option.some.injEq, Prod.mk.injEq] at h4
      obtain ⟨_, e⟩ := h4
      subst e
      simp [hst]
    | some q =>
      rw [hp] at h4
      obtain ⟨_, hcase⟩ := ExecuteTask.parent_some h4
      rw [hc q] at hcase
      rcases hcase with ⟨hz, _, e, es⟩ | ⟨hpos, e, es⟩
      · subst e
        subst es
        refine ⟨by simp [hst], ?_, ?_, ?_, ?_⟩
        · simp only [hst, true_and, false_iff, reduceCtorEq, false_or,
            Option.some.injEq, not_exists, not_and]
          intro x hx; subst hx; omega
        · intro q'
          simp only [ExecuteTask.Next.next.injEq, hst, true_and, Option.some.injEq]
          constructor
          · intro e; subst e; exact ⟨rfl, hz⟩
          · intro e; exact e.1
        · intro q' e
          simp only [ExecuteTask.Next.next.injEq] at e
          subst e
          simp [setAt]
        · intro _ q' e
          simp only [Option.some.injEq] at e
          subst e
          simp [setAt, hc]
      · subst e
        subst es
        refine ⟨by simp [hst], ?_, ?_, ?_, ?_⟩
        · simp only [hst, true_and, true_iff, reduceCtorEq, false_or, Option.some.injEq]
          exact ⟨q, rfl, hpos⟩
        · intro q'
          simp only [reduceCtorEq, hst, true_and, Option.some.injEq, false_iff, not_and]
          intro e; subst e; omega
        · intro q' e
          cases e
        · intro _ q' e
          simp only [Option.some.injEq] at e
          subst e
          simp [setAt, hc]
  · have e := @ExecuteTask.handle_awaiting cfg s w c it (Or.inl hst)
    rw [e] at h
    simp only [Option.some.injEq, Prod.mk.injEq] at h
    obtain ⟨_, e2⟩ := h
    subst e2
    simp [hst]
  · have e := @ExecuteTask.handle_awaiting cfg s w c it (Or.inr hst)
    rw [e] at h
    simp only [Option.some.injEq, Prod.mk.injEq] at h
    obtain ⟨_, e2⟩ := h
    subst e2
    simp [hst]

theorem ExecuteTask.loop_last {cfg : Config} {w : Nat} :
    ∀ (script : List (List TaskCall)) (st : TaskScheduler) (f it : Nat) (b : Bool)
      (st1 : TaskScheduler),
      ExecuteTask.loop cfg w st f it script = some (b, st1) →
      ∃ c k s, (ExecuteTask.rounds cfg w st f it script).getLast? = some (c, k, s) ∧
        ExecuteTask.handle cfg s w c k = some (st1, ExecuteTask.Next.ret b) := by
  intro script
  induction script with
  | nil => intro st f it b st1 h; simp [ExecuteTask.loop] at h
  | cons calls script ih =>
    intro st f it b st1 h
    simp only [ExecuteTask.loop] at h
    simp only [ExecuteTask.rounds]
    cases h1 : ExecuteTask.enter cfg st w f with
    | none => simp [h1] at h
    | some s1 =>
      simp only [h1] at h ⊢
      cases h2 : FiberMain.run cfg w f s1 calls with
      | none => simp [h2] at h
      | some s2 =>
        simp only [h2] at h ⊢
        cases h3 : ExecuteTask.handle cfg s2 w f it with
        | none => simp [h3] at h
        | some r =>
          obtain ⟨s3, nxt⟩ := r
          cases nxt with
          | ret d =>
            simp only [h3, Option.some.injEq, Prod.mk.injEq] at h
            obtain ⟨e1, e2⟩ := h
            subst e1; subst e2
            exact ⟨f, it, s2, by simp, h3⟩
          | next q =>
            simp only [h3] at h
            obtain ⟨c, k, s, hl, hh⟩ := ih s3 q (it + 1) b st1 h
            refine ⟨c, k, s, ?_, hh⟩
            rw [List.getLast?_cons, hl]
            rfl

/-! ## `ExecuteTask`: when it does not fault -/

theorem ExecuteTask.updateGroup_ok {st : TaskScheduler} {g : Nat}
    (h : 1 ≤ (st.groupStats g).inProgressTaskCount) :
    ∃ st1, ExecuteTask.updateGroup st g = some st1 := by
  unfold ExecuteTask.updateGroup
  dsimp only [RestoreAwaitingTasks, AtomicInt.Dec]
  rw [if_neg (by omega)]
  split
  · exact ⟨_, rfl⟩
  · exact ⟨_, rfl⟩

theorem ExecuteTask.updateTotal_ok {st : TaskScheduler}
    (h : 1 ≤ st.allGroupStats.inProgressTaskCount) :
    ∃ st1, ExecuteTask.updateTotal st = some st1 := by
  unfold ExecuteTask.updateTotal
  dsimp only [AtomicInt.Dec]
  rw [if_neg (by omega)]
  split
  · exact ⟨_, rfl⟩
  · exact ⟨_, rfl⟩

theorem ReleaseFiberContext_ok {cfg : Config} {st : TaskScheduler} {f : Nat}
    (h : (st.fiberContext f).childrenFibersCount = 0) :
    ∃ st1, ReleaseFiberContext cfg st f = some st1 := by
  unfold ReleaseFiberContext FiberContext.Reset
  rw [if_pos h]
  exact ⟨_, rfl⟩

theorem ExecuteTask.parent_ok {st : TaskScheduler} {w q : Nat}
    (h1 : 1 ≤ (st.fiberContext q).childrenFibersCount)
    (h2 : (st.fiberContext q).childrenFibersCount = 1 → (st.fiberContext q).threadContext = none) :
    ∃ r, ExecuteTask.parent st w (some q) = some r := by
  unfold ExecuteTask.parent
  dsimp only [AtomicInt.Dec]
  rw [if_neg (by omega)]
  by_cases hz : (st.fiberContext q).childrenFibersCount - 1 = 0
  · rw [if_pos hz, h2 (by omega)]
    exact ⟨_, rfl⟩
  · rw [if_neg hz]
    exact ⟨_, rfl⟩

/-- A `FINISHED` fiber is handled without a fault when none of the `ASSERT`s of
lines 197-241 fails. -/
theorem ExecuteTask.handle_ok {cfg : Config} {s : TaskScheduler} {w c k : Nat}
    (hst : (s.fiberContext c).taskStatus = FiberTaskStatus.FINISHED)
    (hg : (s.fiberContext c).currentGroup < cfg.GROUP_COUNT)
    (hgc : 1 ≤ (s.groupStats (s.fiberContext c).currentGroup).inProgressTaskCount)
    (hall : 1 ≤ s.allGroupStats.inProgressTaskCount)
    (hrel : 0 < k → (s.fiberContext c).childrenFibersCount = 0)
    (hpar : ∀ q, (s.fiberContext c).parentFiber = some q →
      1 ≤ (s.fiberContext q).childrenFibersCount ∧
      ((s.fiberContext q).childrenFibersCount = 1 → (s.fiberContext q).threadContext = none)) :
    ∃ s1 nxt, ExecuteTask.handle cfg s w c k = some (s1, nxt) := by
  obtain ⟨s1, h1⟩ := ExecuteTask.updateGroup_ok hgc
  obtain ⟨_, e1⟩ := ExecuteTask.updateGroup_some h1
  obtain ⟨s2, h2⟩ := @ExecuteTask.updateTotal_ok s1 (by rw [e1]; exact hall)
  obtain ⟨_, e2⟩ := ExecuteTask.updateTotal_some h2
  have hf2 : s2.fiberContext = s.fiberContext := by rw [e2, e1]
  obtain ⟨s3, h3⟩ : ∃ s3, (if k > 0 then ReleaseFiberContext cfg s2 c else some s2) = some s3 := by
    by_cases hk : k > 0
    · rw [if_pos hk]
      exact ReleaseFiberContext_ok (by rw [hf2]; exact hrel hk)
    · rw [if_neg hk]
      exact ⟨_, rfl⟩
  obtain ⟨hcnt, hoth, hzero, _⟩ := ExecuteTask.handle_finished_fibers h1 h2 h3
  have hp : ∃ r, ExecuteTask.parent s3 w (s.fiberContext c).parentFiber = some r := by
    cases hq : (s.fiberContext c).parentFiber with
    | none => exact ⟨_, rfl⟩
    | some q =>
      obtain ⟨a, b⟩ := hpar q hq
      apply ExecuteTask.parent_ok
      · rw [hcnt q]; exact a
      · intro hone
        rw [hcnt q] at hone
        by_cases hqc : q = c
        · by_cases hk : 0 < k
          · have := hrel hk
            rw [hqc] at hone
            omega
          · have : k = 0 := by omega
            rw [hzero this]
            exact b hone
        · rw [hoth q hqc]
          exact b hone
  obtain ⟨⟨s4, nxt⟩, h4⟩ := hp
  refine ⟨s4, nxt, ?_⟩
  unfold ExecuteTask.handle
  simp only [hst]
  rw [if_neg (by simpa using hg)]
  simp only [h1, h2, h3, h4]

theorem ExecuteTask.enter_ok {cfg : Config} {st : TaskScheduler} {w f : Nat}
    (hv : (st.fiberContext f).currentTask.IsValid = true)
    (hg : (st.fiberContext f).currentGroup < cfg.GROUP_COUNT) :
    ∃ st1, ExecuteTask.enter cfg st w f = some st1 := by
  unfold ExecuteTask.enter
  dsimp only
  rw [if_neg (by simp [hv]), if_neg (by simpa using hg)]
  exact ⟨_, rfl⟩


/-! ## Submission: `RunTasksImpl` -/

theorem sumTo_congr {f g : Nat → Nat} {n : Nat} (h : ∀ i, i < n → f i = g i) :
    sumTo f n = sumTo g n := by
  induction n with
  | zero => rfl
  | succ n ih =>
    simp only [sumTo]
    rw [ih (fun i hi => h i (by omega)), h n (by omega)]

theorem sumTo_update {f g : Nat → Nat} {n i : Nat} (hi : i < n)
    (h : ∀ j, j ≠ i → g j = f j) : sumTo g n + f i = sumTo f n + g i := by
  induction n with
  | zero => omega
  | succ n ih =>
    simp only [sumTo]
    by_cases hn : i = n
    · subst hn
      have : sumTo g i = sumTo f i := sumTo_congr (fun j hj => h j (by omega))
      omega
    · have := ih (by omega)
      have := h n (fun e => hn e.symm)
      omega

theorem sumTo_eq_zero {f : Nat → Nat} {n : Nat} (h : sumTo f n = 0) :
    ∀ i, i < n → f i = 0 := by
  induction n with
  | zero => intro i hi; omega
  | succ n ih =>
    simp only [sumTo] at h
    intro i hi
    by_cases hn : i = n
    · subst hn; omega
    · exact ih (by omega) i (by omega)

theorem sumTo_zero {f : Nat → Nat} {n : Nat} (h : ∀ i, i < n → f i = 0) : sumTo f n = 0 := by
  induction n with
  | zero => rfl
  | succ n ih =>
    simp only [sumTo]
    rw [ih (fun i hi => h i (by omega)), h n (by omega)]

theorem le_sumTo {f : Nat → Nat} {n i : Nat} (hi : i < n) : f i ≤ sumTo f n := by
  induction n with
  | zero => omega
  | succ n ih =>
    simp only [sumTo]
    by_cases hn : i = n
    · subst hn; omega
    · have := ih (by omega); omega

theorem RunTasksImpl.dispatch_some {st st1 : TaskScheduler} {g : Nat} {p : Option Nat}
    {b : TaskBucket} (h : RunTasksImpl.dispatch st g p b = some st1) :
    st.threadsCount ≠ 0 ∧ 0 ≤ Int.tmod (st.roundRobinThreadIndex + 1) (st.threadsCount : Int) ∧
    st1 = { st with
      roundRobinThreadIndex := st.roundRobinThreadIndex + 1
      allGroupStats :=
        { inProgressTaskCount := st.allGroupStats.inProgressTaskCount + toUint32 b.count
          allDoneEvent := st.allGroupStats.allDoneEvent.Reset }
      groupStats := setAt st.groupStats g
        { inProgressTaskCount := (st.groupStats g).inProgressTaskCount + toUint32 b.count
          allDoneEvent := (st.groupStats g).allDoneEvent.Reset }
      threadContext := setAt st.threadContext (RunTasksImpl.target st)
        { st.threadContext (RunTasksImpl.target st) with
          queue := (st.threadContext (RunTasksImpl.target st)).queue ++ b.tasks.map (stampParent p)
          hasNewTasksEvent := (st.threadContext (RunTasksImpl.target st)).hasNewTasksEvent.Signal } } := by
  unfold RunTasksImpl.dispatch at h
  dsimp only at h
  split at h
  · cases h
  · split at h
    · cases h
    · rename_i h0 h1
      refine ⟨h0, by simpa using h1, ?_⟩
      simp only [Option.some.injEq] at h
      rw [← h]
      rfl

theorem RunTasksImpl.dispatch_ok (st : TaskScheduler) (g : Nat) (p : Option Nat) (b : TaskBucket)
    (htc : 1 ≤ st.threadsCount) (hrr : 0 ≤ st.roundRobinThreadIndex) :
    ∃ st1, RunTasksImpl.dispatch st g p b = some st1 := by
  unfold RunTasksImpl.dispatch
  have h0 : st.threadsCount ≠ 0 := by omega
  have h1 : ¬ Int.tmod (AtomicInt.Inc st.roundRobinThreadIndex) (st.threadsCount : Int) < 0 := by
    have := Int.tmod_nonneg (st.threadsCount : Int)
      (show 0 ≤ AtomicInt.Inc st.roundRobinThreadIndex by simp only [AtomicInt.Inc]; omega)
    omega
  simp only [h0, h1, if_false]
  exact ⟨_, rfl⟩

theorem RunTasksImpl.loop_frame {g : Nat} {p : Option Nat} :
    ∀ (bs : List TaskBucket) {st st1 : TaskScheduler},
      RunTasksImpl.loop g p st bs = some st1 →
      st1.threadsCount = st.threadsCount ∧ st1.fiberContext = st.fiberContext ∧
      st1.availableFibers = st.availableFibers ∧ st1.waitTaskQueues = st.waitTaskQueues ∧
      st1.roundRobinThreadIndex = st.roundRobinThreadIndex + bs.length := by
  intro bs
  induction bs with
  | nil =>
    intro st st1 h
    simp only [RunTasksImpl.loop, Option.some.injEq] at h
    subst h
    simp
  | cons b bs ih =>
    intro st st1 h
    simp only [RunTasksImpl.loop] at h
    cases hd : RunTasksImpl.dispatch st g p b with
    | none => simp [hd] at h
    | some s =>
      simp only [hd] at h
      obtain ⟨_, _, hs⟩ := RunTasksImpl.dispatch_some hd
      obtain ⟨h1, h2, h3, h4, h5⟩ := ih h
      subst hs
      refine ⟨h1, h2, h3, h4, ?_⟩
      rw [h5]
      simp only [List.length_cons, Nat.cast_add, Nat.cast_one]
      omega

theorem RunTasksImpl.loop_counts {g : Nat} {p : Option Nat} :
    ∀ (bs : List TaskBucket) {st st1 : TaskScheduler},
      RunTasksImpl.loop g p st bs = some st1 →
      st1.allGroupStats.inProgressTaskCount =
        st.allGroupStats.inProgressTaskCount + (bs.map (fun b => toUint32 b.count)).sum ∧
      (st1.groupStats g).inProgressTaskCount =
        (st.groupStats g).inProgressTaskCount + (bs.map (fun b => toUint32 b.count)).sum ∧
      (∀ g1, g1 ≠ g → st1.groupStats g1 = st.groupStats g1) := by
  intro bs
  induction bs with
  | nil =>
    intro st st1 h
    simp only [RunTasksImpl.loop, Option.some.injEq] at h
    subst h
    simp
  | cons b bs ih =>
    intro st st1 h
    simp only [RunTasksImpl.loop] at h
    cases hd : RunTasksImpl.dispatch st g p b with
    | none => simp [hd] at h
    | some s =>
      simp only [hd] at h
      obtain ⟨_, _, hs⟩ := RunTasksImpl.dispatch_some hd
      obtain ⟨h1, h2, h3⟩ := ih h
      subst hs
      refine ⟨?_, ?_, ?_⟩
      · rw [h1]; simp only [List.map_cons, List.sum_cons]; omega
      · rw [h2]; simp only [List.map_cons, List.sum_cons, setAt, if_true]; omega
      · intro g1 hg1
        rw [h3 g1 hg1]
        simp [setAt, hg1]

theorem RunTasksImpl.loop_events {g : Nat} {p : Option Nat} :
    ∀ (bs : List TaskBucket) {st st1 : TaskScheduler},
      RunTasksImpl.loop g p st bs = some st1 → bs ≠ [] →
      st1.allGroupStats.allDoneEvent.signaled = false ∧
      (st1.groupStats g).allDoneEvent.signaled = false := by
  intro bs
  induction bs with
  | nil => intro st st1 _ h; exact absurd rfl h
  | cons b bs ih =>
    intro st st1 h _
    simp only [RunTasksImpl.loop] at h
    cases hd : RunTasksImpl.dispatch st g p b with
    | none => simp [hd] at h
    | some s =>
      simp only [hd] at h
      obtain ⟨_, _, hs⟩ := RunTasksImpl.dispatch_some hd
      cases bs with
      | nil =>
        simp only [RunTasksImpl.loop, Option.some.injEq] at h
        subst h
        subst hs
        simp [setAt, Event.Reset]
      | cons b2 bs2 => exact ih h (by simp)

theorem RunTasksImpl.loop_ok {g : Nat} {p : Option Nat} :
    ∀ (bs : List TaskBucket) (st : TaskScheduler),
      1 ≤ st.threadsCount → 0 ≤ st.roundRobinThreadIndex →
      ∃ st1, RunTasksImpl.loop g p st bs = some st1 := by
  intro bs
  induction bs with
  | nil => intro st _ _; exact ⟨st, rfl⟩
  | cons b bs ih =>
    intro st htc hrr
    obtain ⟨s, hd⟩ := RunTasksImpl.dispatch_ok st g p b htc hrr
    obtain ⟨_, _, hs⟩ := RunTasksImpl.dispatch_some hd
    have h1 : 1 ≤ s.threadsCount := by subst hs; exact htc
    have h2 : 0 ≤ s.roundRobinThreadIndex := by subst hs; simp only; omega
    obtain ⟨st1, h⟩ := ih s h1 h2
    exact ⟨st1, by simp only [RunTasksImpl.loop, hd, h]⟩

theorem RunTasksImpl.count_eq (bs : List TaskBucket) :
    RunTasksImpl.count bs = (bs.map TaskBucket.count).sum := by
  have h : ∀ (l : List TaskBucket) (a : Nat),
      l.foldl (fun count b => count + b.count) a = a + (l.map TaskBucket.count).sum := by
    intro l
    induction l with
    | nil => intro a; simp
    | cons b l ih => intro a; simp only [List.foldl_cons, ih, List.map_cons, List.sum_cons]; omega
  simpa [RunTasksImpl.count] using h bs 0

theorem sum_toUint32 (bs : List TaskBucket) (h : (bs.map TaskBucket.count).sum < 2 ^ 32) :
    (bs.map (fun b => toUint32 b.count)).sum = (((bs.map TaskBucket.count).sum : Nat) : Int) := by
  induction bs with
  | nil => simp
  | cons b bs ih =>
    simp only [List.map_cons, List.sum_cons] at h ⊢
    rw [ih (by omega)]
    have : b.count % 2 ^ 32 = b.count := Nat.mod_eq_of_lt (by omega)
    simp only [toUint32, this]
    push_cast
    rfl

theorem RunTasksImpl.target_eq (st : TaskScheduler) (hrr : 0 ≤ st.roundRobinThreadIndex) :
    RunTasksImpl.target st =
      ((st.roundRobinThreadIndex + 1) % (st.threadsCount : Int)).toNat := by
  unfold RunTasksImpl.target
  rw [Int.tmod_eq_emod (by omega) (by omega)]

theorem RunTasksImpl.loop_queues {g : Nat} {p : Option Nat} :
    ∀ (bs : List TaskBucket) (k : Nat) (r : Int) {st st1 : TaskScheduler},
      RunTasksImpl.loop g p st bs = some st1 →
      st.roundRobinThreadIndex = r + k → 0 ≤ st.roundRobinThreadIndex →
      ∀ w, (st1.threadContext w).queue =
        (st.threadContext w).queue ++ RunTasksImpl.appended st.threadsCount p w r k bs := by
  intro bs
  induction bs with
  | nil =>
    intro k r st st1 h _ _ w
    simp only [RunTasksImpl.loop, Option.some.injEq] at h
    subst h
    simp [RunTasksImpl.appended]
  | cons b bs ih =>
    intro k r st st1 h hr hrr w
    simp only [RunTasksImpl.loop] at h
    cases hd : RunTasksImpl.dispatch st g p b with
    | none => simp [hd] at h
    | some s =>
      simp only [hd] at h
      obtain ⟨_, _, hs⟩ := RunTasksImpl.dispatch_some hd
      have htgt := RunTasksImpl.target_eq st hrr
      have h1 : s.roundRobinThreadIndex = r + ((k + 1 : Nat) : Int) := by
        subst hs; simp only; push_cast; omega
      have h2 : 0 ≤ s.roundRobinThreadIndex := by subst hs; simp only; omega
      have h3 : s.threadsCount = st.threadsCount := by subst hs; rfl
      rw [ih (k + 1) r h h1 h2 w, h3]
      have h4 : (s.threadContext w).queue = (st.threadContext w).queue ++
          (if RunTasksImpl.target st = w then b.tasks.map (stampParent p) else []) := by
        subst hs
        by_cases hw : w = RunTasksImpl.target st
        · subst hw; simp [setAt]
        · have hw2 : ¬ RunTasksImpl.target st = w := fun e => hw e.symm
          simp [setAt, hw, hw2]
      rw [h4, htgt, hr]
      simp only [RunTasksImpl.appended, List.enumFrom_cons, List.filter_cons]
      by_cases hw : ((r + (k : Int) + 1) % (st.threadsCount : Int)).toNat = w
      · simp [hw]
      · simp [hw]

theorem RunTasksImpl.appended_parent (tc : Nat) (p : Option Nat) (w : Nat) (r : Int) (k : Nat)
    (bs : List TaskBucket) : ∀ t, t ∈ RunTasksImpl.appended tc p w r k bs → t.parentFiber = p := by
  intro t ht
  simp only [RunTasksImpl.appended, List.mem_flatten, List.mem_map, List.mem_filter] at ht
  obtain ⟨l, ⟨ib, _, hl⟩, htl⟩ := ht
  subst hl
  simp only [List.mem_map] at htl
  obtain ⟨t0, _, e⟩ := htl
  subst e
  rfl

/-! ## Claims about `RunTasksImpl` -/

/-- C2: for a valid group and buckets holding `N < 2^32` tasks in total,
`RunTasksImpl` returns whenever the scheduler has a worker and a non-negative
round-robin counter, and whenever it returns the counter of the group and the
counter of all groups are each exactly `N` larger, the counter of every other
group is unchanged, a given parent's `childrenFibersCount` is exactly `N`
larger, that addition being in place in the state the bucket loop starts from
(where no FIFO has changed yet), and no other fiber's counter changes; without
a parent no fiber's counter changes. -/
theorem RunTasksImpl_counters (cfg : Config) (st : TaskScheduler) (g : Nat)
    (buckets : List TaskBucket) (p : Option Nat)
    (hg : g < cfg.GROUP_COUNT) (hN : (buckets.map TaskBucket.count).sum < 2 ^ 32) :
    (1 ≤ st.threadsCount → 0 ≤ st.roundRobinThreadIndex →
      ∃ st1, RunTasksImpl cfg st g buckets p = some st1) ∧
    (∀ st1, RunTasksImpl cfg st g buckets p = some st1 →
      (st1.groupStats g).inProgressTaskCount =
        (st.groupStats g).inProgressTaskCount + ((buckets.map TaskBucket.count).sum : Nat) ∧
      st1.allGroupStats.inProgressTaskCount =
        st.allGroupStats.inProgressTaskCount + ((buckets.map TaskBucket.count).sum : Nat) ∧
      (∀ g1, g1 ≠ g →
        (st1.groupStats g1).inProgressTaskCount = (st.groupStats g1).inProgressTaskCount) ∧
      (∀ q, p = some q →
        ((RunTasksImpl.addChildren st p (RunTasksImpl.count buckets)).fiberContext q).childrenFibersCount
            = (st.fiberContext q).childrenFibersCount + ((buckets.map TaskBucket.count).sum : Nat) ∧
        (RunTasksImpl.addChildren st p (RunTasksImpl.count buckets)).threadContext
            = st.threadContext ∧
        RunTasksImpl.loop g p (RunTasksImpl.addChildren st p (RunTasksImpl.count buckets)) buckets
            = some st1 ∧
        (st1.fiberContext q).childrenFibersCount
            = (st.fiberContext q).childrenFibersCount + ((buckets.map TaskBucket.count).sum : Nat) ∧
        (∀ f, f ≠ q →
          (st1.fiberContext f).childrenFibersCount = (st.fiberContext f).childrenFibersCount)) ∧
      (p = none → ∀ f,
        (st1.fiberContext f).childrenFibersCount = (st.fiberContext f).childrenFibersCount)) := by
  have hcast : toUint32 (RunTasksImpl.count buckets) = ((buckets.map TaskBucket.count).sum : Nat) := by
    rw [RunTasksImpl.count_eq]
    simp only [toUint32, Nat.mod_eq_of_lt hN]
  constructor
  · intro htc hrr
    simp only [RunTasksImpl, hg, if_true]
    apply RunTasksImpl.loop_ok
    · cases p <;> exact htc
    · cases p <;> exact hrr
  · intro st1 h
    simp only [RunTasksImpl, hg, if_true] at h
    obtain ⟨_, hf, _, _, _⟩ := RunTasksImpl.loop_frame buckets h
    obtain ⟨hall, hgrp, hoth⟩ := RunTasksImpl.loop_counts buckets h
    rw [sum_toUint32 buckets hN] at hall hgrp
    have e1 : (RunTasksImpl.addChildren st p (RunTasksImpl.count buckets)).groupStats
        = st.groupStats := by cases p <;> rfl
    have e2 : (RunTasksImpl.addChildren st p (RunTasksImpl.count buckets)).allGroupStats
        = st.allGroupStats := by cases p <;> rfl
    rw [e1] at hgrp hoth
    rw [e2] at hall
    refine ⟨hgrp, hall, fun g1 hg1 => by rw [hoth g1 hg1], ?_, ?_⟩
    · intro q hq
      subst hq
      have e3 : ((RunTasksImpl.addChildren st (some q) (RunTasksImpl.count buckets)).fiberContext
          q).childrenFibersCount = (st.fiberContext q).childrenFibersCount
            + ((buckets.map TaskBucket.count).sum : Nat) := by
        simp only [RunTasksImpl.addChildren, setAt, if_true, AtomicInt.Add, hcast]
      refine ⟨e3, rfl, h, by rw [hf]; exact e3, ?_⟩
      intro f hfq
      rw [hf]
      simp [RunTasksImpl.addChildren, setAt, hfq]
    · intro hp f
      subst hp
      rw [hf]
      rfl

/-- C2 at a concrete input: two buckets with three tasks submitted to group 0
on behalf of fiber 3 of a fresh scheduler. -/
theorem RunTasksImpl_counters_witness :
    ∃ st1, RunTasksImpl exampleConfig (TaskScheduler.new exampleConfig) 0
        [⟨[exampleTask 0, exampleTask 0]⟩, ⟨[exampleTask 0]⟩] (some 3) = some st1 ∧
      (st1.groupStats 0).inProgressTaskCount = 3 ∧
      st1.allGroupStats.inProgressTaskCount = 3 ∧
      (st1.fiberContext 3).childrenFibersCount = 3 := by
  have h := RunTasksImpl_counters exampleConfig (TaskScheduler.new exampleConfig) 0
    [⟨[exampleTask 0, exampleTask 0]⟩, ⟨[exampleTask 0]⟩] (some 3) (by decide) (by decide)
  obtain ⟨st1, h1⟩ := h.1 (by decide) (by decide)
  obtain ⟨a, b, _, c, _⟩ := h.2 st1 h1
  obtain ⟨_, _, _, d, _⟩ := c 3 rfl
  refine ⟨st1, h1, ?_, ?_, ?_⟩
  · rw [a]; decide
  · rw [b]; decide
  · rw [d]; decide

/-! ## Claims about the yield operations -/

/-- C5: for a fiber `f` running on worker `w`, `WaitGroupAndYield(g)` with `g`
equal to the fiber's own group or `g ≥ GROUP_COUNT` returns to the task body
with the whole scheduler state unchanged (so the status, the thread binding and
every queue are unchanged); for any other `g` it yields with status
`AWAITING_GROUP` and the thread binding cleared, `f` is pushed on top of
`waitTaskQueues[g]`, and `f` is put on no other queue: the other awaiter queues,
the pool of available fibers and the FIFO of every worker are unchanged.
Nothing else changes either: the other fields of `f`, the other fibers, the
counters and events of the groups and the round-robin counter. -/
theorem WaitGroupAndYield_spec (cfg : Config) (st : TaskScheduler) (w f g : Nat)
    (hrun : (st.fiberContext f).threadContext = some w) :
    ((g = (st.fiberContext f).currentGroup ∨ cfg.GROUP_COUNT ≤ g) →
        WaitGroupAndYield cfg st w f g = some (st, false)) ∧
    ((g ≠ (st.fiberContext f).currentGroup ∧ g < cfg.GROUP_COUNT) →
        ∃ st1, WaitGroupAndYield cfg st w f g = some (st1, true) ∧
          (st1.fiberContext f).taskStatus = FiberTaskStatus.AWAITING_GROUP ∧
          (st1.fiberContext f).threadContext = none ∧
          st1.waitTaskQueues g = f :: st.waitTaskQueues g ∧
          (∀ g1, g1 ≠ g → st1.waitTaskQueues g1 = st.waitTaskQueues g1) ∧
          (∀ f1, f1 ≠ f → st1.fiberContext f1 = st.fiberContext f1) ∧
          st1.availableFibers = st.availableFibers ∧
          st1.threadContext = st.threadContext ∧
          (st1.fiberContext f).currentTask = (st.fiberContext f).currentTask ∧
          (st1.fiberContext f).currentGroup = (st.fiberContext f).currentGroup ∧
          (st1.fiberContext f).childrenFibersCount = (st.fiberContext f).childrenFibersCount ∧
          (st1.fiberContext f).parentFiber = (st.fiberContext f).parentFiber ∧
          st1.groupStats = st.groupStats ∧ st1.allGroupStats = st.allGroupStats ∧
          st1.roundRobinThreadIndex = st.roundRobinThreadIndex ∧
          st1.threadsCount = st.threadsCount) := by
  constructor
  · intro h
    unfold WaitGroupAndYield
    simp only [hrun]
    rcases h with h | h
    · simp [h]
    · by_cases hg : g = (st.fiberContext f).currentGroup
      · simp [hg]
      · have : ¬ g < cfg.GROUP_COUNT := by omega
        simp [hg, this]
  · rintro ⟨h1, h2⟩
    unfold WaitGroupAndYield
    simp only [hrun]
    simp [h1, h2, setAt]
    exact ⟨fun g1 a b => absurd b a, fun f1 a b => absurd b a⟩

/-- C5 at a concrete run: one task of group 0 is submitted and started by
worker 1 on fiber 3.  Waiting for its own group 0 or for the invalid group 7
returns with the state unchanged; waiting for group 1 parks fiber 3 on
`waitTaskQueues[1]` only, with the pool and the FIFOs untouched. -/
theorem WaitGroupAndYield_spec_witness :
    ∃ S st1, System.run exampleConfig (System.new exampleConfig)
        [Step.RunTasks 0 [⟨[exampleTask 0]⟩], Step.Start 1] = some S ∧
      WaitGroupAndYield exampleConfig S.sched 1 3 0 = some (S.sched, false) ∧
      WaitGroupAndYield exampleConfig S.sched 1 3 7 = some (S.sched, false) ∧
      WaitGroupAndYield exampleConfig S.sched 1 3 1 = some (st1, true) ∧
      (st1.fiberContext 3).taskStatus = FiberTaskStatus.AWAITING_GROUP ∧
      (st1.fiberContext 3).threadContext = none ∧
      st1.waitTaskQueues 1 = [3] ∧ st1.waitTaskQueues 0 = [] ∧ st1.waitTaskQueues 2 = [] ∧
      st1.availableFibers = [2, 1, 0] ∧
      (st1.threadContext 0).queue = [] ∧ (st1.threadContext 1).queue = [] := by
  have hval : (System.run exampleConfig (System.new exampleConfig)
        [Step.RunTasks 0 [⟨[exampleTask 0]⟩], Step.Start 1]).map
      (fun S => ((S.sched.fiberContext 3).threadContext, (S.sched.fiberContext 3).currentGroup,
        S.sched.waitTaskQueues 1, S.sched.availableFibers))
      = some (some 1, 0, [], [2, 1, 0]) := by decide
  have hval2 : (System.run exampleConfig (System.new exampleConfig)
        [Step.RunTasks 0 [⟨[exampleTask 0]⟩], Step.Start 1]).map
      (fun S => (S.sched.waitTaskQueues 0, S.sched.waitTaskQueues 2,
        (S.sched.threadContext 0).queue, (S.sched.threadContext 1).queue))
      = some ([], [], [], []) := by decide
  cases hrun : System.run exampleConfig (System.new exampleConfig)
        [Step.RunTasks 0 [⟨[exampleTask 0]⟩], Step.Start 1] with
  | none => rw [hrun] at hval; cases hval
  | some S =>
    rw [hrun] at hval hval2
    simp only [Option.map_some', Option.some.injEq, Prod.mk.injEq] at hval hval2
    obtain ⟨a1, a2, a3, a4⟩ := hval
    obtain ⟨b1, b2, b3, b4⟩ := hval2
    have h := WaitGroupAndYield_spec exampleConfig S.sched 1 3
    obtain ⟨st1, e, c1, c2, c3, c4, _, c5, c6, _⟩ :=
      (h 1 a1).2 ⟨by rw [a2]; decide, by decide⟩
    refine ⟨S, st1, rfl, (h 0 a1).1 (Or.inl a2.symm), (h 7 a1).1 (Or.inr (by decide)), e, c1, c2,
      by rw [c3, a3], by rw [c4 0 (by decide), b1], by rw [c4 2 (by decide), b2],
      by rw [c5, a4], by rw [c6, b3], by rw [c6, b4]⟩


/-! ## Counting unfinished tasks -/

theorem unfinished_fiber {cfg : Config} {st st1 : TaskScheduler} {sel : Nat → Option Nat → Bool}
    {f : Nat} (hf : f < cfg.MT_MAX_FIBERS_COUNT) (htc : st1.threadsCount = st.threadsCount)
    (hq : ∀ w, (st1.threadContext w).queue = (st.threadContext w).queue)
    (hfib : ∀ j, j ≠ f → (st1.fiberContext j).weight sel = (st.fiberContext j).weight sel) :
    unfinished cfg st1 sel + (st.fiberContext f).weight sel
      = unfinished cfg st sel + (st1.fiberContext f).weight sel := by
  unfold unfinished
  have h1 := sumTo_update (f := fun f => (st.fiberContext f).weight sel)
    (g := fun f => (st1.fiberContext f).weight sel) hf hfib
  rw [htc]
  have h2 : sumTo (fun w => (st1.threadContext w).queue.countP (fun t => sel t.group t.parentFiber))
      st.threadsCount = sumTo (fun w => (st.threadContext w).queue.countP
        (fun t => sel t.group t.parentFiber)) st.threadsCount :=
    sumTo_congr (fun w _ => by rw [hq w])
  simp only at h1
  omega

theorem unfinished_congr {cfg : Config} {st st1 : TaskScheduler} {sel : Nat → Option Nat → Bool}
    (htc : st1.threadsCount = st.threadsCount)
    (hq : ∀ w, (st1.threadContext w).queue = (st.threadContext w).queue)
    (hfib : ∀ j, (st1.fiberContext j).weight sel = (st.fiberContext j).weight sel) :
    unfinished cfg st1 sel = unfinished cfg st sel := by
  unfold unfinished
  rw [htc, sumTo_congr (fun w _ => by rw [hq w]), sumTo_congr (fun j _ => hfib j)]

theorem unfinished_queue {cfg : Config} {st st1 : TaskScheduler} {sel : Nat → Option Nat → Bool}
    {w : Nat} (hw : w < st.threadsCount) (htc : st1.threadsCount = st.threadsCount)
    (hq : ∀ v, v ≠ w → (st1.threadContext v).queue = (st.threadContext v).queue)
    (hfib : ∀ j, (st1.fiberContext j).weight sel = (st.fiberContext j).weight sel) :
    unfinished cfg st1 sel
        + (st.threadContext w).queue.countP (fun t => sel t.group t.parentFiber)
      = unfinished cfg st sel
        + (st1.threadContext w).queue.countP (fun t => sel t.group t.parentFiber) := by
  unfold unfinished
  have h1 := sumTo_update
    (f := fun w => (st.threadContext w).queue.countP (fun t => sel t.group t.parentFiber))
    (g := fun w => (st1.threadContext w).queue.countP (fun t => sel t.group t.parentFiber)) hw
    (fun v hv => by simp only; rw [hq v hv])
  rw [htc, sumTo_congr (fun j _ => hfib j)]
  simp only at h1
  omega

theorem unfinished_eq_zero {cfg : Config} {st : TaskScheduler} {sel : Nat → Option Nat → Bool}
    (h : unfinished cfg st sel = 0) :
    (∀ w, w < st.threadsCount → ∀ t ∈ (st.threadContext w).queue,
      sel t.group t.parentFiber = false) ∧
    (∀ f, f < cfg.MT_MAX_FIBERS_COUNT → (st.fiberContext f).live = true →
      sel (st.fiberContext f).currentGroup (st.fiberContext f).parentFiber = false) := by
  unfold unfinished at h
  have h1 := sumTo_eq_zero (f := fun w => (st.threadContext w).queue.countP
    (fun t => sel t.group t.parentFiber)) (n := st.threadsCount) (by omega)
  have h2 := sumTo_eq_zero (f := fun f => (st.fiberContext f).weight sel)
    (n := cfg.MT_MAX_FIBERS_COUNT) (by omega)
  constructor
  · intro w hw t ht
    have := h1 w hw
    simp only [List.countP_eq_zero] at this
    simpa using this t ht
  · intro f hf hl
    have := h2 f hf
    simp only [FiberContext.weight, hl, Bool.true_and] at this
    simpa using this

theorem weight_of_not_live {fc : FiberContext} {sel : Nat → Option Nat → Bool}
    (h : fc.live = false) : fc.weight sel = 0 := by
  simp [FiberContext.weight, h]

theorem weight_le_unfinished {cfg : Config} {st : TaskScheduler} {sel : Nat → Option Nat → Bool}
    {f : Nat} (hf : f < cfg.MT_MAX_FIBERS_COUNT) :
    (st.fiberContext f).weight sel ≤ unfinished cfg st sel := by
  unfold unfinished
  have := le_sumTo (f := fun f => (st.fiberContext f).weight sel) hf
  simp only at this
  omega

theorem queue_le_unfinished {cfg : Config} {st : TaskScheduler} {sel : Nat → Option Nat → Bool}
    {w : Nat} (hw : w < st.threadsCount) :
    (st.threadContext w).queue.countP (fun t => sel t.group t.parentFiber)
      ≤ unfinished cfg st sel := by
  unfold unfinished
  have := le_sumTo
    (f := fun w => (st.threadContext w).queue.countP (fun t => sel t.group t.parentFiber)) hw
  simp only at this
  omega


theorem countP_stamped {g : Nat} {p : Option Nat} {sel : Nat → Option Nat → Bool} :
    ∀ (l : List GroupedTask), (∀ t ∈ l, sel t.group p = sel g p) →
      (l.map (stampParent p)).countP (fun t => sel t.group t.parentFiber)
        = if sel g p = true then l.length else 0 := by
  intro l
  induction l with
  | nil => intro _; simp
  | cons t l ih =>
    intro h
    have ht : sel t.group p = sel g p := h t (by simp)
    have := ih (fun t1 h1 => h t1 (by simp [h1]))
    simp only [List.map_cons, List.countP_cons, this, stampParent, ht, List.length_cons]
    by_cases hs : sel g p = true <;> simp [hs]

theorem RunTasksImpl.target_lt {st st1 : TaskScheduler} {g : Nat} {p : Option Nat}
    {b : TaskBucket} (h : RunTasksImpl.dispatch st g p b = some st1) :
    RunTasksImpl.target st < st.threadsCount := by
  obtain ⟨h0, h1, _⟩ := RunTasksImpl.dispatch_some h
  have h2 := Int.tmod_lt_of_pos (st.roundRobinThreadIndex + 1)
    (show (0 : Int) < (st.threadsCount : Int) by omega)
  unfold RunTasksImpl.target
  omega

theorem RunTasksImpl.loop_unfinished {cfg : Config} {g : Nat} {p : Option Nat}
    {sel : Nat → Option Nat → Bool} :
    ∀ (bs : List TaskBucket) {st st1 : TaskScheduler},
      RunTasksImpl.loop g p st bs = some st1 →
      (∀ b ∈ bs, ∀ t ∈ b.tasks, sel t.group p = sel g p) →
      unfinished cfg st1 sel = unfinished cfg st sel
        + (if sel g p = true then (bs.map TaskBucket.count).sum else 0) := by
  intro bs
  induction bs with
  | nil =>
    intro st st1 h _
    simp only [RunTasksImpl.loop, Option.some.injEq] at h
    subst h
    simp
  | cons b bs ih =>
    intro st st1 h hwf
    simp only [RunTasksImpl.loop] at h
    cases hd : RunTasksImpl.dispatch st g p b with
    | none => simp [hd] at h
    | some s =>
      simp only [hd] at h
      have hlt := RunTasksImpl.target_lt hd
      obtain ⟨_, _, hs⟩ := RunTasksImpl.dispatch_some hd
      have h1 := ih h (fun b1 hb1 => hwf b1 (by simp [hb1]))
      have h2 := @unfinished_queue cfg st s sel _ hlt
        (by subst hs; rfl)
        (by intro v hv; subst hs; simp [setAt, hv])
        (by intro j; subst hs; rfl)
      have h3 : (s.threadContext (RunTasksImpl.target st)).queue
          = (st.threadContext (RunTasksImpl.target st)).queue
            ++ b.tasks.map (stampParent p) := by
        subst hs; simp [setAt]
      rw [h3, List.countP_append, countP_stamped b.tasks (hwf b (by simp))] at h2
      rw [h1]
      simp only [List.map_cons, List.sum_cons, TaskBucket.count]
      cases hsel : sel g p
      · simp only [hsel, Bool.false_eq_true, if_false] at h1 h2 ⊢
        omega
      · simp only [hsel, if_true] at h1 h2 ⊢
        omega

theorem RunTasksImpl.addChildren_weight (st : TaskScheduler) (p : Option Nat) (n : Nat)
    (sel : Nat → Option Nat → Bool) (j : Nat) :
    ((RunTasksImpl.addChildren st p n).fiberContext j).weight sel
      = (st.fiberContext j).weight sel := by
  cases p with
  | none => rfl
  | some q =>
    by_cases hj : j = q
    · subst hj; simp [RunTasksImpl.addChildren, setAt, FiberContext.weight, FiberContext.live]
    · simp [RunTasksImpl.addChildren, setAt, hj]

/-- What a successful `RunTasksImpl` changes. -/
theorem RunTasksImpl_some {cfg : Config} {st st1 : TaskScheduler} {g : Nat}
    {bs : List TaskBucket} {p : Option Nat} (h : RunTasksImpl cfg st g bs p = some st1) :
    g < cfg.GROUP_COUNT ∧
    RunTasksImpl.loop g p (RunTasksImpl.addChildren st p (RunTasksImpl.count bs)) bs
      = some st1 ∧
    st1.threadsCount = st.threadsCount ∧
    st1.fiberContext = (RunTasksImpl.addChildren st p (RunTasksImpl.count bs)).fiberContext ∧
    st1.availableFibers = st.availableFibers ∧
    st1.waitTaskQueues = st.waitTaskQueues ∧
    st1.roundRobinThreadIndex = st.roundRobinThreadIndex + bs.length ∧
    st1.allGroupStats.inProgressTaskCount =
      st.allGroupStats.inProgressTaskCount + (bs.map (fun b => toUint32 b.count)).sum ∧
    (st1.groupStats g).inProgressTaskCount =
      (st.groupStats g).inProgressTaskCount + (bs.map (fun b => toUint32 b.count)).sum ∧
    (∀ g1, g1 ≠ g → st1.groupStats g1 = st.groupStats g1) := by
  unfold RunTasksImpl at h
  split at h
  · rename_i hg
    obtain ⟨a1, a2, a3, a4, a5⟩ := RunTasksImpl.loop_frame bs h
    obtain ⟨b1, b2, b3⟩ := RunTasksImpl.loop_counts bs h
    refine ⟨hg, h, ?_, a2, ?_, ?_, ?_, ?_, ?_, ?_⟩
    · rw [a1]; cases p <;> rfl
    · rw [a3]; cases p <;> rfl
    · rw [a4]; cases p <;> rfl
    · rw [a5]; cases p <;> rfl
    · rw [b1]; cases p <;> rfl
    · rw [b2]; cases p <;> rfl
    · intro g1 hg1; rw [b3 g1 hg1]; cases p <;> rfl
  · cases h

theorem RunTasksImpl_unfinished {cfg : Config} {st st1 : TaskScheduler} {g : Nat}
    {bs : List TaskBucket} {p : Option Nat} (h : RunTasksImpl cfg st g bs p = some st1)
    (sel : Nat → Option Nat → Bool) (hsel : ∀ b ∈ bs, ∀ t ∈ b.tasks, sel t.group p = sel g p) :
    unfinished cfg st1 sel = unfinished cfg st sel
      + (if sel g p = true then (bs.map TaskBucket.count).sum else 0) := by
  obtain ⟨_, hl, _⟩ := RunTasksImpl_some h
  rw [RunTasksImpl.loop_unfinished bs hl hsel]
  congr 1
  apply unfinished_congr
  · cases p <;> rfl
  · intro w; cases p <;> rfl
  · intro j; exact RunTasksImpl.addChildren_weight st p _ sel j

theorem RunTasksImpl.loop_beyond {g : Nat} {p : Option Nat} :
    ∀ (bs : List TaskBucket) {st st1 : TaskScheduler},
      RunTasksImpl.loop g p st bs = some st1 →
      ∀ w, st.threadsCount ≤ w → (st1.threadContext w).queue = (st.threadContext w).queue := by
  intro bs
  induction bs with
  | nil =>
    intro st st1 h w _
    simp only [RunTasksImpl.loop, Option.some.injEq] at h
    subst h
    rfl
  | cons b bs ih =>
    intro st st1 h w hw
    simp only [RunTasksImpl.loop] at h
    cases hd : RunTasksImpl.dispatch st g p b with
    | none => simp [hd] at h
    | some s =>
      simp only [hd] at h
      have hlt := RunTasksImpl.target_lt hd
      obtain ⟨_, _, hs⟩ := RunTasksImpl.dispatch_some hd
      have h3 : s.threadsCount = st.threadsCount := by subst hs; rfl
      rw [ih h w (by rw [h3]; exact hw)]
      subst hs
      have : w ≠ RunTasksImpl.target st := by omega
      simp [setAt, this]

/-! ## The invariant: initial state and induction -/

theorem guards_worker {S S1 : System} {w p : Nat} (hw : w < S.sched.threadsCount)
    (htc : S1.sched.threadsCount = S.sched.threadsCount)
    (hoth : ∀ v, v ≠ w → S1.worker v = S.worker v) :
    guards S1 p + (if (S.worker w).first = some p then 1 else 0)
      = guards S p + (if (S1.worker w).first = some p then 1 else 0) := by
  unfold guards
  rw [htc]
  have := sumTo_update (f := fun w => if (S.worker w).first = some p then 1 else 0)
    (g := fun w => if (S1.worker w).first = some p then 1 else 0) hw
    (fun v hv => by simp only; rw [hoth v hv])
  simpa using this

theorem guards_congr {S S1 : System} {p : Nat}
    (htc : S1.sched.threadsCount = S.sched.threadsCount)
    (hfirst : ∀ v, (S1.worker v).first = (S.worker v).first) :
    guards S1 p = guards S p := by
  unfold guards
  rw [htc]
  exact sumTo_congr (fun v _ => by rw [hfirst v])

theorem guards_pos {S : System} {w p : Nat} (hw : w < S.sched.threadsCount)
    (h : (S.worker w).first = some p) : 1 ≤ guards S p := by
  unfold guards
  have := le_sumTo (f := fun w => if (S.worker w).first = some p then 1 else 0) hw
  simpa [h] using this

theorem initialPool_mem : ∀ n f, f ∈ initialPool n ↔ f < n := by
  intro n
  induction n with
  | zero => intro f; simp [initialPool]
  | succ n ih =>
    intro f
    simp only [initialPool, List.mem_cons, ih]
    omega

theorem initialPool_nodup : ∀ n, (initialPool n).Nodup := by
  intro n
  induction n with
  | zero => simp [initialPool]
  | succ n ih =>
    simp only [initialPool, List.nodup_cons]
    refine ⟨?_, ih⟩
    rw [initialPool_mem]
    omega

theorem unfinished_new (cfg : Config) (sel : Nat → Option Nat → Bool) :
    unfinished cfg (TaskScheduler.new cfg) sel = 0 := by
  unfold unfinished
  rw [sumTo_zero, sumTo_zero]
  · intro i _; rfl
  · intro i _; rfl

theorem guards_new (cfg : Config) (p : Nat) : guards (System.new cfg) p = 0 := by
  unfold guards
  exact sumTo_zero (fun i _ => rfl)

theorem System.Inv_new (cfg : Config) (T : Prop) : System.Inv cfg T (System.new cfg) where
  group := by
    intro _ g
    show _ = ((unfinished cfg (TaskScheduler.new cfg) _ : Nat) : Int)
    rw [unfinished_new]; rfl
  total := by
    show _ = ((unfinished cfg (TaskScheduler.new cfg) _ : Nat) : Int)
    rw [unfinished_new]; rfl
  children := by
    intro p
    show _ = ((guards (System.new cfg) p + unfinished cfg (TaskScheduler.new cfg) _ : Nat) : Int)
    rw [unfinished_new, guards_new]; rfl
  parked := by intro p _; exact unfinished_new cfg _
  poolNodup := initialPool_nodup _
  pool := by
    intro f hf
    exact ⟨(initialPool_mem _ _).1 hf, rfl, guards_new cfg f⟩
  liveBound := by intro f hf; cases hf
  beyond := by intro w _; exact ⟨rfl, rfl⟩
  unique := by intro p; rw [guards_new]; omega
  firstBound := by intro w o h; cases h
  inFiber := by intro w o c i h; cases h
  returned := by intro w o b h; cases h

/-- An invariant of every step is an invariant of every run. -/
theorem System.run_induction {cfg : Config} {P : System → Prop} {Q : Step → Prop}
    (hstep : ∀ S e S1, P S → Q e → System.step cfg S e = some S1 → P S1) :
    ∀ (steps : List Step) (S S1 : System), P S → (∀ e ∈ steps, Q e) →
      System.run cfg S steps = some S1 → P S1 := by
  intro steps
  induction steps with
  | nil =>
    intro S S1 hP _ h
    simp only [System.run, Option.some.injEq] at h
    exact h ▸ hP
  | cons e es ih =>
    intro S S1 hP hQ h
    simp only [System.run] at h
    cases he : System.step cfg S e with
    | none => simp [he] at h
    | some S2 =>
      simp only [he] at h
      exact ih S2 S1 (hstep S e S2 hP (hQ e (by simp)) he) (fun e1 h1 => hQ e1 (by simp [h1])) h

/-! ## The invariant is kept by a submission and by the start of a task -/

theorem System.Inv_RunTasks {cfg : Config} {T : Prop} {S : System} {g : Nat} {bs : List TaskBucket}
    {st : TaskScheduler} (hI : System.Inv cfg T S)
    (hwf : (T → ∀ b ∈ bs, ∀ t ∈ b.tasks, t.group = g) ∧
      (bs.map TaskBucket.count).sum < 2 ^ 32)
    (h : RunTasksImpl cfg S.sched g bs none = some st) :
    System.Inv cfg T { S with sched := st } := by
  obtain ⟨hg, hl, htc, hfib, hpool, _, _, hall, hgrp, hoth⟩ := RunTasksImpl_some h
  have hfib' : st.fiberContext = S.sched.fiberContext := hfib
  have hun := @RunTasksImpl_unfinished cfg _ _ _ _ _ h
  have hsum := sum_toUint32 bs hwf.2
  have hgd : ∀ p, guards { S with sched := st } p = guards S p :=
    fun p => guards_congr htc (fun _ => rfl)
  constructor
  · intro ht g1
    show (st.groupStats g1).inProgressTaskCount = _
    rw [hun (fun g2 _ => g2 == g1) (fun b hb t ht1 => by rw [hwf.1 ht b hb t ht1])]
    by_cases hg1 : g1 = g
    · subst hg1
      rw [hgrp, hsum, hI.group ht g1]
      simp
    · rw [hoth g1 hg1, hI.group ht g1]
      have : (g == g1) = false := by simp; exact fun e => hg1 e.symm
      simp [this]
  · show st.allGroupStats.inProgressTaskCount = _
    rw [hun (fun _ _ => true) (fun _ _ _ _ => rfl), hall, hsum, hI.total]
    simp
  · intro p
    show (st.fiberContext p).childrenFibersCount = _
    rw [hgd, hun (fun _ q => q == some p) (fun _ _ _ _ => rfl), hfib', hI.children p]
    simp
  · intro p hp
    show unfinished cfg st _ = 0
    rw [hfib'] at hp
    rw [hun (fun _ q => q == some p) (fun _ _ _ _ => rfl), hI.parked p hp]
    simp
  · show st.availableFibers.Nodup
    rw [hpool]; exact hI.poolNodup
  · intro f hf
    rw [hgd, hfib']
    exact hI.pool f (hpool ▸ hf)
  · intro f hf
    rw [hfib'] at hf
    exact hI.liveBound f hf
  · intro w hw
    have hw' : S.sched.threadsCount ≤ w := htc ▸ hw
    refine ⟨(hI.beyond w hw').1, ?_⟩
    have := RunTasksImpl.loop_beyond bs hl w hw'
    show (st.threadContext w).queue = []
    rw [this]
    exact (hI.beyond w hw').2
  · intro p; rw [hgd]; exact hI.unique p
  · intro w o hw; exact hI.firstBound w o hw
  · intro w o c i hw
    have := hI.inFiber w o c i hw
    rw [hgd, hfib']
    exact this
  · intro w o b hw
    have := hI.returned w o b hw
    rw [hfib']
    exact this

theorem ThreadMain.acquire_some {st st1 : TaskScheduler} {w f : Nat}
    (h : ThreadMain.acquire st w = some (f, st1)) :
    ∃ task rest pool, (st.threadContext w).queue = task :: rest ∧
      st.availableFibers = f :: pool ∧ task.desc.IsValid = true ∧
      st1 = { st with
        threadContext := setAt st.threadContext w { st.threadContext w with queue := rest }
        availableFibers := pool
        fiberContext := setAt st.fiberContext f
          { st.fiberContext f with
            currentTask := task.desc, currentGroup := task.group,
            parentFiber := task.parentFiber,
            childrenFibersCount := (st.fiberContext f).childrenFibersCount + 1 } } := by
  unfold ThreadMain.acquire at h
  dsimp only at h
  split at h
  · cases h
  · rename_i task rest hq
    unfold RequestFiberContext at h
    dsimp only at h
    split at h
    · cases h
    · rename_i f1 st2 hr
      split at hr
      · cases hr
      · rename_i f2 pool hp
        simp only [Option.some.injEq, Prod.mk.injEq] at hr
        obtain ⟨e1, e2⟩ := hr
        subst e1
        subst e2
        split at h
        · cases h
        · rename_i hv
          simp only [Option.some.injEq, Prod.mk.injEq] at h
          obtain ⟨e1, e2⟩ := h
          subst e1
          refine ⟨task, rest, pool, hq, hp, ?_, ?_⟩
          · simpa [setAt] using hv
          · rw [← e2]
            simp only [AtomicInt.Inc]
            congr 1
            funext j
            by_cases hj : j = f2
            · subst hj; simp [setAt]
            · simp [setAt, hj]


theorem System.step_Start {cfg : Config} {S S1 : System} {w : Nat}
    (h : System.step cfg S (Step.Start w) = some S1) :
    w < S.sched.threadsCount ∧ S.worker w = Worker.idle ∧
    ∃ f task rest pool, (S.sched.threadContext w).queue = task :: rest ∧
      S.sched.availableFibers = f :: pool ∧
      S1.worker = setAt S.worker w (Worker.inFiber f f 0) ∧
      S1.sched = { S.sched with
        threadContext := setAt S.sched.threadContext w
          { S.sched.threadContext w with queue := rest }
        availableFibers := pool
        fiberContext := setAt S.sched.fiberContext f
          { taskStatus := FiberTaskStatus.RUNNED
            currentTask := task.desc
            currentGroup := task.group
            childrenFibersCount := (S.sched.fiberContext f).childrenFibersCount + 1
            parentFiber := task.parentFiber
            threadContext := some w } } := by
  simp only [System.step] at h
  split at h
  · cases h
  · rename_i hw
    split at h
    · rename_i hidle
      split at h
      · cases h
      · rename_i f st ha
        split at h
        · cases h
        · rename_i st1 he
          simp only [Option.some.injEq] at h
          obtain ⟨task, rest, pool, hq, hp, _, hst⟩ := ThreadMain.acquire_some ha
          obtain ⟨_, _, hst1⟩ := ExecuteTask.enter_some he
          refine ⟨by omega, hidle, f, task, rest, pool, hq, hp, by rw [← h], ?_⟩
          rw [← h]
          show st1 = _
          rw [hst1, hst]
          simp only
          congr 1
          funext j
          by_cases hj : j = f
          · subst hj; simp [setAt]
          · simp [setAt, hj]
    · cases h


theorem unfinished_move {cfg : Config} {st st1 : TaskScheduler} {sel : Nat → Option Nat → Bool}
    {w f : Nat} {task : GroupedTask} {rest : List GroupedTask}
    (hw : w < st.threadsCount) (hf : f < cfg.MT_MAX_FIBERS_COUNT)
    (htc : st1.threadsCount = st.threadsCount)
    (hq : (st.threadContext w).queue = task :: rest)
    (hq1 : (st1.threadContext w).queue = rest)
    (hqo : ∀ v, v ≠ w → (st1.threadContext v).queue = (st.threadContext v).queue)
    (hfo : ∀ j, j ≠ f → st1.fiberContext j = st.fiberContext j)
    (hnl : (st.fiberContext f).live = false) (hl : (st1.fiberContext f).live = true)
    (hg : (st1.fiberContext f).currentGroup = task.group)
    (hp : (st1.fiberContext f).parentFiber = task.parentFiber) :
    unfinished cfg st1 sel = unfinished cfg st sel := by
  have h1 := @unfinished_queue cfg st
    { st with threadContext := st1.threadContext } sel w hw rfl
    (fun v hv => hqo v hv) (fun _ => rfl)
  have h2 := @unfinished_fiber cfg
    { st with threadContext := st1.threadContext } st1 sel f hf htc
    (fun _ => rfl) (fun j hj => by rw [hfo j hj])
  simp only [hq, hq1, List.countP_cons] at h1
  simp only [weight_of_not_live hnl] at h2
  have h3 : (st1.fiberContext f).weight sel
      = if sel task.group task.parentFiber = true then 1 else 0 := by
    simp [FiberContext.weight, hl, hg, hp]
  omega

theorem System.Inv_Start {cfg : Config} {T : Prop} {S S1 : System} {w : Nat} (hI : System.Inv cfg T S)
    (h : System.step cfg S (Step.Start w) = some S1) : System.Inv cfg T S1 := by
  obtain ⟨hw, hidle, f, task, rest, pool, hq, hp, hW, hS⟩ := System.step_Start h
  have htc : S1.sched.threadsCount = S.sched.threadsCount := by rw [hS]
  have hq1 : (S1.sched.threadContext w).queue = rest := by rw [hS]; simp [setAt]
  have hqo : ∀ v, v ≠ w → S1.sched.threadContext v = S.sched.threadContext v := by
    intro v hv; rw [hS]; simp [setAt, hv]
  have hff : S1.sched.fiberContext f =
      { taskStatus := FiberTaskStatus.RUNNED, currentTask := task.desc,
        currentGroup := task.group,
        childrenFibersCount := (S.sched.fiberContext f).childrenFibersCount + 1,
        parentFiber := task.parentFiber, threadContext := some w } := by
    rw [hS]; simp [setAt]
  have hfo : ∀ j, j ≠ f → S1.sched.fiberContext j = S.sched.fiberContext j := by
    intro j hj; rw [hS]; simp [setAt, hj]
  have hpool : S1.sched.availableFibers = pool := by rw [hS]
  have hgs : S1.sched.groupStats = S.sched.groupStats := by rw [hS]
  have hall : S1.sched.allGroupStats = S.sched.allGroupStats := by rw [hS]
  have hwf : S1.worker w = Worker.inFiber f f 0 := by rw [hW]; simp [setAt]
  have hwo : ∀ v, v ≠ w → S1.worker v = S.worker v := by
    intro v hv; rw [hW]; simp [setAt, hv]
  clear hW hS
  obtain ⟨hfn, hfl, hfg⟩ := hI.pool f (by rw [hp]; simp)
  have hnd : f ∉ pool ∧ pool.Nodup := by
    have := hI.poolNodup
    rw [hp] at this
    exact List.nodup_cons.1 this
  have hT : ∀ sel, unfinished cfg S1.sched sel = unfinished cfg S.sched sel := fun sel =>
    unfinished_move hw hfn htc hq hq1
      (by intro v hv; rw [hqo v hv]) hfo hfl
      (by rw [hff]; rfl) (by rw [hff]) (by rw [hff])
  have hG : ∀ p, guards S1 p = guards S p + (if p = f then 1 else 0) := by
    intro p
    have := @guards_worker S S1 w p hw htc hwo
    simp only [hidle, hwf, Worker.first, Option.some.injEq, reduceCtorEq,
      if_false, Nat.add_zero] at this
    rw [this]
    by_cases hpf : p = f
    · subst hpf; simp
    · have : ¬ f = p := fun e => hpf e.symm
      simp [hpf, this]
  have hwlt : ∀ v o, (S.worker v).first = some o → v < S.sched.threadsCount := by
    intro v o hv
    by_contra hc
    have := (hI.beyond v (by omega)).1
    rw [this] at hv
    cases hv
  have hne : ∀ v o, (S.worker v).first = some o → o ≠ f := by
    intro v o hv e
    have := guards_pos (hwlt v o hv) hv
    rw [e] at this
    omega
  constructor
  · intro ht g; rw [hT, hgs]; exact hI.group ht g
  · rw [hT, hall]; exact hI.total
  · intro p
    rw [hG, hT]
    by_cases hpf : p = f
    · subst hpf
      rw [hff]
      simp only [if_true]
      rw [hI.children p]
      push_cast
      omega
    · rw [hfo p hpf, hI.children p]
      simp [hpf]
  · intro p hpst
    rw [hT]
    by_cases hpf : p = f
    · subst hpf
      apply hI.parked p
      intro e
      simp [FiberContext.live, e] at hfl
    · rw [hfo p hpf] at hpst
      exact hI.parked p hpst
  · rw [hpool]; exact hnd.2
  · intro f1 hf1
    rw [hpool] at hf1
    have hf1p := hI.pool f1 (by rw [hp]; simp [hf1])
    have hne1 : f1 ≠ f := fun e => hnd.1 (e ▸ hf1)
    refine ⟨hf1p.1, ?_, ?_⟩
    · rw [hfo f1 hne1]; exact hf1p.2.1
    · rw [hG]; simp [hne1, hf1p.2.2]
  · intro j hj
    by_cases hjf : j = f
    · subst hjf; exact hfn
    · rw [hfo j hjf] at hj
      exact hI.liveBound j hj
  · intro v hv
    rw [htc] at hv
    have hvw : v ≠ w := by
      intro e; subst e
      exact absurd hw (Nat.not_lt.2 hv)
    rw [hwo v hvw, hqo v hvw]
    exact hI.beyond v hv
  · intro p
    rw [hG]
    by_cases hpf : p = f
    · subst hpf; simp [hfg]
    · simp only [hpf, if_false]; exact hI.unique p
  · intro v o hv
    by_cases hvw : v = w
    · subst hvw
      rw [hwf] at hv
      simp only [Worker.first, Option.some.injEq] at hv
      subst hv
      exact hfn
    · rw [hwo v hvw] at hv
      exact hI.firstBound v o hv
  · intro v o c i hv
    by_cases hvw : v = w
    · subst hvw
      rw [hwf] at hv
      simp only [Worker.inFiber.injEq] at hv
      obtain ⟨e1, e2, e3⟩ := hv
      subst e1; subst e2; subst e3
      rw [hff]
      simp
    · rw [hwo v hvw] at hv
      obtain ⟨a1, a2, a3, a4⟩ := hI.inFiber v o c i hv
      have hcf : c ≠ f := by
        intro e; subst e
        simp [FiberContext.live, a1] at hfl
      have hof : o ≠ f := hne v o (by rw [hv]; rfl)
      rw [hfo c hcf, hfo o hof]
      refine ⟨a1, a2, a3, fun hi => ⟨(a4 hi).1, ?_⟩⟩
      rw [hG]
      simp [hcf, (a4 hi).2]
  · intro v o b hv
    by_cases hvw : v = w
    · subst hvw
      rw [hwf] at hv
      cases hv
    · rw [hwo v hvw] at hv
      have hof : o ≠ f := hne v o (by rw [hv]; rfl)
      rw [hfo o hof]
      exact hI.returned v o b hv

/-! ## The invariant is kept by the steps of `ThreadMain` -/

theorem two_le_sumTo {f : Nat → Nat} {n i j : Nat} (hi : i < n) (hj : j < n) (hij : i ≠ j) :
    f i + f j ≤ sumTo f n := by
  induction n with
  | zero => omega
  | succ n ih =>
    simp only [sumTo]
    by_cases h1 : i = n
    · subst h1
      have := le_sumTo (f := f) (show j < i by omega)
      omega
    · by_cases h2 : j = n
      · subst h2
        have := le_sumTo (f := f) (show i < j by omega)
        omega
      · have := ih (by omega) (by omega)
        omega

theorem System.Inv.worker_lt {cfg : Config} {T : Prop} {S : System} (hI : System.Inv cfg T S) {v o : Nat}
    (hv : (S.worker v).first = some o) : v < S.sched.threadsCount := by
  by_contra hc
  have := (hI.beyond v (by omega)).1
  rw [this] at hv
  cases hv

theorem System.Inv.guards_first {cfg : Config} {T : Prop} {S : System} (hI : System.Inv cfg T S) {v o : Nat}
    (hv : (S.worker v).first = some o) : guards S o = 1 := by
  have h1 := guards_pos (hI.worker_lt hv) hv
  have h2 := hI.unique o
  omega

theorem System.Inv.first_unique {cfg : Config} {T : Prop} {S : System} (hI : System.Inv cfg T S)
    {v w o : Nat} (hv : (S.worker v).first = some o) (hw : (S.worker w).first = some o) :
    v = w := by
  by_contra hne
  have := two_le_sumTo (f := fun w => if (S.worker w).first = some o then 1 else 0)
    (hI.worker_lt hv) (hI.worker_lt hw) hne
  simp only [hv, hw, if_true] at this
  have h2 := hI.unique o
  unfold guards at h2
  omega

theorem System.Inv.first_not_pool {cfg : Config} {T : Prop} {S : System} (hI : System.Inv cfg T S)
    {v o : Nat} (hv : (S.worker v).first = some o) : o ∉ S.sched.availableFibers := by
  intro h
  have := (hI.pool o h).2.2
  have := hI.guards_first hv
  omega

theorem ThreadMain.releaseGuard_some {st st1 : TaskScheduler} {f : Nat}
    (h : ThreadMain.releaseGuard st f = some st1) :
    0 ≤ (st.fiberContext f).childrenFibersCount - 1 ∧
    st1 = { st with
      fiberContext := setAt st.fiberContext f
        { st.fiberContext f with
          childrenFibersCount := (st.fiberContext f).childrenFibersCount - 1 } } := by
  unfold ThreadMain.releaseGuard at h
  dsimp only [AtomicInt.Dec] at h
  split at h
  · cases h
  · simp only [Option.some.injEq] at h
    exact ⟨by omega, h.symm⟩

theorem ThreadMain.dropGuard_some {st st1 : TaskScheduler} {f : Nat}
    (h : ThreadMain.dropGuard st f = some st1) :
    (st.fiberContext f).childrenFibersCount - 1 = 0 ∧
    st1 = { st with
      fiberContext := setAt st.fiberContext f
        { st.fiberContext f with
          childrenFibersCount := (st.fiberContext f).childrenFibersCount - 1 } } := by
  unfold ThreadMain.dropGuard at h
  dsimp only [AtomicInt.Dec] at h
  split at h
  · rename_i h0
    simp only [Option.some.injEq] at h
    exact ⟨h0, h.symm⟩
  · cases h

theorem System.step_Unguard {cfg : Config} {S S1 : System} {w : Nat}
    (h : System.step cfg S (Step.Unguard w) = some S1) :
    ∃ o, S.worker w = Worker.kept o ∧
      0 ≤ (S.sched.fiberContext o).childrenFibersCount - 1 ∧
      S1.worker = setAt S.worker w Worker.idle ∧
      S1.sched = { S.sched with
        fiberContext := setAt S.sched.fiberContext o
          { S.sched.fiberContext o with
            childrenFibersCount := (S.sched.fiberContext o).childrenFibersCount - 1 } } := by
  simp only [System.step] at h
  split at h
  · rename_i o hk
    split at h
    · cases h
    · rename_i st hr
      simp only [Option.some.injEq] at h
      obtain ⟨h0, hst⟩ := ThreadMain.releaseGuard_some hr
      exact ⟨o, hk, h0, by rw [← h], by rw [← h]; exact hst⟩
  · cases h

/-- A step in which worker `w` gives up fiber `o`, whose children counter goes
down by one and whose status, group and parent stay, keeps the invariant. -/
theorem System.Inv_giveUp {cfg : Config} {T : Prop} {S S1 : System} {w o : Nat} (hI : System.Inv cfg T S)
    (hfirst : (S.worker w).first = some o)
    (hw1 : S1.worker w = Worker.idle)
    (hwo : ∀ v, v ≠ w → S1.worker v = S.worker v)
    (htc : S1.sched.threadsCount = S.sched.threadsCount)
    (hq : S1.sched.threadContext = S.sched.threadContext)
    (hfo : ∀ j, j ≠ o → S1.sched.fiberContext j = S.sched.fiberContext j)
    (hst : (S1.sched.fiberContext o).taskStatus = (S.sched.fiberContext o).taskStatus)
    (hcnt : (S1.sched.fiberContext o).childrenFibersCount
      = (S.sched.fiberContext o).childrenFibersCount - 1)
    (hwt : ∀ sel, (S1.sched.fiberContext o).weight sel = (S.sched.fiberContext o).weight sel)
    (hpool : S1.sched.availableFibers = S.sched.availableFibers)
    (hgs : S1.sched.groupStats = S.sched.groupStats)
    (hall : S1.sched.allGroupStats = S.sched.allGroupStats) :
    System.Inv cfg T S1 := by
  have hw := hI.worker_lt hfirst
  have hg1 := hI.guards_first hfirst
  have hT : ∀ sel, unfinished cfg S1.sched sel = unfinished cfg S.sched sel := fun sel =>
    unfinished_congr htc (fun v => by rw [hq]) (fun j => by
      by_cases hj : j = o
      · subst hj; exact hwt sel
      · rw [hfo j hj])
  have hG : ∀ p, guards S1 p + (if p = o then 1 else 0) = guards S p := by
    intro p
    have := @guards_worker S S1 w p hw htc hwo
    rw [hfirst, hw1] at this
    simp only [Worker.first, Option.some.injEq, reduceCtorEq, if_false,
      Nat.add_zero] at this
    rw [← this]
    by_cases hpo : p = o
    · subst hpo; simp
    · have : ¬ o = p := fun e => hpo e.symm
      simp [hpo, this]
  have hstat : ∀ j, (S1.sched.fiberContext j).taskStatus = (S.sched.fiberContext j).taskStatus := by
    intro j
    by_cases hj : j = o
    · subst hj; exact hst
    · rw [hfo j hj]
  have hlive : ∀ j, (S1.sched.fiberContext j).live = (S.sched.fiberContext j).live := by
    intro j; simp only [FiberContext.live, hstat j]
  constructor
  · intro ht g; rw [hT, hgs]; exact hI.group ht g
  · rw [hT, hall]; exact hI.total
  · intro p
    rw [hT]
    have := hG p
    by_cases hpo : p = o
    · subst hpo
      rw [hcnt, hI.children p]
      simp only [if_true] at this
      push_cast
      omega
    · rw [hfo p hpo, hI.children p]
      simp only [hpo, if_false] at this
      push_cast
      omega
  · intro p hp
    rw [hT]
    rw [hstat p] at hp
    exact hI.parked p hp
  · rw [hpool]; exact hI.poolNodup
  · intro f hf
    rw [hpool] at hf
    obtain ⟨a, b, c⟩ := hI.pool f hf
    refine ⟨a, by rw [hlive]; exact b, ?_⟩
    have := hG f
    omega
  · intro j hj
    rw [hlive] at hj
    exact hI.liveBound j hj
  · intro v hv
    rw [htc] at hv
    have hvw : v ≠ w := by
      intro e; subst e; omega
    rw [hwo v hvw, hq]
    exact hI.beyond v hv
  · intro p
    have := hG p
    have := hI.unique p
    omega
  · intro v o1 hv
    by_cases hvw : v = w
    · subst hvw
      rw [hw1] at hv
      cases hv
    · rw [hwo v hvw] at hv
      exact hI.firstBound v o1 hv
  · intro v o1 c i hv
    by_cases hvw : v = w
    · subst hvw
      rw [hw1] at hv
      cases hv
    · rw [hwo v hvw] at hv
      obtain ⟨a1, a2, a3, a4⟩ := hI.inFiber v o1 c i hv
      have hco : c ≠ o := by
        intro e
        subst e
        by_cases hi : i = 0
        · have := a3 hi
          subst this
          exact hvw (hI.first_unique (by rw [hv]; rfl) hfirst)
        · have := (a4 (by omega)).2
          omega
      rw [hfo c hco, hstat o1]
      refine ⟨a1, a2, a3, fun hi => ⟨(a4 hi).1, ?_⟩⟩
      have := hG c
      have := (a4 hi).2
      omega
  · intro v o1 b hv
    by_cases hvw : v = w
    · subst hvw
      rw [hw1] at hv
      cases hv
    · rw [hwo v hvw] at hv
      rw [hstat o1]
      exact hI.returned v o1 b hv

theorem System.Inv_Unguard {cfg : Config} {T : Prop} {S S1 : System} {w : Nat} (hI : System.Inv cfg T S)
    (h : System.step cfg S (Step.Unguard w) = some S1) : System.Inv cfg T S1 := by
  obtain ⟨o, hk, _, hW, hS⟩ := System.step_Unguard h
  apply System.Inv_giveUp (w := w) (o := o) hI (by rw [hk]; rfl)
  · rw [hW]; simp [setAt]
  · intro v hv; rw [hW]; simp [setAt, hv]
  · rw [hS]
  · rw [hS]
  · intro j hj; rw [hS]; simp [setAt, hj]
  · rw [hS]; simp [setAt]
  · rw [hS]; simp [setAt]
  · intro sel; rw [hS]; simp [setAt, FiberContext.weight, FiberContext.live]
  · rw [hS]
  · rw [hS]
  · rw [hS]


/-- Putting a fiber that is not live and under no guard back on the pool, with
its task, group, parent and thread binding cleared, keeps the invariant. -/
theorem System.Inv_release {cfg : Config} {T : Prop} {S S1 : System} {c : Nat} (hI : System.Inv cfg T S)
    (hc : c < cfg.MT_MAX_FIBERS_COUNT) (hnl : (S.sched.fiberContext c).live = false)
    (hg : guards S c = 0) (hnp : c ∉ S.sched.availableFibers)
    (hW : S1.worker = S.worker)
    (htc : S1.sched.threadsCount = S.sched.threadsCount)
    (hq : S1.sched.threadContext = S.sched.threadContext)
    (hfo : ∀ j, j ≠ c → S1.sched.fiberContext j = S.sched.fiberContext j)
    (hst : (S1.sched.fiberContext c).taskStatus = (S.sched.fiberContext c).taskStatus)
    (hcnt : (S1.sched.fiberContext c).childrenFibersCount
      = (S.sched.fiberContext c).childrenFibersCount)
    (hpool : S1.sched.availableFibers = c :: S.sched.availableFibers)
    (hgs : S1.sched.groupStats = S.sched.groupStats)
    (hall : S1.sched.allGroupStats = S.sched.allGroupStats) :
    System.Inv cfg T S1 := by
  have hstat : ∀ j, (S1.sched.fiberContext j).taskStatus = (S.sched.fiberContext j).taskStatus := by
    intro j
    by_cases hj : j = c
    · subst hj; exact hst
    · rw [hfo j hj]
  have hlive : ∀ j, (S1.sched.fiberContext j).live = (S.sched.fiberContext j).live := by
    intro j; simp only [FiberContext.live, hstat j]
  have hT : ∀ sel, unfinished cfg S1.sched sel = unfinished cfg S.sched sel := fun sel =>
    unfinished_congr htc (fun v => by rw [hq]) (fun j => by
      by_cases hj : j = c
      · subst hj
        rw [weight_of_not_live hnl, weight_of_not_live (by rw [hlive]; exact hnl)]
      · rw [hfo j hj])
  have hG : ∀ p, guards S1 p = guards S p := fun p =>
    guards_congr htc (fun v => by rw [hW])
  have hcount : ∀ j, (S1.sched.fiberContext j).childrenFibersCount
      = (S.sched.fiberContext j).childrenFibersCount := by
    intro j
    by_cases hj : j = c
    · subst hj; exact hcnt
    · rw [hfo j hj]
  constructor
  · intro ht g; rw [hT, hgs]; exact hI.group ht g
  · rw [hT, hall]; exact hI.total
  · intro p; rw [hT, hG, hcount]; exact hI.children p
  · intro p hp
    rw [hT]
    rw [hstat p] at hp
    exact hI.parked p hp
  · rw [hpool]; exact List.nodup_cons.2 ⟨hnp, hI.poolNodup⟩
  · intro f hf
    rw [hpool] at hf
    rw [hlive, hG]
    rcases List.mem_cons.1 hf with e | hf
    · subst e; exact ⟨hc, hnl, hg⟩
    · exact hI.pool f hf
  · intro j hj
    rw [hlive] at hj
    exact hI.liveBound j hj
  · intro v hv
    rw [htc] at hv
    rw [hW, hq]
    exact hI.beyond v hv
  · intro p; rw [hG]; exact hI.unique p
  · intro v o hv
    rw [hW] at hv
    exact hI.firstBound v o hv
  · intro v o c1 i hv
    rw [hW] at hv
    obtain ⟨a1, a2, a3, a4⟩ := hI.inFiber v o c1 i hv
    have hcc : c1 ≠ c := by
      intro e; subst e
      simp [FiberContext.live, a1] at hnl
    rw [hfo c1 hcc, hstat o, hG]
    exact ⟨a1, a2, a3, a4⟩
  · intro v o b hv
    rw [hW] at hv
    rw [hstat o]
    exact hI.returned v o b hv

/-- Remembering that the fiber under guard is kept changes nothing else. -/
theorem System.Inv_kept {cfg : Config} {T : Prop} {S S1 : System} {w o : Nat} {b : Bool}
    (hI : System.Inv cfg T S) (hret : S.worker w = Worker.returned o b)
    (hw1 : S1.worker w = Worker.kept o)
    (hwo : ∀ v, v ≠ w → S1.worker v = S.worker v)
    (hS : S1.sched = S.sched) : System.Inv cfg T S1 := by
  have hfirst : ∀ v, (S1.worker v).first = (S.worker v).first := by
    intro v
    by_cases hv : v = w
    · subst hv; rw [hw1, hret]; rfl
    · rw [hwo v hv]
  have hG : ∀ p, guards S1 p = guards S p := fun p =>
    guards_congr (by rw [hS]) hfirst
  constructor
  · intro ht g; rw [hS]; exact hI.group ht g
  · rw [hS]; exact hI.total
  · intro p; rw [hG, hS]; exact hI.children p
  · intro p hp; rw [hS] at hp ⊢; exact hI.parked p hp
  · rw [hS]; exact hI.poolNodup
  · intro f hf; rw [hS] at hf; rw [hG, hS]; exact hI.pool f hf
  · intro j hj; rw [hS] at hj; exact hI.liveBound j hj
  · intro v hv
    rw [hS] at hv ⊢
    have hvw : v ≠ w := by
      intro e; subst e
      have := (hI.beyond v hv).1
      rw [this] at hret
      cases hret
    rw [hwo v hvw]
    exact hI.beyond v hv
  · intro p; rw [hG]; exact hI.unique p
  · intro v o1 hv
    rw [hfirst] at hv
    exact hI.firstBound v o1 hv
  · intro v o1 c i hv
    by_cases hvw : v = w
    · subst hvw; rw [hw1] at hv; cases hv
    · rw [hwo v hvw] at hv
      rw [hG, hS]
      exact hI.inFiber v o1 c i hv
  · intro v o1 b1 hv
    by_cases hvw : v = w
    · subst hvw; rw [hw1] at hv; cases hv
    · rw [hwo v hvw] at hv
      rw [hS]
      exact hI.returned v o1 b1 hv

/-- Driving the fiber under guard again, when it awaits children and none is
outstanding, keeps the invariant. -/
theorem System.Inv_again {cfg : Config} {T : Prop} {S S1 : System} {w o : Nat} {b : Bool}
    (hI : System.Inv cfg T S) (hret : S.worker w = Worker.returned o b)
    (hac : (S.sched.fiberContext o).taskStatus = FiberTaskStatus.AWAITING_CHILD)
    (hle : (S.sched.fiberContext o).childrenFibersCount ≤ 1)
    (hw1 : S1.worker w = Worker.inFiber o o 0)
    (hwo : ∀ v, v ≠ w → S1.worker v = S.worker v)
    (htc : S1.sched.threadsCount = S.sched.threadsCount)
    (hq : S1.sched.threadContext = S.sched.threadContext)
    (hfo : ∀ j, j ≠ o → S1.sched.fiberContext j = S.sched.fiberContext j)
    (hst : (S1.sched.fiberContext o).taskStatus = FiberTaskStatus.RUNNED)
    (hth : (S1.sched.fiberContext o).threadContext = some w)
    (hgrp : (S1.sched.fiberContext o).currentGroup = (S.sched.fiberContext o).currentGroup)
    (hpar : (S1.sched.fiberContext o).parentFiber = (S.sched.fiberContext o).parentFiber)
    (hcnt : (S1.sched.fiberContext o).childrenFibersCount
      = (S.sched.fiberContext o).childrenFibersCount)
    (hpool : S1.sched.availableFibers = S.sched.availableFibers)
    (hgs : S1.sched.groupStats = S.sched.groupStats)
    (hall : S1.sched.allGroupStats = S.sched.allGroupStats) :
    System.Inv cfg T S1 := by
  have hfirst0 : (S.worker w).first = some o := by rw [hret]; rfl
  have hfirst : ∀ v, (S1.worker v).first = (S.worker v).first := by
    intro v
    by_cases hv : v = w
    · subst hv; rw [hw1, hret]; rfl
    · rw [hwo v hv]
  have hG : ∀ p, guards S1 p = guards S p := fun p => guards_congr htc hfirst
  have hg1 := hI.guards_first hfirst0
  have hlive0 : (S.sched.fiberContext o).live = true := by simp [FiberContext.live, hac]
  have hlive1 : (S1.sched.fiberContext o).live = true := by simp [FiberContext.live, hst]
  have hlive : ∀ j, (S1.sched.fiberContext j).live = (S.sched.fiberContext j).live := by
    intro j
    by_cases hj : j = o
    · subst hj; rw [hlive0, hlive1]
    · rw [hfo j hj]
  have hT : ∀ sel, unfinished cfg S1.sched sel = unfinished cfg S.sched sel := fun sel =>
    unfinished_congr htc (fun v => by rw [hq]) (fun j => by
      by_cases hj : j = o
      · subst hj
        simp only [FiberContext.weight, hlive0, hlive1, hgrp, hpar]
      · rw [hfo j hj])
  have hcount : ∀ j, (S1.sched.fiberContext j).childrenFibersCount
      = (S.sched.fiberContext j).childrenFibersCount := by
    intro j
    by_cases hj : j = o
    · subst hj; exact hcnt
    · rw [hfo j hj]
  have hzero : unfinished cfg S.sched (fun _ q => q == some o) = 0 := by
    have := hI.children o
    rw [hg1] at this
    omega
  constructor
  · intro ht g; rw [hT, hgs]; exact hI.group ht g
  · rw [hT, hall]; exact hI.total
  · intro p; rw [hT, hG, hcount]; exact hI.children p
  · intro p hp
    rw [hT]
    by_cases hpo : p = o
    · subst hpo; exact hzero
    · rw [hfo p hpo] at hp
      exact hI.parked p hp
  · rw [hpool]; exact hI.poolNodup
  · intro f hf
    rw [hpool] at hf
    rw [hlive, hG]
    exact hI.pool f hf
  · intro j hj
    rw [hlive] at hj
    exact hI.liveBound j hj
  · intro v hv
    rw [htc] at hv
    have hvw : v ≠ w := by
      intro e; subst e
      have := hI.worker_lt hfirst0
      omega
    rw [hwo v hvw, hq]
    exact hI.beyond v hv
  · intro p; rw [hG]; exact hI.unique p
  · intro v o1 hv
    rw [hfirst] at hv
    exact hI.firstBound v o1 hv
  · intro v o1 c i hv
    by_cases hvw : v = w
    · subst hvw
      rw [hw1] at hv
      simp only [Worker.inFiber.injEq] at hv
      obtain ⟨e1, e2, e3⟩ := hv
      subst e1; subst e2; subst e3
      exact ⟨hst, hth, fun _ => rfl, fun h => absurd h (by omega)⟩
    · rw [hwo v hvw] at hv
      obtain ⟨a1, a2, a3, a4⟩ := hI.inFiber v o1 c i hv
      have hco : c ≠ o := by
        intro e; subst e
        rw [hac] at a1; cases a1
      rw [hfo c hco, hG]
      refine ⟨a1, a2, a3, fun hi => ⟨?_, (a4 hi).2⟩⟩
      have hoo : o1 ≠ o := by
        intro e; subst e
        have := (a4 hi).1
        rw [hac] at this; cases this
      rw [hfo o1 hoo]
      exact (a4 hi).1
  · intro v o1 b1 hv
    by_cases hvw : v = w
    · subst hvw; rw [hw1] at hv; cases hv
    · rw [hwo v hvw] at hv
      have hoo : o1 ≠ o := by
        intro e; subst e
        exact hvw (hI.first_unique (by rw [hv]; rfl) hfirst0)
      rw [hfo o1 hoo]
      exact hI.returned v o1 b1 hv

theorem ThreadMain.afterExecute_cases {cfg : Config} {st st1 : TaskScheduler} {f : Nat}
    {b : Bool} {nxt : ThreadMain.Next}
    (h : ThreadMain.afterExecute cfg st f b = some (st1, nxt)) :
    (nxt = ThreadMain.Next.released ∧
      (b = true ∨ (st.fiberContext f).taskStatus = FiberTaskStatus.FINISHED) ∧
      (st.fiberContext f).childrenFibersCount - 1 = 0 ∧
      st1 = { st with
        fiberContext := setAt st.fiberContext f
          { st.fiberContext f with
            childrenFibersCount := (st.fiberContext f).childrenFibersCount - 1,
            currentGroup := cfg.GROUP_UNDEFINED,
            currentTask := { taskFunc := none, userData := 0 },
            parentFiber := none, threadContext := none }
        availableFibers := f :: st.availableFibers }) ∨
    (nxt = ThreadMain.Next.kept ∧ st1 = st ∧
      ¬ (b = true ∨ (st.fiberContext f).taskStatus = FiberTaskStatus.FINISHED)) ∨
    (nxt = ThreadMain.Next.again ∧ st1 = st ∧
      ¬ (b = true ∨ (st.fiberContext f).taskStatus = FiberTaskStatus.FINISHED) ∧
      (st.fiberContext f).childrenFibersCount ≤ 1 ∧
      (st.fiberContext f).taskStatus ≠ FiberTaskStatus.AWAITING_GROUP) := by
  unfold ThreadMain.afterExecute at h
  dsimp only at h
  split at h
  · rename_i hc
    split at h
    · cases h
    · rename_i s1 hd
      split at h
      · cases h
      · rename_i s2 hr
        simp only [Option.some.injEq, Prod.mk.injEq] at h
        obtain ⟨e1, e2⟩ := h
        obtain ⟨hz, hs1⟩ := ThreadMain.dropGuard_some hd
        obtain ⟨_, hs2⟩ := ReleaseFiberContext_some hr
        refine Or.inl ⟨e2.symm, hc, hz, ?_⟩
        rw [← e1, hs2, hs1]
        simp only
        congr 1
        funext j
        by_cases hj : j = f
        · subst hj; simp [setAt]
        · simp [setAt, hj]
  · rename_i hc
    split at h
    · simp only [Option.some.injEq, Prod.mk.injEq] at h
      exact Or.inr (Or.inl ⟨h.2.symm, h.1.symm, hc⟩)
    · rename_i hgt
      split at h
      · simp only [Option.some.injEq, Prod.mk.injEq] at h
        exact Or.inr (Or.inl ⟨h.2.symm, h.1.symm, hc⟩)
      · rename_i hag
        simp only [Option.some.injEq, Prod.mk.injEq] at h
        exact Or.inr (Or.inr ⟨h.2.symm, h.1.symm, hc, by omega, hag⟩)

theorem System.Inv_Continue {cfg : Config} {T : Prop} {S S1 : System} {w : Nat} (hI : System.Inv cfg T S)
    (h : System.step cfg S (Step.Continue w) = some S1) : System.Inv cfg T S1 := by
  simp only [System.step] at h
  split at h
  · rename_i o b hret
    have hfirst : (S.worker w).first = some o := by rw [hret]; rfl
    cases ha : ThreadMain.afterExecute cfg S.sched o b with
    | none => simp [ha] at h
    | some r =>
      obtain ⟨st, nxt⟩ := r
      rcases ThreadMain.afterExecute_cases ha with ⟨e, hc, hz, hst⟩ | ⟨e, hst, hc⟩ |
        ⟨e, hst, hc, hle, hag⟩
      · subst e
        simp only [ha, Option.some.injEq] at h
        have hfin : (S.sched.fiberContext o).taskStatus = FiberTaskStatus.FINISHED := by
          rcases hI.returned w o b hret with h1 | ⟨h1, _⟩
          · exact h1
          · rcases hc with h2 | h2
            · rw [h1] at h2; cases h2
            · exact h2
        obtain ⟨S2, hW2, hS2⟩ : ∃ S2 : System, S2.worker = setAt S.worker w Worker.idle ∧
            S2.sched = { S.sched with
              fiberContext := setAt S.sched.fiberContext o
                { S.sched.fiberContext o with
                  childrenFibersCount := (S.sched.fiberContext o).childrenFibersCount - 1 } } :=
          ⟨⟨_, _⟩, rfl, rfl⟩
        have hI1 : System.Inv cfg T S2 := by
          apply System.Inv_giveUp (w := w) (o := o) hI hfirst
          · rw [hW2]; simp [setAt]
          · intro v hv; rw [hW2]; simp [setAt, hv]
          · rw [hS2]
          · rw [hS2]
          · intro j hj; rw [hS2]; simp [setAt, hj]
          · rw [hS2]; simp [setAt]
          · rw [hS2]; simp [setAt]
          · intro sel; rw [hS2]; simp [setAt, FiberContext.weight, FiberContext.live]
          · rw [hS2]
          · rw [hS2]
          · rw [hS2]
        have hg0 : guards S2 o = 0 := by
          have := @guards_worker S S2 w o
            (hI.worker_lt hfirst) (by rw [hS2]) (by intro v hv; rw [hW2]; simp [setAt, hv])
          rw [hfirst, hW2] at this
          simp only [setAt, if_true, Worker.first, reduceCtorEq, if_false, Nat.add_zero] at this
          have := hI.guards_first hfirst
          omega
        apply System.Inv_release (c := o) hI1 (hI.firstBound w o hfirst)
        · rw [hS2]; simp [setAt, FiberContext.live, hfin]
        · exact hg0
        · rw [hS2]; exact hI.first_not_pool hfirst
        · rw [← h, hW2]
        · rw [← h, hst, hS2]
        · rw [← h, hst, hS2]
        · intro j hj; rw [← h, hst, hS2]; simp [setAt, hj]
        · rw [← h, hst, hS2]; simp [setAt]
        · rw [← h, hst, hS2]; simp [setAt]
        · rw [← h, hst, hS2]
        · rw [← h, hst, hS2]
        · rw [← h, hst, hS2]
      · subst e
        simp only [ha, Option.some.injEq] at h
        apply System.Inv_kept (w := w) (o := o) hI hret
        · rw [← h]; simp [setAt]
        · intro v hv; rw [← h]; simp [setAt, hv]
        · rw [← h, hst]
      · subst e
        subst hst
        simp only [ha] at h
        cases he : ExecuteTask.enter cfg S.sched w o with
        | none => simp [he] at h
        | some st1 =>
          simp only [he, Option.some.injEq] at h
          obtain ⟨_, _, hst1⟩ := ExecuteTask.enter_some he
          have hac : (S.sched.fiberContext o).taskStatus = FiberTaskStatus.AWAITING_CHILD := by
            rcases hI.returned w o b hret with h1 | ⟨_, h1 | h1⟩
            · exact absurd (Or.inr h1) hc
            · exact absurd h1 hag
            · exact h1
          apply System.Inv_again (w := w) (o := o) hI hret hac hle
          · rw [← h]; simp [setAt]
          · intro v hv; rw [← h]; simp [setAt, hv]
          · rw [← h, hst1]
          · rw [← h, hst1]
          · intro j hj; rw [← h, hst1]; simp [setAt, hj]
          · rw [← h, hst1]; simp [setAt]
          · rw [← h, hst1]; simp [setAt]
          · rw [← h, hst1]; simp [setAt]
          · rw [← h, hst1]; simp [setAt]
          · rw [← h, hst1]; simp [setAt]
          · rw [← h, hst1]
          · rw [← h, hst1]
          · rw [← h, hst1]
  · cases h

/-! ## The invariant is kept when a fiber switches back -/

/-- A fiber that yields, having added `n` tasks of group `g` as its children
(none when it waits for a group), keeps the invariant. -/
theorem System.Inv_yield {cfg : Config} {T : Prop} {S S1 : System} {w o c i g n : Nat}
    (hI : System.Inv cfg T S) (hw : S.worker w = Worker.inFiber o c i)
    (hw1 : S1.worker w = Worker.returned o false)
    (hwo : ∀ v, v ≠ w → S1.worker v = S.worker v)
    (htc : S1.sched.threadsCount = S.sched.threadsCount)
    (hT : ∀ sel : Nat → Option Nat → Bool, (T ∨ ∀ g1 g2 q, sel g1 q = sel g2 q) →
      unfinished cfg S1.sched sel
        = unfinished cfg S.sched sel + (if sel g (some c) = true then n else 0))
    (hfo : ∀ j, j ≠ c → S1.sched.fiberContext j = S.sched.fiberContext j)
    (hst : ((S1.sched.fiberContext c).taskStatus = FiberTaskStatus.AWAITING_GROUP ∧ n = 0) ∨
      (S1.sched.fiberContext c).taskStatus = FiberTaskStatus.AWAITING_CHILD)
    (hcnt : (S1.sched.fiberContext c).childrenFibersCount
      = (S.sched.fiberContext c).childrenFibersCount + (n : Int))
    (hpool : S1.sched.availableFibers = S.sched.availableFibers)
    (hgrp : ∀ g1, (S1.sched.groupStats g1).inProgressTaskCount
      = (S.sched.groupStats g1).inProgressTaskCount + (if g1 = g then (n : Int) else 0))
    (hall : S1.sched.allGroupStats.inProgressTaskCount
      = S.sched.allGroupStats.inProgressTaskCount + (n : Int))
    (hbeyond : ∀ v, S.sched.threadsCount ≤ v →
      (S1.sched.threadContext v).queue = (S.sched.threadContext v).queue) :
    System.Inv cfg T S1 := by
  obtain ⟨hrun, hth, hi0, hipos⟩ := hI.inFiber w o c i hw
  have hfirst0 : (S.worker w).first = some o := by rw [hw]; rfl
  have hfirst : ∀ v, (S1.worker v).first = (S.worker v).first := by
    intro v
    by_cases hv : v = w
    · subst hv; rw [hw1, hw]; rfl
    · rw [hwo v hv]
  have hG : ∀ p, guards S1 p = guards S p := fun p => guards_congr htc hfirst
  have hlive0 : (S.sched.fiberContext c).live = true := by simp [FiberContext.live, hrun]
  have hlive1 : (S1.sched.fiberContext c).live = true := by
    rcases hst with ⟨h1, _⟩ | h1 <;> simp [FiberContext.live, h1]
  have hlive : ∀ j, (S1.sched.fiberContext j).live = (S.sched.fiberContext j).live := by
    intro j
    by_cases hj : j = c
    · subst hj; rw [hlive0, hlive1]
    · rw [hfo j hj]
  constructor
  · intro ht g1
    rw [hT (fun g2 _ => g2 == g1) (Or.inl ht), hgrp, hI.group ht g1]
    by_cases hg1 : g1 = g
    · subst hg1; simp
    · have : (g == g1) = false := by simp; exact fun e => hg1 e.symm
      simp [hg1, this]
  · rw [hT (fun _ _ => true) (Or.inr fun _ _ _ => rfl), hall, hI.total]; simp
  · intro p
    rw [hT (fun _ q => q == some p) (Or.inr fun _ _ _ => rfl), hG]
    by_cases hpc : p = c
    · subst hpc
      rw [hcnt, hI.children p]
      simp
      omega
    · rw [hfo p hpc, hI.children p]
      have : (some c == some p) = false := by simp; exact fun e => hpc e.symm
      simp [this]
  · intro p hp
    rw [hT (fun _ q => q == some p) (Or.inr fun _ _ _ => rfl)]
    by_cases hpc : p = c
    · subst hpc
      rcases hst with ⟨_, h0⟩ | h1
      · subst h0
        have := hI.parked p (by rw [hrun]; simp)
        simp [this]
      · exact absurd h1 hp
    · rw [hfo p hpc] at hp
      have : (some c == some p) = false := by simp; exact fun e => hpc e.symm
      simp [this, hI.parked p hp]
  · rw [hpool]; exact hI.poolNodup
  · intro f hf
    rw [hpool] at hf
    rw [hlive, hG]
    exact hI.pool f hf
  · intro j hj
    rw [hlive] at hj
    exact hI.liveBound j hj
  · intro v hv
    rw [htc] at hv
    have hvw : v ≠ w := by
      intro e; subst e
      have := hI.worker_lt hfirst0
      omega
    rw [hwo v hvw, hbeyond v hv]
    exact hI.beyond v hv
  · intro p; rw [hG]; exact hI.unique p
  · intro v o1 hv
    rw [hfirst] at hv
    exact hI.firstBound v o1 hv
  · intro v o1 c1 i1 hv
    by_cases hvw : v = w
    · subst hvw; rw [hw1] at hv; cases hv
    · rw [hwo v hvw] at hv
      obtain ⟨a1, a2, a3, a4⟩ := hI.inFiber v o1 c1 i1 hv
      have hcc : c1 ≠ c := by
        intro e; subst e
        rw [hth] at a2
        simp only [Option.some.injEq] at a2
        exact hvw a2.symm
      rw [hfo c1 hcc, hG]
      refine ⟨a1, a2, a3, fun hi => ⟨?_, (a4 hi).2⟩⟩
      have hoc : o1 ≠ c := by
        intro e; subst e
        have := (a4 hi).1
        rw [hrun] at this; cases this
      rw [hfo o1 hoc]
      exact (a4 hi).1
  · intro v o1 b1 hv
    by_cases hvw : v = w
    · subst hvw
      rw [hw1] at hv
      simp only [Worker.returned.injEq] at hv
      obtain ⟨e1, e2⟩ := hv
      subst e1; subst e2
      by_cases hi : i = 0
      · have := hi0 hi
        subst this
        right
        refine ⟨rfl, ?_⟩
        rcases hst with ⟨h1, _⟩ | h1
        · exact Or.inl h1
        · exact Or.inr h1
      · have hfin := (hipos (by omega)).1
        have hoc : o ≠ c := by
          intro e; subst e
          rw [hrun] at hfin; cases hfin
        rw [hfo o hoc]
        exact Or.inl hfin
    · rw [hwo v hvw] at hv
      have hoc : o1 ≠ c := by
        intro e; subst e
        rcases hI.returned v o1 b1 hv with h1 | ⟨_, h1 | h1⟩ <;>
          · rw [hrun] at h1; cases h1
      rw [hfo o1 hoc]
      exact hI.returned v o1 b1 hv

/-- A fiber that finishes keeps the invariant: its group counter, the counter
of all groups and its parent's children counter go down by one; `chain` is the
parent when that brings the parent's counter to 0, in which case the worker
switches into the parent. -/
theorem System.Inv_finish {cfg : Config} {T : Prop} {S S1 : System} {w o c i : Nat} (chain : Option Nat)
    (hI : System.Inv cfg T S) (hw : S.worker w = Worker.inFiber o c i)
    (hw1 : S1.worker w = Worker.afterFinish o i chain)
    (hwo : ∀ v, v ≠ w → S1.worker v = S.worker v)
    (htc : S1.sched.threadsCount = S.sched.threadsCount)
    (hq : S1.sched.threadContext = S.sched.threadContext)
    (hcst : (S1.sched.fiberContext c).taskStatus = FiberTaskStatus.FINISHED)
    (hfields : ∀ j, j ≠ c → chain ≠ some j →
      (S1.sched.fiberContext j).taskStatus = (S.sched.fiberContext j).taskStatus ∧
      (S1.sched.fiberContext j).threadContext = (S.sched.fiberContext j).threadContext)
    (hkeys : ∀ j, j ≠ c →
      (S1.sched.fiberContext j).currentGroup = (S.sched.fiberContext j).currentGroup ∧
      (S1.sched.fiberContext j).parentFiber = (S.sched.fiberContext j).parentFiber)
    (hchain : ∀ q, chain = some q →
      (S.sched.fiberContext c).parentFiber = some q ∧
      (S.sched.fiberContext q).childrenFibersCount - 1 = 0 ∧
      (S1.sched.fiberContext q).taskStatus = FiberTaskStatus.RUNNED ∧
      (S1.sched.fiberContext q).threadContext = some w)
    (hcount : ∀ j, (S1.sched.fiberContext j).childrenFibersCount
      = (S.sched.fiberContext j).childrenFibersCount
        - (if (S.sched.fiberContext c).parentFiber = some j then 1 else 0))
    (hpool : S1.sched.availableFibers = S.sched.availableFibers)
    (hgrp : ∀ g1, (S1.sched.groupStats g1).inProgressTaskCount
      = (S.sched.groupStats g1).inProgressTaskCount
        - (if g1 = (S.sched.fiberContext c).currentGroup then 1 else 0))
    (hall : S1.sched.allGroupStats.inProgressTaskCount
      = S.sched.allGroupStats.inProgressTaskCount - 1) :
    System.Inv cfg T S1 := by
  obtain ⟨hrun, hth, hi0, hipos⟩ := hI.inFiber w o c i hw
  have hfirst0 : (S.worker w).first = some o := by rw [hw]; rfl
  have hfirst : ∀ v, (S1.worker v).first = (S.worker v).first := by
    intro v
    by_cases hv : v = w
    · subst hv
      rw [hw1, hw]
      cases chain <;> rfl
    · rw [hwo v hv]
  have hG : ∀ p, guards S1 p = guards S p := fun p => guards_congr htc hfirst
  have hlive0 : (S.sched.fiberContext c).live = true := by simp [FiberContext.live, hrun]
  have hlive1 : (S1.sched.fiberContext c).live = false := by simp [FiberContext.live, hcst]
  have hcn : c < cfg.MT_MAX_FIBERS_COUNT := hI.liveBound c hlive0
  have hpz := hI.parked c (by rw [hrun]; simp)
  have hparne : (S.sched.fiberContext c).parentFiber ≠ some c := by
    have := (unfinished_eq_zero hpz).2 c hcn hlive0
    simpa using this
  -- facts about the parent the worker switches into
  have hchain2 : ∀ q, chain = some q → q ≠ c ∧
      (S.sched.fiberContext q).taskStatus = FiberTaskStatus.AWAITING_CHILD ∧
      guards S q = 0 ∧ unfinished cfg S.sched (fun _ p => p == some q) = 1 := by
    intro q hcq
    obtain ⟨hp, hz, _, _⟩ := hchain q hcq
    have hqc : q ≠ c := by
      intro e; subst e; exact hparne hp
    have hwt : (S.sched.fiberContext c).weight (fun _ p => p == some q) = 1 := by
      simp [FiberContext.weight, hlive0, hp]
    have hle := @weight_le_unfinished cfg S.sched
      (fun _ p => p == some q) c hcn
    have hch := hI.children q
    refine ⟨hqc, ?_, ?_, ?_⟩
    · by_contra hne
      have := hI.parked q hne
      omega
    · omega
    · omega
  have hlive : ∀ j, j ≠ c → (S1.sched.fiberContext j).live = (S.sched.fiberContext j).live := by
    intro j hj
    by_cases hcj : chain = some j
    · obtain ⟨_, h1, _, _⟩ := hchain2 j hcj
      obtain ⟨_, _, h2, _⟩ := hchain j hcj
      simp [FiberContext.live, h1, h2]
    · simp only [FiberContext.live, (hfields j hj hcj).1]
  have hweight : ∀ sel j, j ≠ c →
      (S1.sched.fiberContext j).weight sel = (S.sched.fiberContext j).weight sel := by
    intro sel j hj
    simp only [FiberContext.weight, hlive j hj, (hkeys j hj).1, (hkeys j hj).2]
  have hT : ∀ sel, unfinished cfg S1.sched sel
      + (if sel (S.sched.fiberContext c).currentGroup (S.sched.fiberContext c).parentFiber = true
          then 1 else 0) = unfinished cfg S.sched sel := by
    intro sel
    have := @unfinished_fiber cfg S.sched S1.sched sel c hcn htc
      (fun v => by rw [hq]) (fun j hj => hweight sel j hj)
    rw [weight_of_not_live hlive1] at this
    simp only [FiberContext.weight, hlive0, Bool.true_and] at this
    omega
  constructor
  · intro ht g1
    have := hT (fun g2 _ => g2 == g1)
    rw [hgrp, hI.group ht g1]
    by_cases hg1 : g1 = (S.sched.fiberContext c).currentGroup
    · subst hg1
      simp only [beq_self_eq_true, if_true] at this ⊢
      omega
    · have hne : ((S.sched.fiberContext c).currentGroup == g1) = false := by
        simp; exact fun e => hg1 e.symm
      simp only [hne, Bool.false_eq_true, if_false, hg1] at this ⊢
      omega
  · have := hT (fun _ _ => true)
    rw [hall, hI.total]
    simp only [if_true] at this
    omega
  · intro p
    have := hT (fun _ q => q == some p)
    rw [hcount, hG, hI.children p]
    by_cases hp : (S.sched.fiberContext c).parentFiber = some p
    · simp only [hp, beq_self_eq_true, if_true] at this ⊢
      omega
    · have hne : ((S.sched.fiberContext c).parentFiber == some p) = false := by
        simpa using hp
      simp only [hne, Bool.false_eq_true, if_false, hp] at this ⊢
      omega
  · intro p hp
    have hle := hT (fun _ q => q == some p)
    by_cases hpc : p = c
    · subst hpc; omega
    · by_cases hcp : chain = some p
      · obtain ⟨_, _, _, h1⟩ := hchain2 p hcp
        obtain ⟨h2, _, _, _⟩ := hchain p hcp
        simp only [h2, beq_self_eq_true, if_true] at hle
        omega
      · rw [(hfields p hpc hcp).1] at hp
        have := hI.parked p hp
        omega
  · rw [hpool]; exact hI.poolNodup
  · intro f hf
    rw [hpool] at hf
    obtain ⟨a, b, d⟩ := hI.pool f hf
    have hfc : f ≠ c := by
      intro e; subst e
      rw [hlive0] at b; cases b
    rw [hlive f hfc, hG]
    exact ⟨a, b, d⟩
  · intro j hj
    by_cases hjc : j = c
    · subst hjc; exact hcn
    · rw [hlive j hjc] at hj
      exact hI.liveBound j hj
  · intro v hv
    rw [htc] at hv
    have hvw : v ≠ w := by
      intro e; subst e
      have := hI.worker_lt hfirst0
      omega
    rw [hwo v hvw, hq]
    exact hI.beyond v hv
  · intro p; rw [hG]; exact hI.unique p
  · intro v o1 hv
    rw [hfirst] at hv
    exact hI.firstBound v o1 hv
  · intro v o1 c1 i1 hv
    by_cases hvw : v = w
    · subst hvw
      rw [hw1] at hv
      cases hch : chain with
      | none => rw [hch] at hv; cases hv
      | some q =>
        rw [hch] at hv
        simp only [Worker.afterFinish, Worker.inFiber.injEq] at hv
        obtain ⟨e1, e2, e3⟩ := hv
        subst e1; subst e2; subst e3
        obtain ⟨_, _, h3, h4⟩ := hchain q hch
        obtain ⟨hqc, hqac, hqg, _⟩ := hchain2 q hch
        refine ⟨h3, h4, fun h => absurd h (by omega), fun _ => ⟨?_, by rw [hG]; exact hqg⟩⟩
        by_cases hoc : o = c
        · subst hoc; exact hcst
        · have hfin := (hipos (by
            by_contra h0
            exact hoc (hi0 (by omega)).symm)).1
          have hoq : chain ≠ some o := by
            intro e
            rw [hch] at e
            simp only [Option.some.injEq] at e
            subst e
            rw [hqac] at hfin; cases hfin
          rw [(hfields o hoc hoq).1]
          exact hfin
    · rw [hwo v hvw] at hv
      obtain ⟨a1, a2, a3, a4⟩ := hI.inFiber v o1 c1 i1 hv
      have hcc : c1 ≠ c := by
        intro e; subst e
        rw [hth] at a2
        simp only [Option.some.injEq] at a2
        exact hvw a2.symm
      have hcq : chain ≠ some c1 := by
        intro e
        have := (hchain2 c1 e).2.1
        rw [a1] at this; cases this
      rw [(hfields c1 hcc hcq).1, (hfields c1 hcc hcq).2, hG]
      refine ⟨a1, a2, a3, fun hi => ⟨?_, (a4 hi).2⟩⟩
      have hfin := (a4 hi).1
      have hoc : o1 ≠ c := by
        intro e; subst e
        rw [hrun] at hfin; cases hfin
      have hoq : chain ≠ some o1 := by
        intro e
        have := (hchain2 o1 e).2.1
        rw [hfin] at this; cases this
      rw [(hfields o1 hoc hoq).1]
      exact hfin
  · intro v o1 b1 hv
    by_cases hvw : v = w
    · subst hvw
      rw [hw1] at hv
      cases hch : chain with
      | some q => rw [hch] at hv; cases hv
      | none =>
        rw [hch] at hv
        simp only [Worker.afterFinish, Worker.returned.injEq] at hv
        obtain ⟨e1, e2⟩ := hv
        subst e1; subst e2
        left
        by_cases hoc : o = c
        · subst hoc; exact hcst
        · have hfin := (hipos (by
            by_contra h0
            exact hoc (hi0 (by omega)).symm)).1
          rw [(hfields o hoc (by rw [hch]; simp)).1]
          exact hfin
    · rw [hwo v hvw] at hv
      have hpre := hI.returned v o1 b1 hv
      have hoc : o1 ≠ c := by
        intro e; subst e
        rcases hpre with h1 | ⟨_, h1 | h1⟩ <;>
          · rw [hrun] at h1; cases h1
      have hoq : chain ≠ some o1 := by
        intro e
        have h0 := (hchain2 o1 e).2.2.1
        have := hI.guards_first (v := v) (o := o1) (by rw [hv]; rfl)
        omega
      rw [(hfields o1 hoc hoq).1]
      exact hpre

/-! ## How a fiber switches back -/

theorem WaitGroupAndYield_cases {cfg : Config} {st st1 : TaskScheduler} {w f g : Nat} {b : Bool}
    (h : WaitGroupAndYield cfg st w f g = some (st1, b)) :
    (st.fiberContext f).threadContext = some w ∧
    ((b = false ∧ st1 = st) ∨
     (b = true ∧ g ≠ (st.fiberContext f).currentGroup ∧ g < cfg.GROUP_COUNT ∧
      st1 = { st with
        fiberContext := setAt st.fiberContext f
          { st.fiberContext f with
            taskStatus := FiberTaskStatus.AWAITING_GROUP, threadContext := none }
        waitTaskQueues := setAt st.waitTaskQueues g (f :: st.waitTaskQueues g) })) := by
  unfold WaitGroupAndYield at h
  dsimp only at h
  split at h
  · cases h
  · rename_i t ht
    split at h
    · cases h
    · rename_i htw
      have htw' : t = w := by simpa using htw
      subst htw'
      refine ⟨ht, ?_⟩
      split at h
      · simp only [Option.some.injEq, Prod.mk.injEq] at h
        exact Or.inl ⟨h.2.symm, h.1.symm⟩
      · rename_i hg1
        split at h
        · simp only [Option.some.injEq, Prod.mk.injEq] at h
          exact Or.inl ⟨h.2.symm, h.1.symm⟩
        · rename_i hg2
          simp only [Option.some.injEq, Prod.mk.injEq] at h
          exact Or.inr ⟨h.2.symm, hg1, by simpa using hg2, h.1.symm⟩

theorem RunSubtasksAndYield_some {cfg : Config} {st st1 : TaskScheduler} {w f g : Nat}
    {bs : List TaskBucket} (h : RunSubtasksAndYield cfg st w f g bs = some st1) :
    (st.fiberContext f).threadContext = some w ∧
    ∃ s, RunTasksImpl cfg st g bs (some f) = some s ∧
      st1 = { s with
        fiberContext := setAt s.fiberContext f
          { s.fiberContext f with
            taskStatus := FiberTaskStatus.AWAITING_CHILD, threadContext := none } } := by
  unfold RunSubtasksAndYield at h
  split at h
  · cases h
  · rename_i t ht
    split at h
    · cases h
    · rename_i htw
      have htw' : t = w := by simpa using htw
      subst htw'
      split at h
      · cases h
      · split at h
        · cases h
        · rename_i s hs
          dsimp only at h
          split at h
          · cases h
          · split at h
            · cases h
            · simp only [Option.some.injEq] at h
              exact ⟨ht, s, hs, h.symm⟩

theorem FiberMain.finish_some {st st1 : TaskScheduler} {f : Nat}
    (h : FiberMain.finish st f = some st1) :
    st1 = { st with
      fiberContext := setAt st.fiberContext f
        { st.fiberContext f with taskStatus := FiberTaskStatus.FINISHED } } := by
  unfold FiberMain.finish at h
  dsimp only at h
  split at h
  · cases h
  · simp only [Option.some.injEq] at h
    exact h.symm

/-- The three ways a fiber switches back. -/
theorem FiberMain.run_cases {cfg : Config} {w f : Nat} :
    ∀ (calls : List TaskCall) {st st1 : TaskScheduler},
      FiberMain.run cfg w f st calls = some st1 →
      FiberMain.finish st f = some st1 ∨
      (∃ g, WaitGroupAndYield cfg st w f g = some (st1, true)) ∨
      (∃ g bs, TaskCall.RunSubtasksAndYield g bs ∈ calls ∧
        RunSubtasksAndYield cfg st w f g bs = some st1) := by
  intro calls
  induction calls with
  | nil =>
    intro st st1 h
    exact Or.inl h
  | cons call calls ih =>
    intro st st1 h
    cases call with
    | WaitGroupAndYield g =>
      simp only [FiberMain.run] at h
      cases hwg : WaitGroupAndYield cfg st w f g with
      | none => simp [hwg] at h
      | some r =>
        obtain ⟨s, b⟩ := r
        cases b with
        | true =>
          simp only [hwg, Option.some.injEq] at h
          subst h
          exact Or.inr (Or.inl ⟨g, hwg⟩)
        | false =>
          simp only [hwg] at h
          obtain ⟨_, hc⟩ := WaitGroupAndYield_cases hwg
          rcases hc with ⟨_, e⟩ | ⟨e, _⟩
          · subst e
            rcases ih h with h1 | h1 | ⟨g1, bs1, hm, h1⟩
            · exact Or.inl h1
            · exact Or.inr (Or.inl h1)
            · exact Or.inr (Or.inr ⟨g1, bs1, by simp [hm], h1⟩)
          · cases e
    | RunSubtasksAndYield g bs =>
      simp only [FiberMain.run] at h
      exact Or.inr (Or.inr ⟨g, bs, by simp, h⟩)

theorem System.Inv_Switch_wait {cfg : Config} {T : Prop} {S : System} {w o c i g : Nat}
    {st : TaskScheduler} (hI : System.Inv cfg T S) (hw : S.worker w = Worker.inFiber o c i)
    (h : WaitGroupAndYield cfg S.sched w c g = some (st, true)) :
    System.Inv cfg T { sched := st, worker := setAt S.worker w (Worker.returned o false) } := by
  obtain ⟨_, hc⟩ := WaitGroupAndYield_cases h
  rcases hc with ⟨e, _⟩ | ⟨_, _, _, hst⟩
  · cases e
  · obtain ⟨hrun, _, _, _⟩ := hI.inFiber w o c i hw
    have hlive0 : (S.sched.fiberContext c).live = true := by simp [FiberContext.live, hrun]
    apply System.Inv_yield (w := w) (o := o) (c := c) (i := i) (g := g) (n := 0) hI hw
    · simp [setAt]
    · intro v hv; simp [setAt, hv]
    · show st.threadsCount = _
      rw [hst]
    · intro sel _
      show unfinished cfg st sel = _
      simp only [ite_self, Nat.add_zero]
      apply unfinished_congr
      · rw [hst]
      · intro v; rw [hst]
      · intro j
        rw [hst]
        by_cases hj : j = c
        · subst hj
          simp [setAt, FiberContext.weight, FiberContext.live, hrun]
        · simp [setAt, hj]
    · intro j hj
      show st.fiberContext j = _
      rw [hst]; simp [setAt, hj]
    · left
      refine ⟨?_, rfl⟩
      show (st.fiberContext c).taskStatus = _
      rw [hst]; simp [setAt]
    · show (st.fiberContext c).childrenFibersCount = _
      rw [hst]; simp [setAt]
    · show st.availableFibers = _
      rw [hst]
    · intro g1
      show (st.groupStats g1).inProgressTaskCount = _
      rw [hst]; simp
    · show st.allGroupStats.inProgressTaskCount = _
      rw [hst]; simp
    · intro v _
      show (st.threadContext v).queue = _
      rw [hst]

theorem System.Inv_Switch_spawn {cfg : Config} {T : Prop} {S : System} {w o c i g : Nat}
    {bs : List TaskBucket} {st : TaskScheduler} (hI : System.Inv cfg T S)
    (hw : S.worker w = Worker.inFiber o c i)
    (hwf : (T → ∀ b ∈ bs, ∀ t ∈ b.tasks, t.group = g) ∧
      (bs.map TaskBucket.count).sum < 2 ^ 32)
    (h : RunSubtasksAndYield cfg S.sched w c g bs = some st) :
    System.Inv cfg T { sched := st, worker := setAt S.worker w (Worker.returned o false) } := by
  obtain ⟨_, s, hs, hst⟩ := RunSubtasksAndYield_some h
  obtain ⟨hg, hl, htc, hfib, hpool, _, _, hall, hgrp, hoth⟩ := RunTasksImpl_some hs
  have hun := @RunTasksImpl_unfinished cfg _ _ _ _ _ hs
  have hsum := sum_toUint32 bs hwf.2
  obtain ⟨hrun, _, _, _⟩ := hI.inFiber w o c i hw
  have hcast : toUint32 (RunTasksImpl.count bs) = ((bs.map TaskBucket.count).sum : Nat) := by
    rw [RunTasksImpl.count_eq]
    simp only [toUint32, Nat.mod_eq_of_lt hwf.2]
  have hsc : s.fiberContext c = { S.sched.fiberContext c with
      childrenFibersCount := (S.sched.fiberContext c).childrenFibersCount
        + ((bs.map TaskBucket.count).sum : Nat) } := by
    rw [hfib]
    simp [RunTasksImpl.addChildren, setAt, hcast]
  have hso : ∀ j, j ≠ c → s.fiberContext j = S.sched.fiberContext j := by
    intro j hj
    rw [hfib]
    simp [RunTasksImpl.addChildren, setAt, hj]
  apply System.Inv_yield (w := w) (o := o) (c := c) (i := i) (g := g)
    (n := (bs.map TaskBucket.count).sum) hI hw
  · simp [setAt]
  · intro v hv; simp [setAt, hv]
  · show st.threadsCount = _
    rw [hst]; exact htc
  · intro sel hsel
    show unfinished cfg st sel = _
    rw [← hun sel (by
      intro b hb t ht1
      rcases hsel with ht | hind
      · rw [hwf.1 ht b hb t ht1]
      · exact hind _ _ _)]
    apply unfinished_congr
    · rw [hst]
    · intro v; rw [hst]
    · intro j
      rw [hst]
      by_cases hj : j = c
      · subst hj
        simp [setAt, FiberContext.weight, FiberContext.live, hsc, hrun]
      · simp [setAt, hj]
  · intro j hj
    show st.fiberContext j = _
    rw [hst]; simp [setAt, hj, hso j hj]
  · right
    show (st.fiberContext c).taskStatus = _
    rw [hst]; simp [setAt]
  · show (st.fiberContext c).childrenFibersCount = _
    rw [hst]; simp [setAt, hsc]
  · show st.availableFibers = _
    rw [hst]; exact hpool
  · intro g1
    show (st.groupStats g1).inProgressTaskCount = _
    rw [hst]
    by_cases hg1 : g1 = g
    · subst hg1; simp [hgrp, hsum]
    · simp [hoth g1 hg1, hg1]
  · show st.allGroupStats.inProgressTaskCount = _
    rw [hst]; simp [hall, hsum]
  · intro v hv
    show (st.threadContext v).queue = _
    rw [hst]
    have := RunTasksImpl.loop_beyond bs hl v (by
      show (RunTasksImpl.addChildren S.sched (some c) _).threadsCount ≤ v
      exact hv)
    simp only
    rw [this]
    rfl

/-- What `ExecuteTask` changes when the fiber came back `FINISHED`. -/
theorem ExecuteTask.handle_finished_effect {cfg : Config} {s s' : TaskScheduler} {w c i : Nat}
    {nxt : ExecuteTask.Next}
    (hst : (s.fiberContext c).taskStatus = FiberTaskStatus.FINISHED)
    (h : ExecuteTask.handle cfg s w c i = some (s', nxt)) :
    s'.threadsCount = s.threadsCount ∧ s'.threadContext = s.threadContext ∧
    (∀ g1, (s'.groupStats g1).inProgressTaskCount = (s.groupStats g1).inProgressTaskCount
      - (if g1 = (s.fiberContext c).currentGroup then 1 else 0)) ∧
    s'.allGroupStats.inProgressTaskCount = s.allGroupStats.inProgressTaskCount - 1 ∧
    s'.availableFibers = (if 0 < i then c :: s.availableFibers else s.availableFibers) ∧
    (∀ j, (s'.fiberContext j).childrenFibersCount = (s.fiberContext j).childrenFibersCount
      - (if (s.fiberContext c).parentFiber = some j then 1 else 0)) ∧
    (∀ j, (s'.fiberContext j).taskStatus = (s.fiberContext j).taskStatus) ∧
    (∀ j, j ≠ c → (s'.fiberContext j).currentGroup = (s.fiberContext j).currentGroup ∧
      (s'.fiberContext j).parentFiber = (s.fiberContext j).parentFiber ∧
      (s'.fiberContext j).currentTask = (s.fiberContext j).currentTask) ∧
    (∀ j, j ≠ c → nxt ≠ ExecuteTask.Next.next j →
      (s'.fiberContext j).threadContext = (s.fiberContext j).threadContext) ∧
    (nxt = ExecuteTask.Next.ret true ∨
      ∃ q, nxt = ExecuteTask.Next.next q ∧ (s.fiberContext c).parentFiber = some q ∧
        (s.fiberContext q).childrenFibersCount - 1 = 0 ∧
        (s'.fiberContext q).threadContext = some w) := by
  obtain ⟨_, s1, s2, s3, h1, h2, h3, h4⟩ := ExecuteTask.handle_finished hst h
  obtain ⟨_, e1⟩ := ExecuteTask.updateGroup_some h1
  obtain ⟨_, e2⟩ := ExecuteTask.updateTotal_some h2
  obtain ⟨hc3, _, _, _⟩ := ExecuteTask.handle_finished_fibers h1 h2 h3
  -- the state before the parent step
  have k1 : s3.threadsCount = s.threadsCount ∧ s3.threadContext = s.threadContext ∧
      s3.groupStats = s1.groupStats ∧ s3.allGroupStats = s2.allGroupStats ∧
      s3.availableFibers = (if 0 < i then c :: s.availableFibers else s.availableFibers) ∧
      (∀ j, (s3.fiberContext j).taskStatus = (s.fiberContext j).taskStatus) ∧
      (∀ j, j ≠ c → s3.fiberContext j = s.fiberContext j) := by
    by_cases hi : i > 0
    · simp only [hi, if_true] at h3
      obtain ⟨_, e3⟩ := ReleaseFiberContext_some h3
      subst e3; subst e2; subst e1
      refine ⟨rfl, rfl, rfl, rfl, by simp [hi], ?_, ?_⟩
      · intro j
        by_cases hj : j = c
        · subst hj; simp [setAt]
        · simp [setAt, hj]
      · intro j hj; simp [setAt, hj]
    · simp only [hi, if_false, Option.some.injEq] at h3
      subst h3; subst e2; subst e1
      exact ⟨rfl, rfl, rfl, rfl, by simp [hi], fun _ => rfl, fun _ _ => rfl⟩
  obtain ⟨k11, k12, k13, k14, k15, k16, k17⟩ := k1
  have hgs : ∀ g1, (s1.groupStats g1).inProgressTaskCount = (s.groupStats g1).inProgressTaskCount
      - (if g1 = (s.fiberContext c).currentGroup then 1 else 0) := by
    intro g1
    subst e1
    by_cases hg1 : g1 = (s.fiberContext c).currentGroup
    · subst hg1; simp [setAt]
    · simp [setAt, hg1]
  have hall : s2.allGroupStats.inProgressTaskCount = s.allGroupStats.inProgressTaskCount - 1 := by
    subst e2; subst e1; rfl
  cases hp : (s.fiberContext c).parentFiber with
  | none =>
    rw [hp, ExecuteTask.parent_none] at h4
    simp only [Option.some.injEq, Prod.mk.injEq] at h4
    obtain ⟨e4, e5⟩ := h4
    subst e4; subst e5
    refine ⟨k11, k12, fun g1 => by rw [k13]; exact hgs g1, by rw [k14]; exact hall, k15,
      fun j => by rw [hc3 j]; simp, k16, ?_, ?_, Or.inl rfl⟩
    · intro j hj; rw [k17 j hj]; exact ⟨rfl, rfl, rfl⟩
    · intro j hj _; rw [k17 j hj]
  | some q =>
    rw [hp] at h4
    obtain ⟨_, hcase⟩ := ExecuteTask.parent_some h4
    rcases hcase with ⟨hz, _, e, es⟩ | ⟨_, e, es⟩
    · subst e; subst es
      refine ⟨k11, k12, fun g1 => by rw [← hgs g1, ← k13], by rw [← hall, ← k14], k15,
        ?_, ?_, ?_, ?_, Or.inr ⟨q, rfl, rfl, by rw [← hc3 q]; exact hz, by simp [setAt]⟩⟩
      · intro j
        by_cases hj : j = q
        · subst hj; simp [setAt, hc3]
        · have : ¬ q = j := fun e => hj e.symm
          simp [setAt, hj, this, hc3]
      · intro j
        by_cases hj : j = q
        · subst hj; simp [setAt, k16]
        · simp [setAt, hj, k16]
      · intro j hjc
        by_cases hj : j = q
        · subst hj; simp [setAt, k17 j hjc]
        · simp [setAt, hj, k17 j hjc]
      · intro j hjc hn
        have hj : j ≠ q := by
          intro e; subst e; exact hn rfl
        simp [setAt, hj, k17 j hjc]
    · subst e; subst es
      refine ⟨k11, k12, fun g1 => by rw [← hgs g1, ← k13], by rw [← hall, ← k14], k15,
        ?_, ?_, ?_, ?_, Or.inl rfl⟩
      · intro j
        by_cases hj : j = q
        · subst hj; simp [setAt, hc3]
        · have : ¬ q = j := fun e => hj e.symm
          simp [setAt, hj, this, hc3]
      · intro j
        by_cases hj : j = q
        · subst hj; simp [setAt, k16]
        · simp [setAt, hj, k16]
      · intro j hjc
        by_cases hj : j = q
        · subst hj; simp [setAt, k17 j hjc]
        · simp [setAt, hj, k17 j hjc]
      · intro j hjc _
        by_cases hj : j = q
        · subst hj; simp [setAt, k17 j hjc]
        · simp [setAt, hj, k17 j hjc]

theorem System.Inv.parent_ne_self {cfg : Config} {T : Prop} {S : System} (hI : System.Inv cfg T S) {c : Nat}
    (hrun : (S.sched.fiberContext c).taskStatus = FiberTaskStatus.RUNNED) :
    (S.sched.fiberContext c).parentFiber ≠ some c := by
  have hlive0 : (S.sched.fiberContext c).live = true := by simp [FiberContext.live, hrun]
  have hpz := hI.parked c (by rw [hrun]; simp)
  have := (unfinished_eq_zero hpz).2 c (hI.liveBound c hlive0) hlive0
  simpa using this

/-- The invariant after a fiber finished, in terms of the scheduler state `fs`
that `ExecuteTask` leaves: first without the release of the fiber, then with. -/
theorem System.Inv_finished {cfg : Config} {T : Prop} {S : System} {w o c i : Nat} {fs : TaskScheduler}
    (chain : Option Nat) (hI : System.Inv cfg T S) (hw : S.worker w = Worker.inFiber o c i)
    (htc : fs.threadsCount = S.sched.threadsCount)
    (hq : fs.threadContext = S.sched.threadContext)
    (hcst : (fs.fiberContext c).taskStatus = FiberTaskStatus.FINISHED)
    (hfields : ∀ j, j ≠ c → chain ≠ some j →
      (fs.fiberContext j).taskStatus = (S.sched.fiberContext j).taskStatus ∧
      (fs.fiberContext j).threadContext = (S.sched.fiberContext j).threadContext)
    (hkeys : ∀ j, j ≠ c →
      (fs.fiberContext j).currentGroup = (S.sched.fiberContext j).currentGroup ∧
      (fs.fiberContext j).parentFiber = (S.sched.fiberContext j).parentFiber)
    (hchain : ∀ q, chain = some q →
      (S.sched.fiberContext c).parentFiber = some q ∧
      (S.sched.fiberContext q).childrenFibersCount - 1 = 0 ∧
      (fs.fiberContext q).taskStatus = FiberTaskStatus.RUNNED ∧
      (fs.fiberContext q).threadContext = some w)
    (hcount : ∀ j, (fs.fiberContext j).childrenFibersCount
      = (S.sched.fiberContext j).childrenFibersCount
        - (if (S.sched.fiberContext c).parentFiber = some j then 1 else 0))
    (hpool : fs.availableFibers
      = (if 0 < i then c :: S.sched.availableFibers else S.sched.availableFibers))
    (hgrp : ∀ g1, (fs.groupStats g1).inProgressTaskCount
      = (S.sched.groupStats g1).inProgressTaskCount
        - (if g1 = (S.sched.fiberContext c).currentGroup then 1 else 0))
    (hall : fs.allGroupStats.inProgressTaskCount
      = S.sched.allGroupStats.inProgressTaskCount - 1) :
    System.Inv cfg T
      { sched := fs,
        worker := setAt S.worker w (Worker.afterFinish o i chain) } := by
  obtain ⟨hrun, _, _, hipos⟩ := hI.inFiber w o c i hw
  have hlive0 : (S.sched.fiberContext c).live = true := by simp [FiberContext.live, hrun]
  obtain ⟨T0, hT0w, hT0s⟩ : ∃ T0 : System,
      T0.worker = setAt S.worker w (Worker.afterFinish o i chain) ∧
      T0.sched = { fs with availableFibers := S.sched.availableFibers } := ⟨⟨_, _⟩, rfl, rfl⟩
  have hI0 : System.Inv cfg T T0 := by
    apply System.Inv_finish (w := w) (o := o) (c := c) (i := i) chain hI hw
    · rw [hT0w]; simp [setAt]
    · intro v hv; rw [hT0w]; simp [setAt, hv]
    · rw [hT0s]; exact htc
    · rw [hT0s]; exact hq
    · rw [hT0s]; exact hcst
    · intro j hj hcj; rw [hT0s]; exact hfields j hj hcj
    · intro j hj; rw [hT0s]; exact hkeys j hj
    · intro q hcq; rw [hT0s]; exact hchain q hcq
    · intro j; rw [hT0s]; exact hcount j
    · rw [hT0s]
    · intro g1; rw [hT0s]; exact hgrp g1
    · rw [hT0s]; exact hall
  by_cases hi : 0 < i
  · simp only [hi, if_true] at hpool
    have hfirst : ∀ v, (T0.worker v).first = (S.worker v).first := by
      intro v
      rw [hT0w]
      by_cases hv : v = w
      · subst hv
        simp only [setAt, if_true]
        rw [hw]
        cases chain <;> rfl
      · simp [setAt, hv]
    apply System.Inv_release (c := c) hI0 (hI.liveBound c hlive0)
    · rw [hT0s]; simp [FiberContext.live, hcst]
    · rw [guards_congr (by rw [hT0s]; exact htc) hfirst]
      exact (hipos hi).2
    · rw [hT0s]
      intro hmem
      have := (hI.pool c hmem).2.1
      rw [hlive0] at this; cases this
    · rw [hT0w]
    · rw [hT0s]
    · rw [hT0s]
    · intro j _; rw [hT0s]
    · rw [hT0s]
    · rw [hT0s]
    · rw [hT0s]; exact hpool
    · rw [hT0s]
    · rw [hT0s]
  · simp only [hi, if_false] at hpool
    have : T0 = (⟨fs, setAt S.worker w (Worker.afterFinish o i chain)⟩ : System) := by
      obtain ⟨a, b⟩ := T0
      simp only at hT0w hT0s
      subst hT0w
      rw [hT0s, ← hpool]
    rw [← this]
    exact hI0

theorem System.Inv_Switch {cfg : Config} {T : Prop} {S S1 : System} {w : Nat} {calls : List TaskCall}
    (hI : System.Inv cfg T S)
    (hwf : ∀ g bs, TaskCall.RunSubtasksAndYield g bs ∈ calls →
      (T → ∀ b ∈ bs, ∀ t ∈ b.tasks, t.group = g) ∧ (bs.map TaskBucket.count).sum < 2 ^ 32)
    (h : System.step cfg S (Step.Switch w calls) = some S1) : System.Inv cfg T S1 := by
  simp only [System.step] at h
  split at h
  · rename_i o c i hw
    cases hr : FiberMain.run cfg w c S.sched calls with
    | none => simp [hr] at h
    | some st =>
      simp only [hr] at h
      obtain ⟨hrun, _, _, _⟩ := hI.inFiber w o c i hw
      rcases FiberMain.run_cases calls hr with hfin | ⟨g, hwg⟩ | ⟨g, bs, hmem, hrs⟩
      · -- the task body returned
        have hst := FiberMain.finish_some hfin
        have hcfin : (st.fiberContext c).taskStatus = FiberTaskStatus.FINISHED := by
          rw [hst]; simp [setAt]
        have hso : ∀ j, j ≠ c → st.fiberContext j = S.sched.fiberContext j := by
          intro j hj; rw [hst]; simp [setAt, hj]
        have hsc : (st.fiberContext c).currentGroup = (S.sched.fiberContext c).currentGroup ∧
            (st.fiberContext c).parentFiber = (S.sched.fiberContext c).parentFiber ∧
            (st.fiberContext c).childrenFibersCount
              = (S.sched.fiberContext c).childrenFibersCount := by
          rw [hst]; simp [setAt]
        have hcnt : ∀ j, (st.fiberContext j).childrenFibersCount
            = (S.sched.fiberContext j).childrenFibersCount := by
          intro j
          by_cases hj : j = c
          · subst hj; exact hsc.2.2
          · rw [hso j hj]
        have hparne := hI.parent_ne_self hrun
        cases hh : ExecuteTask.handle cfg st w c i with
        | none => simp [hh] at h
        | some r =>
          obtain ⟨s', nxt⟩ := r
          obtain ⟨k1, k2, k3, k4, k5, k6, k7, k8, k9, k10⟩ :=
            ExecuteTask.handle_finished_effect hcfin hh
          rw [hsc.1] at k3
          rw [hsc.2.1] at k6 k10
          rcases k10 with e | ⟨q, e, hp, hz, hth⟩
          · subst e
            simp only [hh, Option.some.injEq] at h
            rw [← h]
            apply System.Inv_finished (w := w) (o := o) (c := c) (i := i) none hI hw
            · rw [k1, hst]
            · rw [k2, hst]
            · rw [k7]; exact hcfin
            · intro j hj _
              exact ⟨by rw [k7, hso j hj], by rw [k9 j hj (by simp), hso j hj]⟩
            · intro j hj
              exact ⟨by rw [(k8 j hj).1, hso j hj], by rw [(k8 j hj).2.1, hso j hj]⟩
            · intro q hq; cases hq
            · intro j; rw [k6, hcnt]
            · rw [k5, hst]
            · intro g1; rw [k3, hst]
            · rw [k4, hst]
          · subst e
            simp only [hh] at h
            cases he : ExecuteTask.enter cfg s' w q with
            | none => simp [he] at h
            | some sq =>
              simp only [he, Option.some.injEq] at h
              obtain ⟨_, _, hsq⟩ := ExecuteTask.enter_some he
              have hqc : q ≠ c := by
                intro e; subst e; exact hparne hp
              rw [← h]
              apply System.Inv_finished (w := w) (o := o) (c := c) (i := i) (some q) hI hw
              · rw [hsq, k1, hst]
              · rw [hsq, k2, hst]
              · rw [hsq]
                have : c ≠ q := fun e => hqc e.symm
                simp only [setAt, this, if_false]
                rw [k7]; exact hcfin
              · intro j hj hjq
                have hjq' : j ≠ q := by
                  intro e; subst e; exact hjq rfl
                rw [hsq]
                simp only [setAt, hjq', if_false]
                refine ⟨by rw [k7, hso j hj], ?_⟩
                rw [k9 j hj (by
                  intro e
                  simp only [ExecuteTask.Next.next.injEq] at e
                  exact hjq' e.symm), hso j hj]
              · intro j hj
                rw [hsq]
                by_cases hjq : j = q
                · subst hjq
                  simp only [setAt, if_true]
                  exact ⟨by rw [(k8 j hj).1, hso j hj], by rw [(k8 j hj).2.1, hso j hj]⟩
                · simp only [setAt, hjq, if_false]
                  exact ⟨by rw [(k8 j hj).1, hso j hj], by rw [(k8 j hj).2.1, hso j hj]⟩
              · intro q1 hq1
                simp only [Option.some.injEq] at hq1
                subst hq1
                refine ⟨hp, by rw [← hcnt]; exact hz, ?_, ?_⟩
                · rw [hsq]; simp [setAt]
                · rw [hsq]; simp [setAt]
              · intro j
                rw [hsq]
                by_cases hjq : j = q
                · subst hjq
                  simp only [setAt, if_true]
                  rw [k6, hcnt]
                · simp only [setAt, hjq, if_false]
                  rw [k6, hcnt]
              · rw [hsq, k5, hst]
              · intro g1; rw [hsq, k3, hst]
              · rw [hsq, k4, hst]
      · -- the fiber waits for a group
        have hag : (st.fiberContext c).taskStatus = FiberTaskStatus.AWAITING_GROUP := by
          obtain ⟨_, hc⟩ := WaitGroupAndYield_cases hwg
          rcases hc with ⟨e, _⟩ | ⟨_, _, _, e⟩
          · cases e
          · rw [e]; simp [setAt]
        rw [ExecuteTask.handle_awaiting (Or.inl hag)] at h
        simp only [Option.some.injEq] at h
        rw [← h]
        exact System.Inv_Switch_wait hI hw hwg
      · -- the fiber spawned sub-tasks
        have hac : (st.fiberContext c).taskStatus = FiberTaskStatus.AWAITING_CHILD := by
          obtain ⟨_, s, _, e⟩ := RunSubtasksAndYield_some hrs
          rw [e]; simp [setAt]
        rw [ExecuteTask.handle_awaiting (Or.inr hac)] at h
        simp only [Option.some.injEq] at h
        rw [← h]
        exact System.Inv_Switch_spawn hI hw (hwf _ _ hmem) hrs
  · cases h

/-- Every step whose calls of `RunTasksImpl` submit fewer than `2^32` tasks
keeps the invariant; the clause on the counters of the groups is kept when the
submitted tasks carry the group they are submitted to. -/
theorem System.Inv_step {cfg : Config} {T : Prop} {S S1 : System} {e : Step}
    (hI : System.Inv cfg T S)
    (hwf : ∀ g bs, e.submits g bs →
      (T → ∀ b ∈ bs, ∀ t ∈ b.tasks, t.group = g) ∧ (bs.map TaskBucket.count).sum < 2 ^ 32)
    (h : System.step cfg S e = some S1) : System.Inv cfg T S1 := by
  cases e with
  | RunTasks g bs =>
    simp only [System.step] at h
    cases hr : RunTasksImpl cfg S.sched g bs none with
    | none => simp [hr] at h
    | some st =>
      simp only [hr, Option.some.injEq] at h
      rw [← h]
      exact System.Inv_RunTasks hI (hwf g bs ⟨rfl, rfl⟩) hr
  | Start w => exact System.Inv_Start hI h
  | Switch w calls => exact System.Inv_Switch hI (fun g bs hm => hwf g bs hm) h
  | Continue w => exact System.Inv_Continue hI h
  | Unguard w => exact System.Inv_Unguard hI h

theorem Step.wellFormed_submits {e : Step} (h : e.wellFormed) {g : Nat} {bs : List TaskBucket}
    (hs : e.submits g bs) : wellFormedBuckets g bs := by
  cases e with
  | RunTasks g1 bs1 =>
    obtain ⟨e1, e2⟩ := hs
    subst e1
    subst e2
    exact h
  | Switch w calls => exact h _ hs
  | Start w => exact absurd hs (by simp [Step.submits])
  | Continue w => exact absurd hs (by simp [Step.submits])
  | Unguard w => exact absurd hs (by simp [Step.submits])

/-- Every step with well-formed submissions keeps the whole invariant. -/
theorem System.Inv_step_wellFormed {cfg : Config} {S S1 : System} {e : Step}
    (hI : System.Inv cfg True S) (hwf : e.wellFormed)
    (h : System.step cfg S e = some S1) : System.Inv cfg True S1 :=
  System.Inv_step hI
    (fun _ _ hsub => ⟨fun _ => (Step.wellFormed_submits hwf hsub).1,
      (Step.wellFormed_submits hwf hsub).2⟩) h

/-- The invariant holds in every reachable state. -/
theorem System.Reachable.inv {cfg : Config} {S : System} (h : System.Reachable cfg S) :
    System.Inv cfg True S := by
  obtain ⟨steps, hwf, hrun⟩ := h
  exact System.run_induction (P := System.Inv cfg True) (Q := Step.wellFormed)
    (fun S e S1 hI hq hs => System.Inv_step_wellFormed hI hq hs)
    steps _ _ (System.Inv_new cfg True) hwf hrun

/-- The invariant, without the clause on the counters of the groups, holds in
every state reached by steps whose calls of `RunTasksImpl` submit fewer than
`2^32` tasks, whatever group the submitted tasks carry. -/
theorem System.run_inv_bounded {cfg : Config} {steps : List Step} {S : System}
    (hb : ∀ e ∈ steps, e.bounded) (hrun : System.run cfg (System.new cfg) steps = some S) :
    System.Inv cfg False S :=
  System.run_induction (P := System.Inv cfg False) (Q := Step.bounded)
    (fun _ _ _ hI hq hs => System.Inv_step hI
      (fun g bs hsub => ⟨fun hf => hf.elim, hq g bs hsub⟩) hs)
    steps _ _ (System.Inv_new cfg False) hb hrun

/-! ## Counters and events of the groups -/

theorem sumInt_congr {f g : Nat → Int} {n : Nat} (h : ∀ i, i < n → f i = g i) :
    sumInt f n = sumInt g n := by
  induction n with
  | zero => rfl
  | succ n ih =>
    simp only [sumInt]
    rw [ih (fun i hi => h i (by omega)), h n (by omega)]

theorem sumInt_update {f g : Nat → Int} {n i : Nat} (hi : i < n)
    (h : ∀ j, j ≠ i → g j = f j) : sumInt g n = sumInt f n + (g i - f i) := by
  induction n with
  | zero => omega
  | succ n ih =>
    simp only [sumInt]
    by_cases hn : i = n
    · subst hn
      have : sumInt g i = sumInt f i := sumInt_congr (fun j hj => h j (by omega))
      omega
    · have := ih (by omega)
      have := h n (fun e => hn e.symm)
      omega

theorem sumInt_eq_zero {f : Nat → Int} {n : Nat} (hf : ∀ i, 0 ≤ f i) :
    sumInt f n = 0 ↔ ∀ i, i < n → f i = 0 := by
  induction n with
  | zero => simp [sumInt]
  | succ n ih =>
    simp only [sumInt]
    have hs : 0 ≤ sumInt f n := by
      clear ih
      induction n with
      | zero => simp [sumInt]
      | succ m ihm => simp only [sumInt]; have := hf m; omega
    constructor
    · intro h i hi
      have h1 : sumInt f n = 0 := by have := hf n; omega
      by_cases hn : i = n
      · subst hn; have := hf i; omega
      · exact (ih.1 h1) i (by omega)
    · intro h
      have h1 := ih.2 (fun i hi => h i (by omega))
      have := h n (by omega)
      omega

theorem toUint32_nonneg (n : Nat) : 0 ≤ toUint32 n := by
  unfold toUint32
  exact Int.ofNat_nonneg _

theorem toUint32_pos {n : Nat} (h0 : 0 < n) (h : n < 2 ^ 32) : 0 < toUint32 n := by
  simp only [toUint32, Nat.mod_eq_of_lt h]
  omega

theorem StatsInv_new (cfg : Config) : StatsInv cfg (TaskScheduler.new cfg) where
  sum := by
    have : ∀ n, sumInt (fun g => ((TaskScheduler.new cfg).groupStats g).inProgressTaskCount) n
        = 0 := by
      intro n
      induction n with
      | zero => rfl
      | succ n ih => simp only [sumInt, ih]; rfl
    rw [this]; rfl
  groupNonneg := by intro g; exact le_refl _
  totalNonneg := le_refl _
  groupEvent := by intro g _; rfl
  totalEvent := by intro _; rfl

theorem DoneInv_new (cfg : Config) : DoneInv (TaskScheduler.new cfg) where
  group := by intro g _; rfl
  total := by intro _; rfl

theorem StatsInv_dispatch {cfg : Config} {st st1 : TaskScheduler} {g : Nat} {p : Option Nat}
    {b : TaskBucket} (hI : StatsInv cfg st) (hg : g < cfg.GROUP_COUNT)
    (h : RunTasksImpl.dispatch st g p b = some st1) : StatsInv cfg st1 := by
  obtain ⟨_, _, hs⟩ := RunTasksImpl.dispatch_some h
  have hx := toUint32_nonneg b.count
  subst hs
  constructor
  · simp only
    rw [sumInt_update (f := fun g => (st.groupStats g).inProgressTaskCount) hg
      (fun j hj => by simp [setAt, hj])]
    simp only [setAt, if_true]
    rw [hI.sum]
    omega
  · intro g1
    by_cases hg1 : g1 = g
    · subst hg1
      simp only [setAt, if_true]
      have := hI.groupNonneg g1
      omega
    · simp only [setAt, hg1, if_false]
      exact hI.groupNonneg g1
  · simp only
    have := hI.totalNonneg
    omega
  · intro g1
    by_cases hg1 : g1 = g
    · subst hg1
      simp [setAt, Event.Reset]
    · simp only [setAt, hg1, if_false]
      exact hI.groupEvent g1
  · simp [Event.Reset]

theorem DoneInv_dispatch {cfg : Config} {st st1 : TaskScheduler} {g : Nat} {p : Option Nat}
    {b : TaskBucket} (hI : StatsInv cfg st) (hD : DoneInv st)
    (h0 : 0 < b.count) (h32 : b.count < 2 ^ 32)
    (h : RunTasksImpl.dispatch st g p b = some st1) :
    DoneInv st1 ∧ (st1.groupStats g).allDoneEvent.signaled = false ∧
      st1.allGroupStats.allDoneEvent.signaled = false ∧
      0 < (st1.groupStats g).inProgressTaskCount ∧
      0 < st1.allGroupStats.inProgressTaskCount := by
  obtain ⟨_, _, hs⟩ := RunTasksImpl.dispatch_some h
  have hx := toUint32_pos h0 h32
  have hgn := hI.groupNonneg g
  have htn := hI.totalNonneg
  subst hs
  refine ⟨⟨?_, ?_⟩, by simp [setAt, Event.Reset], by simp [Event.Reset], ?_, ?_⟩
  · intro g1
    by_cases hg1 : g1 = g
    · subst hg1
      simp only [setAt, if_true]
      intro h; omega
    · simp only [setAt, hg1, if_false]
      exact hD.group g1
  · simp only
    intro h; omega
  · simp only [setAt, if_true]; omega
  · simp only; omega

theorem StatsInv_loop {cfg : Config} {g : Nat} {p : Option Nat} (hg : g < cfg.GROUP_COUNT) :
    ∀ (bs : List TaskBucket) {st st1 : TaskScheduler}, StatsInv cfg st →
      RunTasksImpl.loop g p st bs = some st1 → StatsInv cfg st1 := by
  intro bs
  induction bs with
  | nil =>
    intro st st1 hI h
    simp only [RunTasksImpl.loop, Option.some.injEq] at h
    exact h ▸ hI
  | cons b bs ih =>
    intro st st1 hI h
    simp only [RunTasksImpl.loop] at h
    cases hd : RunTasksImpl.dispatch st g p b with
    | none => simp [hd] at h
    | some s =>
      simp only [hd] at h
      exact ih (StatsInv_dispatch hI hg hd) h

theorem DoneInv_loop {cfg : Config} {g : Nat} {p : Option Nat} (hg : g < cfg.GROUP_COUNT) :
    ∀ (bs : List TaskBucket) {st st1 : TaskScheduler}, StatsInv cfg st → DoneInv st →
      (∀ b ∈ bs, 0 < b.count ∧ b.count < 2 ^ 32) →
      RunTasksImpl.loop g p st bs = some st1 → DoneInv st1 := by
  intro bs
  induction bs with
  | nil =>
    intro st st1 _ hD _ h
    simp only [RunTasksImpl.loop, Option.some.injEq] at h
    exact h ▸ hD
  | cons b bs ih =>
    intro st st1 hI hD hne h
    simp only [RunTasksImpl.loop] at h
    cases hd : RunTasksImpl.dispatch st g p b with
    | none => simp [hd] at h
    | some s =>
      simp only [hd] at h
      have hb := hne b (by simp)
      exact ih (StatsInv_dispatch hI hg hd) (DoneInv_dispatch hI hD hb.1 hb.2 hd).1
        (fun b1 h1 => hne b1 (by simp [h1])) h

theorem StatsInv_congr {cfg : Config} {st st1 : TaskScheduler} (hI : StatsInv cfg st)
    (hg : st1.groupStats = st.groupStats) (ha : st1.allGroupStats = st.allGroupStats) :
    StatsInv cfg st1 := by
  constructor
  · rw [hg, ha]; exact hI.sum
  · rw [hg]; exact hI.groupNonneg
  · rw [ha]; exact hI.totalNonneg
  · rw [hg]; exact hI.groupEvent
  · rw [ha]; exact hI.totalEvent

theorem DoneInv_congr {st st1 : TaskScheduler} (hD : DoneInv st)
    (hg : st1.groupStats = st.groupStats) (ha : st1.allGroupStats = st.allGroupStats) :
    DoneInv st1 := by
  constructor
  · rw [hg]; exact hD.group
  · rw [ha]; exact hD.total

theorem StatsInv_complete {cfg : Config} {st s1 s2 : TaskScheduler} {gc : Nat}
    (hI : StatsInv cfg st) (hg : gc < cfg.GROUP_COUNT)
    (h1 : ExecuteTask.updateGroup st gc = some s1) (h2 : ExecuteTask.updateTotal s1 = some s2) :
    StatsInv cfg s2 := by
  obtain ⟨n1, e1⟩ := ExecuteTask.updateGroup_some h1
  obtain ⟨n2, e2⟩ := ExecuteTask.updateTotal_some h2
  subst e1
  simp only at n2 e2
  subst e2
  constructor
  · simp only
    rw [sumInt_update (f := fun g => (st.groupStats g).inProgressTaskCount) hg
      (fun j hj => by simp [setAt, hj])]
    simp only [setAt, if_true]
    rw [hI.sum]
    omega
  · intro g1
    by_cases hg1 : g1 = gc
    · subst hg1
      simp only [setAt, if_true]
      exact n1
    · simp only [setAt, hg1, if_false]
      exact hI.groupNonneg g1
  · exact n2
  · intro g1
    by_cases hg1 : g1 = gc
    · subst hg1
      simp only [setAt, if_true]
      by_cases hz : (st.groupStats g1).inProgressTaskCount - 1 = 0
      · intro _; exact hz
      · simp only [hz, if_false]
        intro hs
        have := hI.groupEvent g1 hs
        omega
    · simp only [setAt, hg1, if_false]
      exact hI.groupEvent g1
  · simp only
    by_cases hz : st.allGroupStats.inProgressTaskCount - 1 = 0
    · intro _; exact hz
    · simp only [hz, if_false]
      intro hs
      have := hI.totalEvent hs
      omega

theorem DoneInv_complete {st s1 s2 : TaskScheduler} {gc : Nat} (hD : DoneInv st)
    (h1 : ExecuteTask.updateGroup st gc = some s1) (h2 : ExecuteTask.updateTotal s1 = some s2) :
    DoneInv s2 := by
  obtain ⟨n1, e1⟩ := ExecuteTask.updateGroup_some h1
  obtain ⟨n2, e2⟩ := ExecuteTask.updateTotal_some h2
  subst e1
  simp only at n2 e2
  subst e2
  constructor
  · intro g1
    by_cases hg1 : g1 = gc
    · subst hg1
      simp only [setAt, if_true]
      intro hz
      simp [hz, Event.Signal]
    · simp only [setAt, hg1, if_false]
      exact hD.group g1
  · simp only
    intro hz
    simp [hz, Event.Signal]

theorem ExecuteTask.handle_stats {cfg : Config} {s s' : TaskScheduler} {w c i : Nat}
    {nxt : ExecuteTask.Next} (h : ExecuteTask.handle cfg s w c i = some (s', nxt)) :
    (s'.groupStats = s.groupStats ∧ s'.allGroupStats = s.allGroupStats) ∨
    (∃ gc s1 s2, gc < cfg.GROUP_COUNT ∧ ExecuteTask.updateGroup s gc = some s1 ∧
      ExecuteTask.updateTotal s1 = some s2 ∧
      s'.groupStats = s2.groupStats ∧ s'.allGroupStats = s2.allGroupStats) := by
  rcases ExecuteTask.handle_status h with hst | hst | hst
  · right
    obtain ⟨hg, s1, s2, s3, h1, h2, h3, h4⟩ := ExecuteTask.handle_finished hst h
    have k : s3.groupStats = s2.groupStats ∧ s3.allGroupStats = s2.allGroupStats := by
      by_cases hi : i > 0
      · simp only [hi, if_true] at h3
        obtain ⟨_, e3⟩ := ReleaseFiberContext_some h3
        subst e3
        exact ⟨rfl, rfl⟩
      · simp only [hi, if_false, Option.some.injEq] at h3
        subst h3
        exact ⟨rfl, rfl⟩
    refine ⟨_, s1, s2, hg, h1, h2, ?_⟩
    cases hp : (s.fiberContext c).parentFiber with
    | none =>
      rw [hp, ExecuteTask.parent_none] at h4
      simp only [Option.some.injEq, Prod.mk.injEq] at h4
      rw [← h4.1]
      exact k
    | some q =>
      rw [hp] at h4
      obtain ⟨_, hcase⟩ := ExecuteTask.parent_some h4
      rcases hcase with ⟨_, _, _, es⟩ | ⟨_, _, es⟩ <;>
        · subst es
          exact k
  · left
    rw [ExecuteTask.handle_awaiting (Or.inl hst)] at h
    simp only [Option.some.injEq, Prod.mk.injEq] at h
    rw [← h.1]
    exact ⟨rfl, rfl⟩
  · left
    rw [ExecuteTask.handle_awaiting (Or.inr hst)] at h
    simp only [Option.some.injEq, Prod.mk.injEq] at h
    rw [← h.1]
    exact ⟨rfl, rfl⟩

/-- What a step does to the counters and events of the groups: nothing, one
`RunTasksImpl` call, or the completion of one task. -/
theorem System.step_stats {cfg : Config} {S S1 : System} {e : Step}
    (h : System.step cfg S e = some S1) :
    (S1.sched.groupStats = S.sched.groupStats ∧
      S1.sched.allGroupStats = S.sched.allGroupStats) ∨
    (∃ g bs p st1, e.submits g bs ∧ RunTasksImpl cfg S.sched g bs p = some st1 ∧
      S1.sched.groupStats = st1.groupStats ∧ S1.sched.allGroupStats = st1.allGroupStats) ∨
    (∃ gc s0 s1 s2, gc < cfg.GROUP_COUNT ∧ s0.groupStats = S.sched.groupStats ∧
      s0.allGroupStats = S.sched.allGroupStats ∧
      ExecuteTask.updateGroup s0 gc = some s1 ∧ ExecuteTask.updateTotal s1 = some s2 ∧
      S1.sched.groupStats = s2.groupStats ∧ S1.sched.allGroupStats = s2.allGroupStats) := by
  cases e with
  | RunTasks g bs =>
    simp only [System.step] at h
    cases hr : RunTasksImpl cfg S.sched g bs none with
    | none => simp [hr] at h
    | some st =>
      simp only [hr, Option.some.injEq] at h
      exact Or.inr (Or.inl ⟨g, bs, none, st, ⟨rfl, rfl⟩, hr, by rw [← h], by rw [← h]⟩)
  | Start w =>
    obtain ⟨_, _, f, task, rest, pool, _, _, _, hS⟩ := System.step_Start h
    exact Or.inl ⟨by rw [hS], by rw [hS]⟩
  | Switch w calls =>
    simp only [System.step] at h
    split at h
    · rename_i o c i hw
      cases hr : FiberMain.run cfg w c S.sched calls with
      | none => simp [hr] at h
      | some st =>
        simp only [hr] at h
        cases hh : ExecuteTask.handle cfg st w c i with
        | none => simp [hh] at h
        | some r =>
          obtain ⟨s', nxt⟩ := r
          have hS1 : S1.sched.groupStats = s'.groupStats ∧
              S1.sched.allGroupStats = s'.allGroupStats := by
            cases nxt with
            | ret b =>
              simp only [hh, Option.some.injEq] at h
              rw [← h]; exact ⟨rfl, rfl⟩
            | next q =>
              simp only [hh] at h
              cases he : ExecuteTask.enter cfg s' w q with
              | none => simp [he] at h
              | some sq =>
                simp only [he, Option.some.injEq] at h
                obtain ⟨_, _, hsq⟩ := ExecuteTask.enter_some he
                rw [← h, hsq]; exact ⟨rfl, rfl⟩
          rcases FiberMain.run_cases calls hr with hfin | ⟨g, hwg⟩ | ⟨g, bs, hmem, hrs⟩
          · have hst := FiberMain.finish_some hfin
            rcases ExecuteTask.handle_stats hh with ⟨a, b⟩ | ⟨gc, s1, s2, hg, h1, h2, a, b⟩
            · left
              rw [hS1.1, hS1.2, a, b, hst]
              exact ⟨rfl, rfl⟩
            · right; right
              exact ⟨gc, st, s1, s2, hg, by rw [hst], by rw [hst], h1, h2,
                by rw [hS1.1, a], by rw [hS1.2, b]⟩
          · left
            obtain ⟨_, hc⟩ := WaitGroupAndYield_cases hwg
            rcases hc with ⟨e, _⟩ | ⟨_, _, _, hst⟩
            · cases e
            · have hag : (st.fiberContext c).taskStatus = FiberTaskStatus.AWAITING_GROUP := by
                rw [hst]; simp [setAt]
              rw [ExecuteTask.handle_awaiting (Or.inl hag)] at hh
              simp only [Option.some.injEq, Prod.mk.injEq] at hh
              rw [hS1.1, hS1.2, ← hh.1, hst]
              exact ⟨rfl, rfl⟩
          · right; left
            obtain ⟨_, s, hs, hst⟩ := RunSubtasksAndYield_some hrs
            have hac : (st.fiberContext c).taskStatus = FiberTaskStatus.AWAITING_CHILD := by
              rw [hst]; simp [setAt]
            rw [ExecuteTask.handle_awaiting (Or.inr hac)] at hh
            simp only [Option.some.injEq, Prod.mk.injEq] at hh
            refine ⟨g, bs, some c, s, hmem, hs, ?_, ?_⟩
            · rw [hS1.1, ← hh.1, hst]
            · rw [hS1.2, ← hh.1, hst]
    · cases h
  | Continue w =>
    left
    simp only [System.step] at h
    split at h
    · rename_i o b hret
      cases ha : ThreadMain.afterExecute cfg S.sched o b with
      | none => simp [ha] at h
      | some r =>
        obtain ⟨st, nxt⟩ := r
        rcases ThreadMain.afterExecute_cases ha with ⟨e, _, _, hst⟩ | ⟨e, hst, _⟩ |
          ⟨e, hst, _, _, _⟩
        · subst e
          simp only [ha, Option.some.injEq] at h
          rw [← h, hst]; exact ⟨rfl, rfl⟩
        · subst e
          simp only [ha, Option.some.injEq] at h
          rw [← h, hst]; exact ⟨rfl, rfl⟩
        · subst e
          simp only [ha] at h
          cases he : ExecuteTask.enter cfg st w o with
          | none => simp [he] at h
          | some sq =>
            simp only [he, Option.some.injEq] at h
            obtain ⟨_, _, hsq⟩ := ExecuteTask.enter_some he
            rw [← h, hsq, hst]; exact ⟨rfl, rfl⟩
    · cases h
  | Unguard w =>
    left
    obtain ⟨o, _, _, _, hS⟩ := System.step_Unguard h
    rw [hS]; exact ⟨rfl, rfl⟩

theorem StatsInv_RunTasksImpl {cfg : Config} {st st1 : TaskScheduler} {g : Nat}
    {bs : List TaskBucket} {p : Option Nat} (hI : StatsInv cfg st)
    (h : RunTasksImpl cfg st g bs p = some st1) : StatsInv cfg st1 := by
  obtain ⟨hg, hl, _⟩ := RunTasksImpl_some h
  refine StatsInv_loop hg bs (StatsInv_congr hI ?_ ?_) hl
  · cases p <;> rfl
  · cases p <;> rfl

theorem DoneInv_RunTasksImpl {cfg : Config} {st st1 : TaskScheduler} {g : Nat}
    {bs : List TaskBucket} {p : Option Nat} (hI : StatsInv cfg st) (hD : DoneInv st)
    (hne : ∀ b ∈ bs, 0 < b.count ∧ b.count < 2 ^ 32)
    (h : RunTasksImpl cfg st g bs p = some st1) : DoneInv st1 := by
  obtain ⟨hg, hl, _⟩ := RunTasksImpl_some h
  refine DoneInv_loop hg bs (StatsInv_congr hI ?_ ?_) (DoneInv_congr hD ?_ ?_) hne hl
  · cases p <;> rfl
  · cases p <;> rfl
  · cases p <;> rfl
  · cases p <;> rfl

theorem System.StatsInv_step {cfg : Config} {S S1 : System} {e : Step}
    (hI : StatsInv cfg S.sched) (h : System.step cfg S e = some S1) :
    StatsInv cfg S1.sched := by
  rcases System.step_stats h with ⟨a, b⟩ | ⟨g, bs, p, st1, _, hr, a, b⟩ |
    ⟨gc, s0, s1, s2, hg, a0, b0, h1, h2, a, b⟩
  · exact StatsInv_congr hI a b
  · exact StatsInv_congr (StatsInv_RunTasksImpl hI hr) a b
  · exact StatsInv_congr (StatsInv_complete (StatsInv_congr hI a0 b0) hg h1 h2) a b

theorem System.DoneInv_step {cfg : Config} {S S1 : System} {e : Step}
    (hI : StatsInv cfg S.sched) (hD : DoneInv S.sched) (hne : e.nonEmptyBuckets)
    (h : System.step cfg S e = some S1) : DoneInv S1.sched := by
  rcases System.step_stats h with ⟨a, b⟩ | ⟨g, bs, p, st1, hsub, hr, a, b⟩ |
    ⟨gc, s0, s1, s2, hg, a0, b0, h1, h2, a, b⟩
  · exact DoneInv_congr hD a b
  · exact DoneInv_congr (DoneInv_RunTasksImpl hI hD (hne g bs hsub) hr) a b
  · exact DoneInv_congr (DoneInv_complete (DoneInv_congr hD a0 b0) h1 h2) a b

theorem System.StatsInv_run {cfg : Config} {steps : List Step} {S : System}
    (h : System.run cfg (System.new cfg) steps = some S) : StatsInv cfg S.sched :=
  System.run_induction (P := fun S => StatsInv cfg S.sched) (Q := fun _ => True)
    (fun _ _ _ hI _ hs => System.StatsInv_step hI hs) steps _ _ (StatsInv_new cfg)
    (fun _ _ => trivial) h

theorem System.DoneInv_run {cfg : Config} {steps : List Step} {S : System}
    (hne : ∀ e ∈ steps, e.nonEmptyBuckets)
    (h : System.run cfg (System.new cfg) steps = some S) : DoneInv S.sched :=
  (System.run_induction (P := fun S => StatsInv cfg S.sched ∧ DoneInv S.sched)
    (Q := Step.nonEmptyBuckets)
    (fun _ _ _ hI hq hs => ⟨System.StatsInv_step hI.1 hs, System.DoneInv_step hI.1 hI.2 hq hs⟩)
    steps _ _ ⟨StatsInv_new cfg, DoneInv_new cfg⟩ hne h).2

/-! ## Claims about the counters and events of the groups -/

/-- C10: in every state the scheduler reaches from its constructor, the counter
of all groups equals the sum of the counters of the groups and no counter is
negative, so the counter of all groups is 0 exactly when every group counter
is 0.  Every `RunTasksImpl` call that returns raises the counter of its group
and the counter of all groups by the same amount and leaves the other group
counters alone; the handling of a `FINISHED` task lowers the counter of the
task's group and the counter of all groups by exactly one. -/
theorem counters_sum (cfg : Config) (steps : List Step) (S : System)
    (h : System.run cfg (System.new cfg) steps = some S) :
    S.sched.allGroupStats.inProgressTaskCount
      = sumInt (fun g => (S.sched.groupStats g).inProgressTaskCount) cfg.GROUP_COUNT ∧
    (∀ g, 0 ≤ (S.sched.groupStats g).inProgressTaskCount) ∧
    (S.sched.allGroupStats.inProgressTaskCount = 0 ↔
      ∀ g, g < cfg.GROUP_COUNT → (S.sched.groupStats g).inProgressTaskCount = 0) ∧
    (∀ g bs p st1, RunTasksImpl cfg S.sched g bs p = some st1 →
      st1.allGroupStats.inProgressTaskCount - S.sched.allGroupStats.inProgressTaskCount
        = (st1.groupStats g).inProgressTaskCount - (S.sched.groupStats g).inProgressTaskCount ∧
      (∀ g1, g1 ≠ g → (st1.groupStats g1).inProgressTaskCount
        = (S.sched.groupStats g1).inProgressTaskCount) ∧
      st1.allGroupStats.inProgressTaskCount
        = sumInt (fun g => (st1.groupStats g).inProgressTaskCount) cfg.GROUP_COUNT) ∧
    (∀ gc s1 s2, gc < cfg.GROUP_COUNT → ExecuteTask.updateGroup S.sched gc = some s1 →
      ExecuteTask.updateTotal s1 = some s2 →
      (s2.groupStats gc).inProgressTaskCount = (S.sched.groupStats gc).inProgressTaskCount - 1 ∧
      s2.allGroupStats.inProgressTaskCount = S.sched.allGroupStats.inProgressTaskCount - 1 ∧
      (∀ g1, g1 ≠ gc → (s2.groupStats g1).inProgressTaskCount
        = (S.sched.groupStats g1).inProgressTaskCount) ∧
      s2.allGroupStats.inProgressTaskCount
        = sumInt (fun g => (s2.groupStats g).inProgressTaskCount) cfg.GROUP_COUNT) := by
  have hI := System.StatsInv_run h
  refine ⟨hI.sum, hI.groupNonneg, ?_, ?_, ?_⟩
  · rw [hI.sum]
    exact sumInt_eq_zero hI.groupNonneg
  · intro g bs p st1 hr
    obtain ⟨_, _, _, _, _, _, _, hall, hgrp, hoth⟩ := RunTasksImpl_some hr
    refine ⟨by rw [hall, hgrp]; omega, fun g1 hg1 => by rw [hoth g1 hg1],
      (StatsInv_RunTasksImpl hI hr).sum⟩
  · intro gc s1 s2 hg h1 h2
    have hI2 := StatsInv_complete hI hg h1 h2
    obtain ⟨_, e1⟩ := ExecuteTask.updateGroup_some h1
    obtain ⟨_, e2⟩ := ExecuteTask.updateTotal_some h2
    refine ⟨?_, ?_, ?_, hI2.sum⟩
    · rw [e2, e1]; simp [setAt]
    · rw [e2, e1]
    · intro g1 hg1
      rw [e2, e1]; simp [setAt, hg1]

/-- C10 at a concrete run: one task submitted to group 0 and one to group 1,
the first of them started and finished. -/
theorem counters_sum_witness :
    ∃ S, System.run exampleConfig (System.new exampleConfig)
        [Step.RunTasks 0 [⟨[exampleTask 0]⟩], Step.RunTasks 1 [⟨[exampleTask 1]⟩],
         Step.Start 1, Step.Switch 1 []] = some S ∧
      S.sched.allGroupStats.inProgressTaskCount = 1 ∧
      S.sched.allGroupStats.inProgressTaskCount
        = sumInt (fun g => (S.sched.groupStats g).inProgressTaskCount)
            exampleConfig.GROUP_COUNT := by
  have hval : (System.run exampleConfig (System.new exampleConfig)
        [Step.RunTasks 0 [⟨[exampleTask 0]⟩], Step.RunTasks 1 [⟨[exampleTask 1]⟩],
         Step.Start 1, Step.Switch 1 []]).map
      (fun S => S.sched.allGroupStats.inProgressTaskCount) = some 1 := by decide
  cases hrun : System.run exampleConfig (System.new exampleConfig)
        [Step.RunTasks 0 [⟨[exampleTask 0]⟩], Step.RunTasks 1 [⟨[exampleTask 1]⟩],
         Step.Start 1, Step.Switch 1 []] with
  | none => rw [hrun] at hval; cases hval
  | some S =>
    rw [hrun] at hval
    simp only [Option.map_some', Option.some.injEq] at hval
    exact ⟨S, rfl, hval, (counters_sum exampleConfig _ S hrun).1⟩

/-- C7, as stated, fails on the code.  The events are created signaled, so on a
fresh scheduler the event of group 0 is signaled although nothing was ever
submitted.  And a bucket without tasks resets the events and adds nothing: after
one task was submitted to group 0 (counter 1), started and finished (counter 0,
event signaled), submitting an empty bucket leaves the counter of the group and
the counter of all groups at 0 with both events reset; already on a fresh
scheduler the reset for an empty bucket is followed by a counter of 0. -/
theorem allDone_counterexample :
    ((System.new exampleConfig).sched.groupStats 0).allDoneEvent.signaled = true ∧
    ((System.new exampleConfig).sched.groupStats 0).inProgressTaskCount = 0 ∧
    (System.run exampleConfig (System.new exampleConfig)
        [Step.RunTasks 0 [⟨[exampleTask 0]⟩]]).map
      (fun S => (S.sched.groupStats 0).inProgressTaskCount) = some 1 ∧
    (System.run exampleConfig (System.new exampleConfig)
        [Step.RunTasks 0 [⟨[exampleTask 0]⟩], Step.Start 1, Step.Switch 1 []]).map
      (fun S => ((S.sched.groupStats 0).inProgressTaskCount,
        (S.sched.groupStats 0).allDoneEvent.signaled)) = some (0, true) ∧
    (System.run exampleConfig (System.new exampleConfig)
        [Step.RunTasks 0 [⟨[exampleTask 0]⟩], Step.Start 1, Step.Switch 1 [],
         Step.RunTasks 0 [⟨[]⟩]]).map
      (fun S => ((S.sched.groupStats 0).inProgressTaskCount,
        (S.sched.groupStats 0).allDoneEvent.signaled,
        S.sched.allGroupStats.inProgressTaskCount,
        S.sched.allGroupStats.allDoneEvent.signaled)) = some (0, false, 0, false) ∧
    (RunTasksImpl.dispatch (System.new exampleConfig).sched 0 none ⟨[]⟩).map
      (fun st => ((st.groupStats 0).allDoneEvent.signaled,
        (st.groupStats 0).inProgressTaskCount)) = some (false, 0) := by
  decide

/-- C7 (amended): in every state reached from the constructor by steps whose
submitted buckets each hold at least one task (and fewer than `2^32`), for
every group and for the statistics of all groups, `allDoneEvent` is signaled
if and only if `inProgressTaskCount` is 0; and in such a state the round of
the bucket loop of `RunTasksImpl` for a bucket with at least one task leaves
both events reset and both counters strictly positive. -/
theorem allDone_iff_zero (cfg : Config) (steps : List Step) (S : System)
    (hne : ∀ e ∈ steps, e.nonEmptyBuckets)
    (h : System.run cfg (System.new cfg) steps = some S) :
    (∀ g, (S.sched.groupStats g).allDoneEvent.signaled = true ↔
      (S.sched.groupStats g).inProgressTaskCount = 0) ∧
    (S.sched.allGroupStats.allDoneEvent.signaled = true ↔
      S.sched.allGroupStats.inProgressTaskCount = 0) ∧
    (∀ g p b st1, 0 < b.count → b.count < 2 ^ 32 →
      RunTasksImpl.dispatch S.sched g p b = some st1 →
      (st1.groupStats g).allDoneEvent.signaled = false ∧
      st1.allGroupStats.allDoneEvent.signaled = false ∧
      0 < (st1.groupStats g).inProgressTaskCount ∧
      0 < st1.allGroupStats.inProgressTaskCount) := by
  have hI := System.StatsInv_run h
  have hD := System.DoneInv_run hne h
  refine ⟨fun g => ⟨hI.groupEvent g, hD.group g⟩, ⟨hI.totalEvent, hD.total⟩, ?_⟩
  intro g p b st1 h0 h32 hd
  exact (DoneInv_dispatch hI hD h0 h32 hd).2

/-- C7 (amended) at a concrete run: one task submitted to group 0, started and
finished; the event of group 0 is signaled and its counter is 0. -/
theorem allDone_iff_zero_witness :
    ∃ S, System.run exampleConfig (System.new exampleConfig)
        [Step.RunTasks 0 [⟨[exampleTask 0]⟩], Step.Start 1, Step.Switch 1 []] = some S ∧
      (S.sched.groupStats 0).inProgressTaskCount = 0 ∧
      (S.sched.groupStats 0).allDoneEvent.signaled = true := by
  have hval : (System.run exampleConfig (System.new exampleConfig)
        [Step.RunTasks 0 [⟨[exampleTask 0]⟩], Step.Start 1, Step.Switch 1 []]).map
      (fun S => (S.sched.groupStats 0).inProgressTaskCount) = some 0 := by decide
  cases hrun : System.run exampleConfig (System.new exampleConfig)
        [Step.RunTasks 0 [⟨[exampleTask 0]⟩], Step.Start 1, Step.Switch 1 []] with
  | none => rw [hrun] at hval; cases hval
  | some S =>
    rw [hrun] at hval
    simp only [Option.map_some', Option.some.injEq] at hval
    have hne : ∀ e ∈ [Step.RunTasks 0 [⟨[exampleTask 0]⟩], Step.Start 1, Step.Switch 1 []],
        e.nonEmptyBuckets := by
      intro e he g bs hs b hb
      simp only [List.mem_cons, List.mem_singleton, List.not_mem_nil, or_false] at he
      rcases he with e1 | e1 | e1
      · subst e1
        obtain ⟨_, e2⟩ := hs
        subst e2
        simp only [List.mem_singleton] at hb
        subst hb
        decide
      · subst e1; exact absurd hs (by simp [Step.submits])
      · subst e1; simp [Step.submits] at hs
    exact ⟨S, rfl, hval, ((allDone_iff_zero exampleConfig _ S hne hrun).1 0).2 hval⟩

/-! ## Claims about reachable states -/

theorem System.Reachable.stats {cfg : Config} {S : System} (h : System.Reachable cfg S) :
    StatsInv cfg S.sched := by
  obtain ⟨steps, _, hrun⟩ := h
  exact System.StatsInv_run hrun

theorem System.Inv.drained {cfg : Config} {T : Prop} {S : System} (hI : System.Inv cfg T S)
    {sel : Nat → Option Nat → Bool} (h : unfinished cfg S.sched sel = 0) :
    (∀ w, ∀ t ∈ (S.sched.threadContext w).queue, sel t.group t.parentFiber = false) ∧
    (∀ f, (S.sched.fiberContext f).live = true →
      sel (S.sched.fiberContext f).currentGroup (S.sched.fiberContext f).parentFiber = false) := by
  obtain ⟨h1, h2⟩ := unfinished_eq_zero h
  constructor
  · intro w t ht
    by_cases hw : w < S.sched.threadsCount
    · exact h1 w hw t ht
    · have := (hI.beyond w (by omega)).2
      rw [this] at ht
      cases ht
  · intro f hf
    exact h2 f (hI.liveBound f hf) hf

/-- The steps of the concrete run used below are well formed. -/
theorem exampleRun_wellFormed :
    ∀ e ∈ [Step.RunTasks 0 [⟨[exampleTask 0]⟩], Step.Start 1, Step.Switch 1 []],
      e.wellFormed := by
  intro e he
  simp only [List.mem_cons, List.mem_singleton, List.not_mem_nil, or_false] at he
  rcases he with e1 | e1 | e1
  · subst e1
    refine ⟨?_, by decide⟩
    intro b hb t ht
    simp only [List.mem_singleton] at hb
    subst hb
    simp only [List.mem_singleton] at ht
    subst ht
    rfl
  · subst e1; trivial
  · subst e1
    intro c hc
    cases hc

/-- C1, as stated, fails on the code: `RunTasksImpl` neither checks nor stamps
the group a task carries, and `ExecuteTask` lowers the counter of the group the
finished task carries.  One task is submitted to group 1 (it goes to worker 1
and stays in its FIFO) and one task that carries group 1 is submitted to
group 0; when worker 0 has run and released the latter, the counter of group 1
is 0 and its event is signaled, so `WaitGroup(1)` returns `true` while the task
submitted to group 1 is still waiting in the FIFO of worker 1. -/
theorem WaitGroup_true_with_queued_task :
    (System.run exampleConfig (System.new exampleConfig)
        [Step.RunTasks 1 [⟨[exampleTask 1]⟩], Step.RunTasks 0 [⟨[exampleTask 1]⟩],
         Step.Start 0, Step.Switch 0 [], Step.Continue 0]).map
      (fun S => (WaitGroup S.sched false 1, (S.sched.groupStats 1).inProgressTaskCount,
        (S.sched.groupStats 1).allDoneEvent.signaled, (S.sched.threadContext 1).queue))
      = some (true, 0, true, [exampleTask 1]) ∧
    (System.run exampleConfig (System.new exampleConfig)
        [Step.RunTasks 1 [⟨[exampleTask 1]⟩], Step.RunTasks 0 [⟨[exampleTask 1]⟩],
         Step.Start 0, Step.Switch 0 [], Step.Continue 0]).map
      (fun S => (S.worker 0, S.worker 1, (S.sched.threadContext 0).queue,
        S.sched.availableFibers))
      = some (Worker.idle, Worker.idle, [], [3, 2, 1, 0]) := by
  decide

/-- C1 (amended): in every state the scheduler reaches from its constructor by
atomic steps, whatever is submitted, for every group a signaled `allDoneEvent`
goes with `inProgressTaskCount = 0`, and likewise for the statistics of all
groups.  When every call of `RunTasksImpl` submits fewer than `2^32` tasks,
`WaitAll` returns `true` only when the counter of all groups is 0, every FIFO
is empty and no fiber holds an unfinished task.  When in addition every
submitted task carries the group it is submitted to, `WaitGroup(g)` returns
`true` only when the counter of `g` is 0, no FIFO holds a task of group `g` and
no fiber holds a started, unfinished task of group `g`. -/
theorem allDone_only_when_drained (cfg : Config) (steps : List Step) (S : System)
    (hrun : System.run cfg (System.new cfg) steps = some S) :
    (∀ g, (S.sched.groupStats g).allDoneEvent.signaled = true →
      (S.sched.groupStats g).inProgressTaskCount = 0) ∧
    (S.sched.allGroupStats.allDoneEvent.signaled = true →
      S.sched.allGroupStats.inProgressTaskCount = 0) ∧
    ((∀ e ∈ steps, e.bounded) →
      ∀ isWorkerThread, WaitAll S.sched isWorkerThread = true →
        S.sched.allGroupStats.inProgressTaskCount = 0 ∧
        (∀ w, (S.sched.threadContext w).queue = []) ∧
        (∀ f, (S.sched.fiberContext f).live = false)) ∧
    ((∀ e ∈ steps, e.wellFormed) →
      ∀ g isWorkerThread, WaitGroup S.sched isWorkerThread g = true →
        (S.sched.groupStats g).inProgressTaskCount = 0 ∧
        (∀ w, ∀ t ∈ (S.sched.threadContext w).queue, t.group ≠ g) ∧
        (∀ f, (S.sched.fiberContext f).live = true →
          (S.sched.fiberContext f).currentGroup ≠ g)) := by
  have hS := System.StatsInv_run hrun
  refine ⟨hS.groupEvent, hS.totalEvent, ?_, ?_⟩
  · intro hb isw hwait
    have hI : System.Inv cfg False S := System.run_inv_bounded hb hrun
    have hsig : S.sched.allGroupStats.allDoneEvent.signaled = true := by
      unfold WaitAll at hwait
      cases isw with
      | true => simp at hwait
      | false =>
        simp only [Bool.false_eq_true, if_false] at hwait
        unfold Event.Wait at hwait
        cases hr : S.sched.allGroupStats.allDoneEvent.resetType <;>
          · rw [hr] at hwait; exact hwait
    have hz := hS.totalEvent hsig
    have hu : unfinished cfg S.sched (fun _ _ => true) = 0 := by
      have := hI.total
      omega
    obtain ⟨h1, h2⟩ := hI.drained hu
    refine ⟨hz, ?_, ?_⟩
    · intro w
      cases hq : (S.sched.threadContext w).queue with
      | nil => rfl
      | cons t rest =>
        have := h1 w t (by rw [hq]; simp)
        cases this
    · intro f
      cases hl : (S.sched.fiberContext f).live with
      | false => rfl
      | true =>
        have := h2 f hl
        cases this
  · intro hwf g isw hwait
    have hI : System.Inv cfg True S := System.Reachable.inv ⟨steps, hwf, hrun⟩
    have hsig : (S.sched.groupStats g).allDoneEvent.signaled = true := by
      unfold WaitGroup at hwait
      cases isw with
      | true => simp at hwait
      | false =>
        simp only [Bool.false_eq_true, if_false] at hwait
        unfold Event.Wait at hwait
        cases hr : (S.sched.groupStats g).allDoneEvent.resetType <;>
          · rw [hr] at hwait; exact hwait
    have hz := hS.groupEvent g hsig
    have hu : unfinished cfg S.sched (fun g1 _ => g1 == g) = 0 := by
      have := hI.group trivial g
      omega
    obtain ⟨h1, h2⟩ := hI.drained hu
    refine ⟨hz, ?_, ?_⟩
    · intro w t ht e
      have := h1 w t ht
      simp [e] at this
    · intro f hf e
      have := h2 f hf
      simp [e] at this

/-- The steps of a concrete run in which the two submitted tasks carry each
other's group submit fewer than `2^32` tasks per call. -/
theorem exampleSwapped_bounded :
    ∀ e ∈ [Step.RunTasks 1 [⟨[exampleTask 0]⟩], Step.RunTasks 0 [⟨[exampleTask 1]⟩],
         Step.Start 1, Step.Switch 1 [], Step.Continue 1,
         Step.Start 0, Step.Switch 0 [], Step.Continue 0], e.bounded := by
  intro e he g bs hs
  simp only [List.mem_cons, List.mem_singleton, List.not_mem_nil, or_false] at he
  rcases he with e1 | e1 | e1 | e1 | e1 | e1 | e1 | e1 <;> subst e1
  · obtain ⟨_, e2⟩ := hs
    subst e2
    decide
  · obtain ⟨_, e2⟩ := hs
    subst e2
    decide
  · exact absurd hs (by simp [Step.submits])
  · simp [Step.submits] at hs
  · exact absurd hs (by simp [Step.submits])
  · exact absurd hs (by simp [Step.submits])
  · simp [Step.submits] at hs
  · exact absurd hs (by simp [Step.submits])

/-- C1 (amended) at two concrete runs.  One task submitted to group 0, started
and finished: `WaitGroup(0)` returns `true`, the counter of group 0 is 0 and no
FIFO holds a task of group 0.  Two tasks that carry each other's group, both
started, finished and released: `WaitAll` returns `true` and every FIFO is
empty. -/
theorem allDone_only_when_drained_witness :
    (∃ S, System.run exampleConfig (System.new exampleConfig)
        [Step.RunTasks 0 [⟨[exampleTask 0]⟩], Step.Start 1, Step.Switch 1 []] = some S ∧
      WaitGroup S.sched false 0 = true ∧
      (S.sched.groupStats 0).inProgressTaskCount = 0 ∧
      (∀ w, ∀ t ∈ (S.sched.threadContext w).queue, t.group ≠ 0)) ∧
    (∃ S, System.run exampleConfig (System.new exampleConfig)
        [Step.RunTasks 1 [⟨[exampleTask 0]⟩], Step.RunTasks 0 [⟨[exampleTask 1]⟩],
         Step.Start 1, Step.Switch 1 [], Step.Continue 1,
         Step.Start 0, Step.Switch 0 [], Step.Continue 0] = some S ∧
      WaitAll S.sched false = true ∧
      S.sched.allGroupStats.inProgressTaskCount = 0 ∧
      (∀ w, (S.sched.threadContext w).queue = [])) := by
  constructor
  · have hval : (System.run exampleConfig (System.new exampleConfig)
          [Step.RunTasks 0 [⟨[exampleTask 0]⟩], Step.Start 1, Step.Switch 1 []]).map
        (fun S => WaitGroup S.sched false 0) = some true := by decide
    cases hrun : System.run exampleConfig (System.new exampleConfig)
          [Step.RunTasks 0 [⟨[exampleTask 0]⟩], Step.Start 1, Step.Switch 1 []] with
    | none => rw [hrun] at hval; cases hval
    | some S =>
      rw [hrun] at hval
      simp only [Option.map_some', Option.some.injEq] at hval
      obtain ⟨a, b, _⟩ := (allDone_only_when_drained exampleConfig _ S hrun).2.2.2
        exampleRun_wellFormed 0 false hval
      exact ⟨S, rfl, hval, a, b⟩
  · have hval : (System.run exampleConfig (System.new exampleConfig)
          [Step.RunTasks 1 [⟨[exampleTask 0]⟩], Step.RunTasks 0 [⟨[exampleTask 1]⟩],
           Step.Start 1, Step.Switch 1 [], Step.Continue 1,
           Step.Start 0, Step.Switch 0 [], Step.Continue 0]).map
        (fun S => WaitAll S.sched false) = some true := by decide
    cases hrun : System.run exampleConfig (System.new exampleConfig)
          [Step.RunTasks 1 [⟨[exampleTask 0]⟩], Step.RunTasks 0 [⟨[exampleTask 1]⟩],
           Step.Start 1, Step.Switch 1 [], Step.Continue 1,
           Step.Start 0, Step.Switch 0 [], Step.Continue 0] with
    | none => rw [hrun] at hval; cases hval
    | some S =>
      rw [hrun] at hval
      simp only [Option.map_some', Option.some.injEq] at hval
      obtain ⟨a, b, _⟩ := (allDone_only_when_drained exampleConfig _ S hrun).2.2.1
        exampleSwapped_bounded false hval
      exact ⟨S, rfl, hval, a, b⟩

theorem System.Inv.count_of_not_awaiting {cfg : Config} {T : Prop} {S : System} (hI : System.Inv cfg T S)
    {p : Nat} (hp : (S.sched.fiberContext p).taskStatus ≠ FiberTaskStatus.AWAITING_CHILD) :
    (S.sched.fiberContext p).childrenFibersCount = (guards S p : Nat) := by
  have h1 := hI.children p
  have h2 := hI.parked p hp
  rw [h1, h2]
  simp

theorem ExecuteTask.handle_roundRobin {cfg : Config} {s s' : TaskScheduler} {w c i : Nat}
    {nxt : ExecuteTask.Next} (h : ExecuteTask.handle cfg s w c i = some (s', nxt)) :
    s'.roundRobinThreadIndex = s.roundRobinThreadIndex ∧ s'.threadsCount = s.threadsCount := by
  rcases ExecuteTask.handle_status h with hst | hst | hst
  · obtain ⟨hg, s1, s2, s3, h1, h2, h3, h4⟩ := ExecuteTask.handle_finished hst h
    obtain ⟨_, e1⟩ := ExecuteTask.updateGroup_some h1
    obtain ⟨_, e2⟩ := ExecuteTask.updateTotal_some h2
    have k2 : s2.roundRobinThreadIndex = s.roundRobinThreadIndex ∧
        s2.threadsCount = s.threadsCount := by
      rw [e2, e1]; exact ⟨rfl, rfl⟩
    have k : s3.roundRobinThreadIndex = s.roundRobinThreadIndex ∧
        s3.threadsCount = s.threadsCount := by
      by_cases hi : i > 0
      · simp only [hi, if_true] at h3
        obtain ⟨_, e3⟩ := ReleaseFiberContext_some h3
        rw [e3]
        exact k2
      · simp only [hi, if_false, Option.some.injEq] at h3
        rw [← h3]
        exact k2
    cases hp : (s.fiberContext c).parentFiber with
    | none =>
      rw [hp, ExecuteTask.parent_none] at h4
      simp only [Option.some.injEq, Prod.mk.injEq] at h4
      rw [← h4.1]
      exact k
    | some q =>
      rw [hp] at h4
      obtain ⟨_, hcase⟩ := ExecuteTask.parent_some h4
      rcases hcase with ⟨_, _, _, es⟩ | ⟨_, _, es⟩ <;>
        · rw [es]
          exact k
  · rw [ExecuteTask.handle_awaiting (Or.inl hst)] at h
    simp only [Option.some.injEq, Prod.mk.injEq] at h
    rw [← h.1]
    exact ⟨rfl, rfl⟩
  · rw [ExecuteTask.handle_awaiting (Or.inr hst)] at h
    simp only [Option.some.injEq, Prod.mk.injEq] at h
    rw [← h.1]
    exact ⟨rfl, rfl⟩

/-- No step lowers the round-robin counter or changes the number of workers. -/
theorem System.step_roundRobin {cfg : Config} {S S1 : System} {e : Step}
    (h : System.step cfg S e = some S1) :
    S.sched.roundRobinThreadIndex ≤ S1.sched.roundRobinThreadIndex ∧
    S1.sched.threadsCount = S.sched.threadsCount := by
  cases e with
  | RunTasks g bs =>
    simp only [System.step] at h
    cases hr : RunTasksImpl cfg S.sched g bs none with
    | none => simp [hr] at h
    | some st =>
      simp only [hr, Option.some.injEq] at h
      obtain ⟨_, _, htc, _, _, _, hrr, _⟩ := RunTasksImpl_some hr
      rw [← h]
      simp only
      rw [hrr, htc]
      exact ⟨by omega, rfl⟩
  | Start w =>
    obtain ⟨_, _, f, task, rest, pool, _, _, _, hS⟩ := System.step_Start h
    rw [hS]
    exact ⟨le_refl _, rfl⟩
  | Switch w calls =>
    simp only [System.step] at h
    split at h
    · rename_i o c i hw
      cases hr : FiberMain.run cfg w c S.sched calls with
      | none => simp [hr] at h
      | some st =>
        simp only [hr] at h
        cases hh : ExecuteTask.handle cfg st w c i with
        | none => simp [hh] at h
        | some r =>
          obtain ⟨s', nxt⟩ := r
          obtain ⟨k1, k2⟩ := ExecuteTask.handle_roundRobin hh
          have hS1 : S1.sched.roundRobinThreadIndex = s'.roundRobinThreadIndex ∧
              S1.sched.threadsCount = s'.threadsCount := by
            cases nxt with
            | ret b =>
              simp only [hh, Option.some.injEq] at h
              rw [← h]; exact ⟨rfl, rfl⟩
            | next q =>
              simp only [hh] at h
              cases he : ExecuteTask.enter cfg s' w q with
              | none => simp [he] at h
              | some sq =>
                simp only [he, Option.some.injEq] at h
                obtain ⟨_, _, hsq⟩ := ExecuteTask.enter_some he
                rw [← h, hsq]; exact ⟨rfl, rfl⟩
          rw [hS1.1, hS1.2, k1, k2]
          rcases FiberMain.run_cases calls hr with hfin | ⟨g, hwg⟩ | ⟨g, bs, hmem, hrs⟩
          · rw [FiberMain.finish_some hfin]
            exact ⟨le_refl _, rfl⟩
          · obtain ⟨_, hc⟩ := WaitGroupAndYield_cases hwg
            rcases hc with ⟨e, _⟩ | ⟨_, _, _, hst⟩
            · cases e
            · rw [hst]
              exact ⟨le_refl _, rfl⟩
          · obtain ⟨_, s, hs, hst⟩ := RunSubtasksAndYield_some hrs
            obtain ⟨_, _, htc, _, _, _, hrr, _⟩ := RunTasksImpl_some hs
            rw [hst]
            simp only
            rw [hrr, htc]
            exact ⟨by omega, rfl⟩
    · cases h
  | Continue w =>
    simp only [System.step] at h
    split at h
    · rename_i o b hret
      cases ha : ThreadMain.afterExecute cfg S.sched o b with
      | none => simp [ha] at h
      | some r =>
        obtain ⟨st, nxt⟩ := r
        rcases ThreadMain.afterExecute_cases ha with ⟨e, _, _, hst⟩ | ⟨e, hst, _⟩ |
          ⟨e, hst, _, _, _⟩
        · subst e
          simp only [ha, Option.some.injEq] at h
          rw [← h, hst]; exact ⟨le_refl _, rfl⟩
        · subst e
          simp only [ha, Option.some.injEq] at h
          rw [← h, hst]; exact ⟨le_refl _, rfl⟩
        · subst e
          simp only [ha] at h
          cases he : ExecuteTask.enter cfg st w o with
          | none => simp [he] at h
          | some sq =>
            simp only [he, Option.some.injEq] at h
            obtain ⟨_, _, hsq⟩ := ExecuteTask.enter_some he
            rw [← h, hsq, hst]; exact ⟨le_refl _, rfl⟩
    · cases h
  | Unguard w =>
    obtain ⟨o, _, _, _, hS⟩ := System.step_Unguard h
    rw [hS]; exact ⟨le_refl _, rfl⟩

/-- The round-robin counter starts at 0 and is only ever incremented: it is
never negative in a state the scheduler reaches from its constructor. -/
theorem System.run_roundRobin {cfg : Config} :
    ∀ (steps : List Step) (S S1 : System), System.run cfg S steps = some S1 →
      S.sched.roundRobinThreadIndex ≤ S1.sched.roundRobinThreadIndex ∧
      S1.sched.threadsCount = S.sched.threadsCount := by
  intro steps
  induction steps with
  | nil =>
    intro S S1 h
    simp only [System.run, Option.some.injEq] at h
    rw [h]
    exact ⟨le_refl _, rfl⟩
  | cons e es ih =>
    intro S S1 h
    simp only [System.run] at h
    cases hs : System.step cfg S e with
    | none => simp [hs] at h
    | some S2 =>
      simp only [hs] at h
      obtain ⟨a, b⟩ := System.step_roundRobin hs
      obtain ⟨c, d⟩ := ih S2 S1 h
      exact ⟨le_trans a c, by rw [d, b]⟩


theorem RunTasksImpl.loop_append {g : Nat} {p : Option Nat} :
    ∀ (l1 l2 : List TaskBucket) (st : TaskScheduler),
      RunTasksImpl.loop g p st (l1 ++ l2) =
        match RunTasksImpl.loop g p st l1 with
        | none => none
        | some s => RunTasksImpl.loop g p s l2 := by
  intro l1
  induction l1 with
  | nil => intro l2 st; rfl
  | cons b l1 ih =>
    intro l2 st
    simp only [List.cons_append, RunTasksImpl.loop]
    cases hd : RunTasksImpl.dispatch st g p b with
    | none => rfl
    | some s => exact ih l2 s

/-- The round of the bucket loop that handles bucket `i`. -/
theorem RunTasksImpl.loop_round {g : Nat} {p : Option Nat} {st st1 : TaskScheduler}
    (bs : List TaskBucket) (h : RunTasksImpl.loop g p st bs = some st1)
    (hrr : 0 ≤ st.roundRobinThreadIndex) (i : Nat) (hi : i < bs.length) :
    ∃ sti stj, RunTasksImpl.loop g p st (bs.take i) = some sti ∧
      RunTasksImpl.dispatch sti g p (bs.get ⟨i, hi⟩) = some stj ∧
      RunTasksImpl.loop g p stj (bs.drop (i + 1)) = some st1 ∧
      Int.tmod (AtomicInt.Inc sti.roundRobinThreadIndex) (sti.threadsCount : Int)
        = (st.roundRobinThreadIndex + (i : Int) + 1) % (st.threadsCount : Int) ∧
      0 ≤ Int.tmod (AtomicInt.Inc sti.roundRobinThreadIndex) (sti.threadsCount : Int) ∧
      Int.tmod (AtomicInt.Inc sti.roundRobinThreadIndex) (sti.threadsCount : Int)
        < (st.threadsCount : Int) ∧
      RunTasksImpl.target sti
        = (Int.tmod (AtomicInt.Inc sti.roundRobinThreadIndex) (sti.threadsCount : Int)).toNat ∧
      (stj.threadContext (RunTasksImpl.target sti)).queue
        = (sti.threadContext (RunTasksImpl.target sti)).queue
          ++ (bs.get ⟨i, hi⟩).tasks.map (stampParent p) ∧
      (∀ w, w ≠ RunTasksImpl.target sti →
        (stj.threadContext w).queue = (sti.threadContext w).queue) := by
  simp only [List.get_eq_getElem]
  have hsplit : bs = bs.take i ++ (bs[i] :: bs.drop (i + 1)) := by
    rw [← List.drop_eq_getElem_cons hi, List.take_append_drop]
  have h1 := h
  rw [hsplit, RunTasksImpl.loop_append] at h1
  cases hl : RunTasksImpl.loop g p st (bs.take i) with
  | none => simp [hl] at h1
  | some sti =>
    simp only [hl, RunTasksImpl.loop] at h1
    cases hd : RunTasksImpl.dispatch sti g p bs[i] with
    | none => simp [hd] at h1
    | some stj =>
      simp only [hd] at h1
      obtain ⟨htc, hrrf⟩ :
          sti.threadsCount = st.threadsCount ∧
          sti.roundRobinThreadIndex = st.roundRobinThreadIndex + (i : Int) := by
        have := RunTasksImpl.loop_frame (bs.take i) hl
        refine ⟨this.1, ?_⟩
        rw [this.2.2.2.2, List.length_take, Nat.min_eq_left (Nat.le_of_lt hi)]
      obtain ⟨hne, hnn, hs⟩ := RunTasksImpl.dispatch_some hd
      have hmod : Int.tmod (AtomicInt.Inc sti.roundRobinThreadIndex) (sti.threadsCount : Int)
          = (st.roundRobinThreadIndex + (i : Int) + 1) % (st.threadsCount : Int) := by
        simp only [AtomicInt.Inc]
        rw [Int.tmod_eq_emod (by omega) (by omega), hrrf, htc]
      have hpos : (0 : Int) < (st.threadsCount : Int) := by omega
      refine ⟨sti, stj, rfl, hd, h1, hmod, ?_, ?_, rfl, ?_, ?_⟩
      · rw [hmod]
        exact Int.emod_nonneg _ (by omega)
      · rw [hmod]
        exact Int.emod_lt_of_pos _ hpos
      · rw [hs]
        simp [setAt]
      · intro w hw
        rw [hs]
        simp [setAt, hw]

/-- The bucket loop at a non-negative round-robin counter. -/
theorem RunTasksImpl_dispatching (cfg : Config) (st : TaskScheduler) (g : Nat)
    (buckets : List TaskBucket) (p : Option Nat)
    (htc : 1 ≤ st.threadsCount) (hrr : 0 ≤ st.roundRobinThreadIndex) :
    ∃ st1,
      RunTasksImpl.loop g p (RunTasksImpl.addChildren st p (RunTasksImpl.count buckets)) buckets
        = some st1 ∧
      (g < cfg.GROUP_COUNT → RunTasksImpl cfg st g buckets p = some st1) ∧
      (¬ g < cfg.GROUP_COUNT → RunTasksImpl cfg st g buckets p = none) ∧
      (∀ w, (st1.threadContext w).queue = (st.threadContext w).queue ++
        RunTasksImpl.appended st.threadsCount p w st.roundRobinThreadIndex 0 buckets) ∧
      (∀ w t, t ∈ RunTasksImpl.appended st.threadsCount p w st.roundRobinThreadIndex 0 buckets →
        t.parentFiber = p) ∧
      (∀ i : Nat, 0 ≤ (st.roundRobinThreadIndex + (i : Int) + 1) % (st.threadsCount : Int) ∧
        ((st.roundRobinThreadIndex + (i : Int) + 1) % (st.threadsCount : Int)).toNat
          < st.threadsCount) ∧
      (∀ (i : Nat) (hi : i < buckets.length), ∃ sti stj,
        RunTasksImpl.loop g p (RunTasksImpl.addChildren st p (RunTasksImpl.count buckets))
          (buckets.take i) = some sti ∧
        RunTasksImpl.dispatch sti g p (buckets.get ⟨i, hi⟩) = some stj ∧
        RunTasksImpl.loop g p stj (buckets.drop (i + 1)) = some st1 ∧
        Int.tmod (AtomicInt.Inc sti.roundRobinThreadIndex) (sti.threadsCount : Int)
          = (st.roundRobinThreadIndex + (i : Int) + 1) % (st.threadsCount : Int) ∧
        0 ≤ Int.tmod (AtomicInt.Inc sti.roundRobinThreadIndex) (sti.threadsCount : Int) ∧
        Int.tmod (AtomicInt.Inc sti.roundRobinThreadIndex) (sti.threadsCount : Int)
          < (st.threadsCount : Int) ∧
        RunTasksImpl.target sti
          = (Int.tmod (AtomicInt.Inc sti.roundRobinThreadIndex) (sti.threadsCount : Int)).toNat ∧
        (stj.threadContext (RunTasksImpl.target sti)).queue
          = (sti.threadContext (RunTasksImpl.target sti)).queue
            ++ (buckets.get ⟨i, hi⟩).tasks.map (stampParent p) ∧
        (∀ w, w ≠ RunTasksImpl.target sti →
          (stj.threadContext w).queue = (sti.threadContext w).queue)) ∧
      st1.roundRobinThreadIndex = st.roundRobinThreadIndex + (buckets.length : Int) := by
  have e1 : (RunTasksImpl.addChildren st p (RunTasksImpl.count buckets)).threadsCount
      = st.threadsCount := by cases p <;> rfl
  have e2 : (RunTasksImpl.addChildren st p (RunTasksImpl.count buckets)).roundRobinThreadIndex
      = st.roundRobinThreadIndex := by cases p <;> rfl
  have e3 : (RunTasksImpl.addChildren st p (RunTasksImpl.count buckets)).threadContext
      = st.threadContext := by cases p <;> rfl
  obtain ⟨st1, h⟩ := RunTasksImpl.loop_ok (g := g) (p := p) buckets
    (RunTasksImpl.addChildren st p (RunTasksImpl.count buckets)) (by rw [e1]; exact htc)
    (by rw [e2]; exact hrr)
  refine ⟨st1, h, fun hg => by simp only [RunTasksImpl, hg, if_true, h],
    fun hg => by simp only [RunTasksImpl, hg, if_false], ?_, ?_, ?_, ?_, ?_⟩
  · intro w
    have := RunTasksImpl.loop_queues buckets 0 st.roundRobinThreadIndex h
      (by rw [e2]; simp) (by rw [e2]; exact hrr) w
    rw [e1, e3] at this
    exact this
  · intro w t ht
    exact RunTasksImpl.appended_parent _ _ _ _ _ _ t ht
  · intro i
    have hpos : (0 : Int) < (st.threadsCount : Int) := by omega
    have h0 := Int.emod_nonneg (st.roundRobinThreadIndex + (i : Int) + 1)
      (show (st.threadsCount : Int) ≠ 0 by omega)
    have h1 := Int.emod_lt_of_pos (st.roundRobinThreadIndex + (i : Int) + 1) hpos
    exact ⟨h0, by omega⟩
  · intro i hi
    have := RunTasksImpl.loop_round buckets h (by rw [e2]; exact hrr) i hi
    rw [e1, e2] at this
    exact this
  · have := (RunTasksImpl.loop_frame buckets h).2.2.2.2
    rw [e2] at this
    exact this


/-- C3: in every state the scheduler reaches from its constructor the
round-robin counter `r` is non-negative, and with at least one worker the
bucket loop of `RunTasksImpl(g, buckets, p)` runs to its end (the call returns
for a valid group; the `ASSERT` on the group is all that can stop it).  The
round for bucket `i` computes, at line 399, the index `(r + i + 1) mod
threadsCount`, which lies in `[0, threadsCount)`, and appends the bucket whole
and in its task order, every task stamped with the parent `p`, to the FIFO of
that worker and of no other.  So the FIFO of every worker `w` ends as its old
content followed by the buckets `i` with `(r + i + 1) mod threadsCount = w`, in
bucket order, and the counter ends at `r + buckets.size()`. -/
theorem RunTasksImpl_round_robin (cfg : Config) (steps : List Step) (S : System)
    (hrun : System.run cfg (System.new cfg) steps = some S)
    (g : Nat) (buckets : List TaskBucket) (p : Option Nat) (htc : 1 ≤ S.sched.threadsCount) :
    0 ≤ S.sched.roundRobinThreadIndex ∧
    ∃ st1,
      RunTasksImpl.loop g p (RunTasksImpl.addChildren S.sched p (RunTasksImpl.count buckets))
        buckets = some st1 ∧
      (g < cfg.GROUP_COUNT → RunTasksImpl cfg S.sched g buckets p = some st1) ∧
      (¬ g < cfg.GROUP_COUNT → RunTasksImpl cfg S.sched g buckets p = none) ∧
      (∀ w, (st1.threadContext w).queue = (S.sched.threadContext w).queue ++
        RunTasksImpl.appended S.sched.threadsCount p w S.sched.roundRobinThreadIndex 0 buckets) ∧
      (∀ w t,
        t ∈ RunTasksImpl.appended S.sched.threadsCount p w S.sched.roundRobinThreadIndex 0 buckets →
        t.parentFiber = p) ∧
      (∀ i : Nat,
        0 ≤ (S.sched.roundRobinThreadIndex + (i : Int) + 1) % (S.sched.threadsCount : Int) ∧
        ((S.sched.roundRobinThreadIndex + (i : Int) + 1) % (S.sched.threadsCount : Int)).toNat
          < S.sched.threadsCount) ∧
      (∀ (i : Nat) (hi : i < buckets.length), ∃ sti stj,
        RunTasksImpl.loop g p (RunTasksImpl.addChildren S.sched p (RunTasksImpl.count buckets))
          (buckets.take i) = some sti ∧
        RunTasksImpl.dispatch sti g p (buckets.get ⟨i, hi⟩) = some stj ∧
        RunTasksImpl.loop g p stj (buckets.drop (i + 1)) = some st1 ∧
        Int.tmod (AtomicInt.Inc sti.roundRobinThreadIndex) (sti.threadsCount : Int)
          = (S.sched.roundRobinThreadIndex + (i : Int) + 1) % (S.sched.threadsCount : Int) ∧
        0 ≤ Int.tmod (AtomicInt.Inc sti.roundRobinThreadIndex) (sti.threadsCount : Int) ∧
        Int.tmod (AtomicInt.Inc sti.roundRobinThreadIndex) (sti.threadsCount : Int)
          < (S.sched.threadsCount : Int) ∧
        RunTasksImpl.target sti
          = (Int.tmod (AtomicInt.Inc sti.roundRobinThreadIndex) (sti.threadsCount : Int)).toNat ∧
        (stj.threadContext (RunTasksImpl.target sti)).queue
          = (sti.threadContext (RunTasksImpl.target sti)).queue
            ++ (buckets.get ⟨i, hi⟩).tasks.map (stampParent p) ∧
        (∀ w, w ≠ RunTasksImpl.target sti →
          (stj.threadContext w).queue = (sti.threadContext w).queue)) ∧
      st1.roundRobinThreadIndex = S.sched.roundRobinThreadIndex + (buckets.length : Int) := by
  have hrr : 0 ≤ S.sched.roundRobinThreadIndex :=
    (System.run_roundRobin steps _ _ hrun).1
  exact ⟨hrr, RunTasksImpl_dispatching cfg S.sched g buckets p htc hrr⟩

/-- C3 at a concrete run: after one submission and the start of its task the
counter is 1; three buckets submitted on behalf of fiber 3 then go to workers
0, 1 and 0 of the two workers. -/
theorem RunTasksImpl_round_robin_witness :
    ∃ S st1, System.run exampleConfig (System.new exampleConfig)
        [Step.RunTasks 0 [⟨[exampleTask 0]⟩], Step.Start 1] = some S ∧
      S.sched.roundRobinThreadIndex = 1 ∧
      RunTasksImpl exampleConfig S.sched 0
        [⟨[exampleTask 0, exampleTask 0]⟩, ⟨[exampleTask 0]⟩, ⟨[exampleTask 0]⟩] (some 3)
        = some st1 ∧
      (st1.threadContext 0).queue =
        [stampParent (some 3) (exampleTask 0), stampParent (some 3) (exampleTask 0),
         stampParent (some 3) (exampleTask 0)] ∧
      (st1.threadContext 1).queue = [stampParent (some 3) (exampleTask 0)] ∧
      st1.roundRobinThreadIndex = 4 := by
  have hval : (System.run exampleConfig (System.new exampleConfig)
        [Step.RunTasks 0 [⟨[exampleTask 0]⟩], Step.Start 1]).map
      (fun S => (S.sched.threadsCount, S.sched.roundRobinThreadIndex,
        (S.sched.threadContext 0).queue, (S.sched.threadContext 1).queue))
      = some (2, 1, [], []) := by decide
  cases hrun : System.run exampleConfig (System.new exampleConfig)
        [Step.RunTasks 0 [⟨[exampleTask 0]⟩], Step.Start 1] with
  | none => rw [hrun] at hval; cases hval
  | some S =>
    rw [hrun] at hval
    simp only [Option.map_some', Option.some.injEq, Prod.mk.injEq] at hval
    obtain ⟨a1, a2, a3, a4⟩ := hval
    obtain ⟨_, st1, _, h1, _, hq, _, _, _, hr⟩ := RunTasksImpl_round_robin exampleConfig _ S hrun 0
      [⟨[exampleTask 0, exampleTask 0]⟩, ⟨[exampleTask 0]⟩, ⟨[exampleTask 0]⟩] (some 3)
      (by rw [a1]; decide)
    refine ⟨S, st1, rfl, a2, h1 (by decide), ?_, ?_, ?_⟩
    · rw [hq 0, a1, a2, a3]; decide
    · rw [hq 1, a1, a2, a4]; decide
    · rw [hr, a2]; decide

/-! ## `ExecuteTask` in reachable states -/

theorem FiberContext.consistent_of_fields {cfg : Config} {fc fc1 : FiberContext}
    (h : fc.consistent cfg) (hs : fc1.taskStatus = fc.taskStatus)
    (ht : fc1.threadContext = fc.threadContext) (hk : fc1.currentTask = fc.currentTask)
    (hg : fc1.currentGroup = fc.currentGroup) : fc1.consistent cfg := by
  unfold FiberContext.consistent FiberContext.live at *
  rw [hs, ht, hk, hg]
  exact h

theorem FiberContext.consistent_of_finished {cfg : Config} {fc : FiberContext}
    (hs : fc.taskStatus = FiberTaskStatus.FINISHED) : fc.consistent cfg := by
  unfold FiberContext.consistent FiberContext.live
  rw [hs]
  simp

theorem FiberContext.consistent_of_runned {cfg : Config} {fc : FiberContext}
    (hs : fc.taskStatus = FiberTaskStatus.RUNNED) (hk : fc.currentTask.IsValid = true)
    (hg : fc.currentGroup < cfg.GROUP_COUNT) : fc.consistent cfg := by
  unfold FiberContext.consistent FiberContext.live
  rw [hs]
  simp [hk, hg]

theorem ExecuteTask.enter_consistent {cfg : Config} {st st1 : TaskScheduler} {w f : Nat}
    (h : ExecuteTask.enter cfg st w f = some st1)
    (hC : ∀ j, j ≠ f → (st.fiberContext j).consistent cfg) :
    ∀ j, (st1.fiberContext j).consistent cfg := by
  obtain ⟨hv, hg, hst⟩ := ExecuteTask.enter_some h
  intro j
  rw [hst]
  by_cases hj : j = f
  · subst hj
    simp only [setAt, if_true]
    exact FiberContext.consistent_of_runned rfl hv hg
  · simp only [setAt, hj, if_false]
    exact hC j hj

/-- Every step keeps every fiber consistent. -/
theorem System.consistent_step {cfg : Config} {T : Prop} {S S1 : System} {e : Step}
    (hI : System.Inv cfg T S) (hC : ∀ j, (S.sched.fiberContext j).consistent cfg)
    (h : System.step cfg S e = some S1) : ∀ j, (S1.sched.fiberContext j).consistent cfg := by
  cases e with
  | RunTasks g bs =>
    simp only [System.step] at h
    cases hr : RunTasksImpl cfg S.sched g bs none with
    | none => simp [hr] at h
    | some st =>
      simp only [hr, Option.some.injEq] at h
      obtain ⟨_, _, _, hf, _⟩ := RunTasksImpl_some hr
      intro j
      rw [← h]
      show (st.fiberContext j).consistent cfg
      rw [hf]
      exact hC j
  | Start w =>
    simp only [System.step] at h
    split at h
    · cases h
    · split at h
      · split at h
        · cases h
        · rename_i f st ha
          split at h
          · cases h
          · rename_i st1 he
            simp only [Option.some.injEq] at h
            obtain ⟨task, rest, pool, _, _, _, hst⟩ := ThreadMain.acquire_some ha
            rw [← h]
            apply ExecuteTask.enter_consistent he
            intro j hj
            rw [hst]
            simp only [setAt, hj, if_false]
            exact hC j
      · cases h
  | Switch w calls =>
    simp only [System.step] at h
    split at h
    · rename_i o c i hw
      cases hr : FiberMain.run cfg w c S.sched calls with
      | none => simp [hr] at h
      | some st =>
        simp only [hr] at h
        obtain ⟨hrun, _, _, _⟩ := hI.inFiber w o c i hw
        have hlive : (S.sched.fiberContext c).live = true := by
          simp [FiberContext.live, hrun]
        rcases FiberMain.run_cases calls hr with hfin | ⟨g, hwg⟩ | ⟨g, bs, hmem, hrs⟩
        · have hst := FiberMain.finish_some hfin
          have hcfin : (st.fiberContext c).taskStatus = FiberTaskStatus.FINISHED := by
            rw [hst]; simp [setAt]
          have hso : ∀ j, j ≠ c → st.fiberContext j = S.sched.fiberContext j := by
            intro j hj; rw [hst]; simp [setAt, hj]
          cases hh : ExecuteTask.handle cfg st w c i with
          | none => simp [hh] at h
          | some r =>
            obtain ⟨s', nxt⟩ := r
            obtain ⟨_, _, _, _, _, _, k7, k8, k9, _⟩ :=
              ExecuteTask.handle_finished_effect hcfin hh
            have hc' : (s'.fiberContext c).consistent cfg :=
              FiberContext.consistent_of_finished (by rw [k7]; exact hcfin)
            have hoth : ∀ j, j ≠ c → nxt ≠ ExecuteTask.Next.next j →
                (s'.fiberContext j).consistent cfg := by
              intro j hj hn
              apply FiberContext.consistent_of_fields (hC j)
              · rw [k7, hso j hj]
              · rw [k9 j hj hn, hso j hj]
              · rw [(k8 j hj).2.2, hso j hj]
              · rw [(k8 j hj).1, hso j hj]
            cases nxt with
            | ret b =>
              simp only [hh, Option.some.injEq] at h
              rw [← h]
              intro j
              by_cases hj : j = c
              · subst hj; exact hc'
              · exact hoth j hj (by simp)
            | next q =>
              simp only [hh] at h
              cases he : ExecuteTask.enter cfg s' w q with
              | none => simp [he] at h
              | some sq =>
                simp only [he, Option.some.injEq] at h
                rw [← h]
                apply ExecuteTask.enter_consistent he
                intro j hjq
                by_cases hj : j = c
                · subst hj; exact hc'
                · exact hoth j hj (by
                    intro e
                    simp only [ExecuteTask.Next.next.injEq] at e
                    exact hjq e.symm)
        · obtain ⟨_, hc⟩ := WaitGroupAndYield_cases hwg
          rcases hc with ⟨e, _⟩ | ⟨_, _, _, hst⟩
          · cases e
          · have hag : (st.fiberContext c).taskStatus = FiberTaskStatus.AWAITING_GROUP := by
              rw [hst]; simp [setAt]
            rw [ExecuteTask.handle_awaiting (Or.inl hag)] at h
            simp only [Option.some.injEq] at h
            rw [← h]
            intro j
            show (st.fiberContext j).consistent cfg
            rw [hst]
            by_cases hj : j = c
            · subst hj
              simp only [setAt, if_true]
              have := (hC j).1 hlive
              unfold FiberContext.consistent FiberContext.live
              simp [this.1, this.2]
            · simp only [setAt, hj, if_false]
              exact hC j
        · obtain ⟨_, s, hs, hst⟩ := RunSubtasksAndYield_some hrs
          have hac : (st.fiberContext c).taskStatus = FiberTaskStatus.AWAITING_CHILD := by
            rw [hst]; simp [setAt]
          rw [ExecuteTask.handle_awaiting (Or.inr hac)] at h
          simp only [Option.some.injEq] at h
          obtain ⟨_, _, _, hf, _⟩ := RunTasksImpl_some hs
          have hsf : ∀ j, (s.fiberContext j).taskStatus = (S.sched.fiberContext j).taskStatus ∧
              (s.fiberContext j).threadContext = (S.sched.fiberContext j).threadContext ∧
              (s.fiberContext j).currentTask = (S.sched.fiberContext j).currentTask ∧
              (s.fiberContext j).currentGroup = (S.sched.fiberContext j).currentGroup := by
            intro j
            rw [hf]
            by_cases hj : j = c
            · subst hj; simp [RunTasksImpl.addChildren, setAt]
            · simp [RunTasksImpl.addChildren, setAt, hj]
          rw [← h]
          intro j
          show (st.fiberContext j).consistent cfg
          rw [hst]
          by_cases hj : j = c
          · subst hj
            simp only [setAt, if_true]
            have := (hC j).1 hlive
            unfold FiberContext.consistent FiberContext.live
            simp [(hsf j).2.2.1, (hsf j).2.2.2, this.1, this.2]
          · simp only [setAt, hj, if_false]
            exact FiberContext.consistent_of_fields (hC j) (hsf j).1 (hsf j).2.1 (hsf j).2.2.1
              (hsf j).2.2.2
    · cases h
  | Continue w =>
    simp only [System.step] at h
    split at h
    · rename_i o b hret
      cases ha : ThreadMain.afterExecute cfg S.sched o b with
      | none => simp [ha] at h
      | some r =>
        obtain ⟨st, nxt⟩ := r
        rcases ThreadMain.afterExecute_cases ha with ⟨e, hcond, _, hst⟩ | ⟨e, hst, _⟩ |
          ⟨e, hst, _, _, _⟩
        · subst e
          simp only [ha, Option.some.injEq] at h
          have hfin : (S.sched.fiberContext o).taskStatus = FiberTaskStatus.FINISHED := by
            rcases hI.returned w o b hret with h1 | ⟨h1, _⟩
            · exact h1
            · rcases hcond with h2 | h2
              · rw [h1] at h2; cases h2
              · exact h2
          rw [← h]
          intro j
          show (st.fiberContext j).consistent cfg
          rw [hst]
          by_cases hj : j = o
          · subst hj
            simp only [setAt, if_true]
            exact FiberContext.consistent_of_finished hfin
          · simp only [setAt, hj, if_false]
            exact hC j
        · subst e
          simp only [ha, Option.some.injEq] at h
          rw [← h, hst]
          exact hC
        · subst e
          simp only [ha] at h
          cases he : ExecuteTask.enter cfg st w o with
          | none => simp [he] at h
          | some sq =>
            simp only [he, Option.some.injEq] at h
            rw [← h]
            apply ExecuteTask.enter_consistent he
            intro j _
            rw [hst]
            exact hC j
    · cases h
  | Unguard w =>
    obtain ⟨o, _, _, _, hS⟩ := System.step_Unguard h
    intro j
    rw [hS]
    by_cases hj : j = o
    · subst hj
      simp only [setAt, if_true]
      exact FiberContext.consistent_of_fields (hC j) rfl rfl rfl rfl
    · simp only [setAt, hj, if_false]
      exact hC j

theorem System.Reachable.consistent {cfg : Config} {S : System} (h : System.Reachable cfg S) :
    ∀ j, (S.sched.fiberContext j).consistent cfg := by
  obtain ⟨steps, hwf, hrun⟩ := h
  have := System.run_induction
    (P := fun S => System.Inv cfg True S ∧ ∀ j, (S.sched.fiberContext j).consistent cfg)
    (Q := Step.wellFormed)
    (fun S e S1 hP hq hs => ⟨System.Inv_step_wellFormed hP.1 hq hs, System.consistent_step hP.1 hP.2 hs⟩)
    steps _ _ ⟨System.Inv_new cfg True, fun j => by
      unfold FiberContext.consistent FiberContext.live
      simp [System.new, TaskScheduler.new, FiberContext.new]⟩ hwf hrun
  exact this.2

/-- In a reachable state no `ASSERT` of `ExecuteTask` fails: whenever the fiber
a worker drives switches back, `ExecuteTask` handles the outcome and either
returns or switches into the parent. -/
theorem System.Reachable.switch_ok {cfg : Config} {S : System} (h : System.Reachable cfg S)
    {w o c k : Nat} {calls : List TaskCall} {st : TaskScheduler}
    (hw : S.worker w = Worker.inFiber o c k)
    (hr : FiberMain.run cfg w c S.sched calls = some st) :
    (∃ s1 nxt, ExecuteTask.handle cfg st w c k = some (s1, nxt)) ∧
    ∃ S1, System.step cfg S (Step.Switch w calls) = some S1 := by
  have hI := h.inv
  have hC := h.consistent
  obtain ⟨hrun, _, _, hipos⟩ := hI.inFiber w o c k hw
  have hlive : (S.sched.fiberContext c).live = true := by
    simp [FiberContext.live, hrun]
  have hcb := hI.liveBound c hlive
  have hhandle : ∃ s1 nxt, ExecuteTask.handle cfg st w c k = some (s1, nxt) := by
    rcases FiberMain.run_cases calls hr with hfin | ⟨g, hwg⟩ | ⟨g, bs, hmem, hrs⟩
    · have hst := FiberMain.finish_some hfin
      have hcfin : (st.fiberContext c).taskStatus = FiberTaskStatus.FINISHED := by
        rw [hst]; simp [setAt]
      have hso : ∀ j, j ≠ c → st.fiberContext j = S.sched.fiberContext j := by
        intro j hj; rw [hst]; simp [setAt, hj]
      have hsc : (st.fiberContext c).currentGroup = (S.sched.fiberContext c).currentGroup ∧
          (st.fiberContext c).parentFiber = (S.sched.fiberContext c).parentFiber ∧
          (st.fiberContext c).childrenFibersCount
            = (S.sched.fiberContext c).childrenFibersCount := by
        rw [hst]; simp [setAt]
      have hgs : st.groupStats = S.sched.groupStats := by rw [hst]
      have hall : st.allGroupStats = S.sched.allGroupStats := by rw [hst]
      apply ExecuteTask.handle_ok hcfin
      · rw [hsc.1]; exact ((hC c).1 hlive).2
      · rw [hgs, hsc.1, hI.group trivial]
        have := @weight_le_unfinished cfg S.sched
          (fun g1 _ => g1 == (S.sched.fiberContext c).currentGroup) c hcb
        simp only [FiberContext.weight, hlive, beq_self_eq_true, Bool.and_self, if_true] at this
        omega
      · rw [hall, hI.total]
        have := @weight_le_unfinished cfg S.sched
          (fun _ _ => true) c hcb
        simp only [FiberContext.weight, hlive, Bool.and_self, if_true] at this
        omega
      · intro hk
        rw [hsc.2.2, hI.count_of_not_awaiting (by rw [hrun]; simp), (hipos hk).2]
        rfl
      · intro q hq
        rw [hsc.2.1] at hq
        have hqc : q ≠ c := by
          intro e; subst e; exact hI.parent_ne_self hrun hq
        have hw1 := @weight_le_unfinished cfg S.sched
          (fun _ p => p == some q) c hcb
        simp only [FiberContext.weight, hlive, hq, beq_self_eq_true, Bool.and_self,
          if_true] at hw1
        have hcq := hI.children q
        rw [hso q hqc]
        refine ⟨by omega, ?_⟩
        intro _
        apply (hC q).2
        left
        by_contra hne
        have := hI.parked q hne
        omega
    · obtain ⟨_, hc⟩ := WaitGroupAndYield_cases hwg
      rcases hc with ⟨e, _⟩ | ⟨_, _, _, hst⟩
      · cases e
      · have hag : (st.fiberContext c).taskStatus = FiberTaskStatus.AWAITING_GROUP := by
          rw [hst]; simp [setAt]
        exact ⟨_, _, ExecuteTask.handle_awaiting (Or.inl hag)⟩
    · obtain ⟨_, s, hs, hst⟩ := RunSubtasksAndYield_some hrs
      have hac : (st.fiberContext c).taskStatus = FiberTaskStatus.AWAITING_CHILD := by
        rw [hst]; simp [setAt]
      exact ⟨_, _, ExecuteTask.handle_awaiting (Or.inr hac)⟩
  refine ⟨hhandle, ?_⟩
  obtain ⟨s1, nxt, hh⟩ := hhandle
  cases nxt with
  | ret b =>
    exact ⟨{ sched := s1, worker := setAt S.worker w (Worker.returned o b) },
      by simp only [System.step, hw, hr, hh]⟩
  | next q =>
    obtain ⟨_, _, hn, _, _⟩ := ExecuteTask.handle_spec hh
    obtain ⟨hcfin, hq, hz⟩ := (hn q).1 rfl
    -- the driven fiber came back `FINISHED`, so its body returned
    have hst : st = { S.sched with
        fiberContext := setAt S.sched.fiberContext c
          { S.sched.fiberContext c with taskStatus := FiberTaskStatus.FINISHED } } := by
      rcases FiberMain.run_cases calls hr with hf | ⟨g, hwg⟩ | ⟨g, bs, _, hrs⟩
      · exact FiberMain.finish_some hf
      · obtain ⟨_, hc⟩ := WaitGroupAndYield_cases hwg
        rcases hc with ⟨e, _⟩ | ⟨_, _, _, e⟩
        · cases e
        · rw [e] at hcfin
          simp [setAt] at hcfin
      · obtain ⟨_, s, _, e⟩ := RunSubtasksAndYield_some hrs
        rw [e] at hcfin
        simp [setAt] at hcfin
    have hq' : (S.sched.fiberContext c).parentFiber = some q := by
      rw [hst] at hq; simpa [setAt] using hq
    have hqc : q ≠ c := by
      intro e; subst e; exact hI.parent_ne_self hrun hq'
    have hso : st.fiberContext q = S.sched.fiberContext q := by
      rw [hst]; simp [setAt, hqc]
    obtain ⟨_, _, _, _, _, _, _, k8, _, _⟩ := ExecuteTask.handle_finished_effect hcfin hh
    have hw1 := @weight_le_unfinished cfg S.sched
          (fun _ p => p == some q) c hcb
    simp only [FiberContext.weight, hlive, hq', beq_self_eq_true, Bool.and_self,
      if_true] at hw1
    have hac : (S.sched.fiberContext q).taskStatus = FiberTaskStatus.AWAITING_CHILD := by
      by_contra hne
      have := hI.parked q hne
      omega
    have hql : (S.sched.fiberContext q).live = true := by
      simp [FiberContext.live, hac]
    obtain ⟨hv, hg⟩ := (hC q).1 hql
    obtain ⟨sq, he⟩ := @ExecuteTask.enter_ok cfg s1 w q
      (by rw [(k8 q hqc).2.2, hso]; exact hv) (by rw [(k8 q hqc).1, hso]; exact hg)
    exact ⟨{ sched := sq, worker := setAt S.worker w (Worker.inFiber o q (k + 1)) },
      by simp only [System.step, hw, hr, hh, he]⟩

/-! ## Claims about `ExecuteTask` -/

/-- C4: whenever `ExecuteTask` returns `dropContext`, its last round drove a
fiber that came back `AWAITING_GROUP` or `AWAITING_CHILD` exactly when
`dropContext = false`, and came back `FINISHED` with no parent or with a parent
whose `childrenFibersCount` is still above 0 after the decrement exactly when
`dropContext = true`.  In every round, a `FINISHED` fiber takes exactly one off
its parent's counter; when that brings the counter to exactly 0 the round does
not return: the parent is bound to the current worker and `ExecuteTask` goes on
to drive the parent in the next round.

The rounds do have these outcomes.  A fiber that came back awaiting makes the
round return `false` with the state unchanged.  For a fiber that came back
`FINISHED`, when the `ASSERT`s of lines 197-211 and of `Reset` hold (a valid
group, the counter of its group and of all groups at least 1, its own children
counter at 0 when a later round releases it), the round returns `true` when the
fiber has no parent; returns `true` with the parent's counter one lower when
that counter was above 1; and, when that counter was exactly 1 and the parent
is bound to no worker (line 241), switches to the parent with the parent's
counter at 0 and the parent bound to the current worker.

In every reachable state none of these `ASSERT`s fails: whenever the fiber a
worker drives switches back, the round is handled and the worker's step is
taken.  And a round whose handling returns `dropContext` is the last:
`ExecuteTask` returns that `dropContext` with the state the round left. -/
theorem ExecuteTask_return (cfg : Config) :
    (∀ st w f script b st1, ExecuteTask cfg st w f script = some (b, st1) →
      ∃ c k s, (ExecuteTask.rounds cfg w st f 0 script).getLast? = some (c, k, s) ∧
        ExecuteTask.handle cfg s w c k = some (st1, ExecuteTask.Next.ret b) ∧
        (b = false ↔
          ((s.fiberContext c).taskStatus = FiberTaskStatus.AWAITING_GROUP ∨
           (s.fiberContext c).taskStatus = FiberTaskStatus.AWAITING_CHILD)) ∧
        (b = true ↔
          ((s.fiberContext c).taskStatus = FiberTaskStatus.FINISHED ∧
           ((s.fiberContext c).parentFiber = none ∨
            ∃ q, (s.fiberContext c).parentFiber = some q ∧
              (st1.fiberContext q).childrenFibersCount
                = (s.fiberContext q).childrenFibersCount - 1 ∧
              0 < (st1.fiberContext q).childrenFibersCount)))) ∧
    (∀ s w c k s1 nxt, ExecuteTask.handle cfg s w c k = some (s1, nxt) →
      (∀ q, nxt = ExecuteTask.Next.next q ↔
        ((s.fiberContext c).taskStatus = FiberTaskStatus.FINISHED ∧
         (s.fiberContext c).parentFiber = some q ∧
         (s.fiberContext q).childrenFibersCount - 1 = 0)) ∧
      (∀ q, nxt = ExecuteTask.Next.next q → (s1.fiberContext q).threadContext = some w) ∧
      ((s.fiberContext c).taskStatus = FiberTaskStatus.FINISHED →
        ∀ q, (s.fiberContext c).parentFiber = some q →
          (s1.fiberContext q).childrenFibersCount
            = (s.fiberContext q).childrenFibersCount - 1)) ∧
    (∀ st w f k calls script s1 s2 s3 q,
      ExecuteTask.enter cfg st w f = some s1 → FiberMain.run cfg w f s1 calls = some s2 →
      ExecuteTask.handle cfg s2 w f k = some (s3, ExecuteTask.Next.next q) →
      ExecuteTask.loop cfg w st f k (calls :: script)
        = ExecuteTask.loop cfg w s3 q (k + 1) script ∧
      ExecuteTask.rounds cfg w st f k (calls :: script)
        = (f, k, s2) :: ExecuteTask.rounds cfg w s3 q (k + 1) script) ∧
    (∀ s w c k,
      (((s.fiberContext c).taskStatus = FiberTaskStatus.AWAITING_GROUP ∨
          (s.fiberContext c).taskStatus = FiberTaskStatus.AWAITING_CHILD) →
        ExecuteTask.handle cfg s w c k = some (s, ExecuteTask.Next.ret false)) ∧
      ((s.fiberContext c).taskStatus = FiberTaskStatus.FINISHED →
        (s.fiberContext c).currentGroup < cfg.GROUP_COUNT →
        1 ≤ (s.groupStats (s.fiberContext c).currentGroup).inProgressTaskCount →
        1 ≤ s.allGroupStats.inProgressTaskCount →
        (0 < k → (s.fiberContext c).childrenFibersCount = 0) →
        ((s.fiberContext c).parentFiber = none →
          ∃ s1, ExecuteTask.handle cfg s w c k = some (s1, ExecuteTask.Next.ret true)) ∧
        (∀ q, (s.fiberContext c).parentFiber = some q →
          1 < (s.fiberContext q).childrenFibersCount →
          ∃ s1, ExecuteTask.handle cfg s w c k = some (s1, ExecuteTask.Next.ret true) ∧
            (s1.fiberContext q).childrenFibersCount
              = (s.fiberContext q).childrenFibersCount - 1) ∧
        (∀ q, (s.fiberContext c).parentFiber = some q →
          (s.fiberContext q).childrenFibersCount = 1 →
          (s.fiberContext q).threadContext = none →
          ∃ s1, ExecuteTask.handle cfg s w c k = some (s1, ExecuteTask.Next.next q) ∧
            (s1.fiberContext q).childrenFibersCount = 0 ∧
            (s1.fiberContext q).threadContext = some w))) ∧
    (∀ S w o c k calls st, System.Reachable cfg S → S.worker w = Worker.inFiber o c k →
      FiberMain.run cfg w c S.sched calls = some st →
      (∃ s1 nxt, ExecuteTask.handle cfg st w c k = some (s1, nxt)) ∧
      ∃ S1, System.step cfg S (Step.Switch w calls) = some S1) ∧
    (∀ st w f k calls script s1 s2 s3 b,
      ExecuteTask.enter cfg st w f = some s1 → FiberMain.run cfg w f s1 calls = some s2 →
      ExecuteTask.handle cfg s2 w f k = some (s3, ExecuteTask.Next.ret b) →
      ExecuteTask.loop cfg w st f k (calls :: script) = some (b, s3)) := by
  refine ⟨?_, ?_, ?_, ?_, ?_, ?_⟩
  · intro st w f script b st1 h
    obtain ⟨c, k, s, hl, hh⟩ := ExecuteTask.loop_last script st f 0 b st1 h
    obtain ⟨hf, ht, _, _, hdec⟩ := ExecuteTask.handle_spec hh
    refine ⟨c, k, s, hl, hh, ?_, ?_⟩
    · rw [← hf]
      constructor
      · intro e; rw [e]
      · intro e; injection e
    · constructor
      · intro e
        have e1 : ExecuteTask.Next.ret b = ExecuteTask.Next.ret true := by rw [e]
        obtain ⟨hst, hp⟩ := ht.1 e1
        refine ⟨hst, ?_⟩
        rcases hp with hp | ⟨q, hq, hpos⟩
        · exact Or.inl hp
        · have := hdec hst q hq
          exact Or.inr ⟨q, hq, this, by omega⟩
      · rintro ⟨hst, hp⟩
        have : ExecuteTask.Next.ret b = ExecuteTask.Next.ret true := by
          apply ht.2
          refine ⟨hst, ?_⟩
          rcases hp with hp | ⟨q, hq, e, hpos⟩
          · exact Or.inl hp
          · exact Or.inr ⟨q, hq, by omega⟩
        injection this
  · intro s w c k s1 nxt h
    obtain ⟨_, _, hn, hb, hdec⟩ := ExecuteTask.handle_spec h
    exact ⟨hn, hb, hdec⟩
  · intro st w f k calls script s1 s2 s3 q h1 h2 h3
    constructor
    · simp only [ExecuteTask.loop, h1, h2, h3]
    · simp only [ExecuteTask.rounds, h1, h2, h3]
  · intro s w c k
    refine ⟨fun h => ExecuteTask.handle_awaiting h, ?_⟩
    intro hst hg hgc hall hrel
    refine ⟨?_, ?_, ?_⟩
    · intro hp
      obtain ⟨s1, nxt, hh⟩ := ExecuteTask.handle_ok (w := w) hst hg hgc hall hrel
        (by intro q hq; rw [hp] at hq; cases hq)
      obtain ⟨_, ht, _, _, _⟩ := ExecuteTask.handle_spec hh
      have := ht.2 ⟨hst, Or.inl hp⟩
      subst this
      exact ⟨s1, hh⟩
    · intro q hq hgt
      obtain ⟨s1, nxt, hh⟩ := ExecuteTask.handle_ok (w := w) hst hg hgc hall hrel
        (by
          intro q1 hq1
          rw [hq] at hq1
          injection hq1 with e
          subst e
          exact ⟨by omega, by omega⟩)
      obtain ⟨_, ht, _, _, hdec⟩ := ExecuteTask.handle_spec hh
      have := ht.2 ⟨hst, Or.inr ⟨q, hq, by omega⟩⟩
      subst this
      exact ⟨s1, hh, hdec hst q hq⟩
    · intro q hq hone htc
      obtain ⟨s1, nxt, hh⟩ := ExecuteTask.handle_ok (w := w) hst hg hgc hall hrel
        (by
          intro q1 hq1
          rw [hq] at hq1
          injection hq1 with e
          subst e
          exact ⟨by omega, fun _ => htc⟩)
      obtain ⟨_, _, hn, hb, hdec⟩ := ExecuteTask.handle_spec hh
      have := (hn q).2 ⟨hst, hq, by omega⟩
      subst this
      exact ⟨s1, hh, by rw [hdec hst q hq]; omega, hb q rfl⟩
  · intro S w o c k calls st hS hw hr
    exact hS.switch_ok hw hr
  · intro st w f k calls script s1 s2 s3 b h1 h2 h3
    simp only [ExecuteTask.loop, h1, h2, h3]

/-- A bucket with one task of group 0, submitted to group 0, is well formed. -/
theorem exampleBuckets_wellFormed : wellFormedBuckets 0 [⟨[exampleTask 0]⟩] := by
  refine ⟨?_, by decide⟩
  intro b hb t ht
  simp only [List.mem_singleton] at hb
  subst hb
  simp only [List.mem_singleton] at ht
  subst ht
  rfl

/-- The steps of the concrete run with a sub-task are well formed. -/
theorem exampleChain_wellFormed :
    ∀ e ∈ [Step.RunTasks 0 [⟨[exampleTask 0]⟩], Step.Start 1,
         Step.Switch 1 [TaskCall.RunSubtasksAndYield 0 [⟨[exampleTask 0]⟩]],
         Step.Continue 1, Step.Unguard 1, Step.Start 0], e.wellFormed := by
  intro e he
  simp only [List.mem_cons, List.mem_singleton, List.not_mem_nil, or_false] at he
  rcases he with e1 | e1 | e1 | e1 | e1 | e1
  · subst e1; exact exampleBuckets_wellFormed
  · subst e1; trivial
  · subst e1
    intro c hc
    simp only [List.mem_singleton] at hc
    subst hc
    exact exampleBuckets_wellFormed
  · subst e1; trivial
  · subst e1; trivial
  · subst e1; trivial

/-- C4 at a concrete run.  Fiber 3 spawns one sub-task and yields; its worker
keeps it and takes the guard off (counter 1).  Worker 0 starts the sub-task on
fiber 2; when its body returns, fiber 2 is `FINISHED` with parent fiber 3, whose
counter is 1: the round takes the counter to 0, binds fiber 3 to worker 0 and
goes on with fiber 3, and the step of worker 0 is taken.  Called for the
sub-task with both bodies running to their end, `ExecuteTask` drives fiber 2 in
round 0 and fiber 3 in round 1 and returns `true`; the fiber of its last round
came back `FINISHED`. -/
theorem ExecuteTask_return_witness :
    (∃ S st s1, System.run exampleConfig (System.new exampleConfig)
        [Step.RunTasks 0 [⟨[exampleTask 0]⟩], Step.Start 1,
         Step.Switch 1 [TaskCall.RunSubtasksAndYield 0 [⟨[exampleTask 0]⟩]],
         Step.Continue 1, Step.Unguard 1, Step.Start 0] = some S ∧
      S.worker 0 = Worker.inFiber 2 2 0 ∧
      FiberMain.run exampleConfig 0 2 S.sched [] = some st ∧
      (st.fiberContext 2).taskStatus = FiberTaskStatus.FINISHED ∧
      (st.fiberContext 2).parentFiber = some 3 ∧
      (st.fiberContext 3).childrenFibersCount = 1 ∧
      ExecuteTask.handle exampleConfig st 0 2 0 = some (s1, ExecuteTask.Next.next 3) ∧
      (s1.fiberContext 3).childrenFibersCount = 0 ∧
      (s1.fiberContext 3).threadContext = some 0 ∧
      ∃ S1, System.step exampleConfig S (Step.Switch 0 []) = some S1) ∧
    (∃ S st0 st1 c k s, System.run exampleConfig (System.new exampleConfig)
        [Step.RunTasks 0 [⟨[exampleTask 0]⟩], Step.Start 1,
         Step.Switch 1 [TaskCall.RunSubtasksAndYield 0 [⟨[exampleTask 0]⟩]],
         Step.Continue 1, Step.Unguard 1] = some S ∧
      ThreadMain.acquire S.sched 0 = some (2, st0) ∧
      ExecuteTask exampleConfig st0 0 2 [[], []] = some (true, st1) ∧
      (ExecuteTask.rounds exampleConfig 0 st0 2 0 [[], []]).map (fun r => (r.1, r.2.1))
        = [(2, 0), (3, 1)] ∧
      (ExecuteTask.rounds exampleConfig 0 st0 2 0 [[], []]).getLast? = some (c, k, s) ∧
      (s.fiberContext c).taskStatus = FiberTaskStatus.FINISHED) := by
  constructor
  · have hval : ((System.run exampleConfig (System.new exampleConfig)
          [Step.RunTasks 0 [⟨[exampleTask 0]⟩], Step.Start 1,
           Step.Switch 1 [TaskCall.RunSubtasksAndYield 0 [⟨[exampleTask 0]⟩]],
           Step.Continue 1, Step.Unguard 1, Step.Start 0]).bind (fun S =>
        (FiberMain.run exampleConfig 0 2 S.sched []).map (fun st =>
          (S.worker 0, (st.fiberContext 2).taskStatus, (st.fiberContext 2).parentFiber,
            (st.fiberContext 3).childrenFibersCount))))
        = some (Worker.inFiber 2 2 0, FiberTaskStatus.FINISHED, some 3, 1) := by decide
    have hval2 : ((System.run exampleConfig (System.new exampleConfig)
          [Step.RunTasks 0 [⟨[exampleTask 0]⟩], Step.Start 1,
           Step.Switch 1 [TaskCall.RunSubtasksAndYield 0 [⟨[exampleTask 0]⟩]],
           Step.Continue 1, Step.Unguard 1, Step.Start 0]).bind (fun S =>
        (FiberMain.run exampleConfig 0 2 S.sched []).map (fun st =>
          ((st.fiberContext 2).currentGroup, (st.groupStats 0).inProgressTaskCount,
            st.allGroupStats.inProgressTaskCount, (st.fiberContext 3).threadContext))))
        = some (0, 2, 2, none) := by decide
    cases hrun : System.run exampleConfig (System.new exampleConfig)
          [Step.RunTasks 0 [⟨[exampleTask 0]⟩], Step.Start 1,
           Step.Switch 1 [TaskCall.RunSubtasksAndYield 0 [⟨[exampleTask 0]⟩]],
           Step.Continue 1, Step.Unguard 1, Step.Start 0] with
    | none => rw [hrun] at hval; cases hval
    | some S =>
      rw [hrun] at hval hval2
      simp only [Option.some_bind] at hval hval2
      cases hfr : FiberMain.run exampleConfig 0 2 S.sched [] with
      | none => rw [hfr] at hval; cases hval
      | some st =>
        rw [hfr] at hval hval2
        simp only [Option.map_some', Option.some.injEq, Prod.mk.injEq] at hval hval2
        obtain ⟨a1, a2, a3, a4⟩ := hval
        obtain ⟨b1, b2, b3, b4⟩ := hval2
        obtain ⟨s1, h1, h2, h3⟩ :=
          (((ExecuteTask_return exampleConfig).2.2.2.1 st 0 2 0).2 a2
            (by rw [b1]; decide) (by rw [b1, b2]; decide) (by rw [b3]; decide)
            (fun h => absurd h (by decide))).2.2 3 a3 a4 b4
        have hreach : System.Reachable exampleConfig S := ⟨_, exampleChain_wellFormed, hrun⟩
        exact ⟨S, st, s1, rfl, a1, hfr, a2, a3, a4, h1, h2, h3,
          ((ExecuteTask_return exampleConfig).2.2.2.2.1 S 0 2 2 0 [] st hreach a1 hfr).2⟩
  · have hval : ((System.run exampleConfig (System.new exampleConfig)
          [Step.RunTasks 0 [⟨[exampleTask 0]⟩], Step.Start 1,
           Step.Switch 1 [TaskCall.RunSubtasksAndYield 0 [⟨[exampleTask 0]⟩]],
           Step.Continue 1, Step.Unguard 1]).bind (fun S =>
        (ThreadMain.acquire S.sched 0).bind (fun r =>
          (ExecuteTask exampleConfig r.2 0 r.1 [[], []]).map (fun x =>
            (r.1, x.1,
              (ExecuteTask.rounds exampleConfig 0 r.2 r.1 0 [[], []]).map
                (fun y => (y.1, y.2.1)))))))
        = some (2, true, [(2, 0), (3, 1)]) := by decide
    cases hrun : System.run exampleConfig (System.new exampleConfig)
          [Step.RunTasks 0 [⟨[exampleTask 0]⟩], Step.Start 1,
           Step.Switch 1 [TaskCall.RunSubtasksAndYield 0 [⟨[exampleTask 0]⟩]],
           Step.Continue 1, Step.Unguard 1] with
    | none => rw [hrun] at hval; cases hval
    | some S =>
      rw [hrun] at hval
      simp only [Option.some_bind] at hval
      cases hacq : ThreadMain.acquire S.sched 0 with
      | none => rw [hacq] at hval; cases hval
      | some r =>
        obtain ⟨f, st0⟩ := r
        rw [hacq] at hval
        simp only [Option.some_bind] at hval
        cases hex : ExecuteTask exampleConfig st0 0 f [[], []] with
        | none => rw [hex] at hval; cases hval
        | some x =>
          obtain ⟨b, st1⟩ := x
          rw [hex] at hval
          simp only [Option.map_some', Option.some.injEq, Prod.mk.injEq] at hval
          obtain ⟨a1, a2, a3⟩ := hval
          subst a1
          subst a2
          obtain ⟨c, k, s, hl, _, _, hb⟩ :=
            (ExecuteTask_return exampleConfig).1 st0 0 2 [[], []] true st1 hex
          exact ⟨S, st0, st1, c, k, s, rfl, hacq, hex, a3, hl, (hb.1 rfl).1⟩


/-! ## Where the code departs from the specification -/

/-- C9 fails on the code: a parent resumed by its last child runs without the
guard.  Fiber 3 is started by worker 1, spawns one sub-task and yields; worker 1
keeps it and takes its guard off (counter 1: the child).  Worker 0 runs the
child on fiber 2; when the child finishes, the parent's counter reaches 0 and
`ExecuteTask` switches into fiber 3 in its second round: fiber 3 is `RUNNED`
with `childrenFibersCount = 0`. -/
theorem chained_parent_runs_without_guard :
    (System.run exampleConfig (System.new exampleConfig)
        [Step.RunTasks 0 [⟨[exampleTask 0]⟩], Step.Start 1,
         Step.Switch 1 [TaskCall.RunSubtasksAndYield 0 [⟨[exampleTask 0]⟩]],
         Step.Continue 1, Step.Unguard 1]).map
      (fun S => (S.worker 1, (S.sched.fiberContext 3).taskStatus,
        (S.sched.fiberContext 3).childrenFibersCount))
      = some (Worker.idle, FiberTaskStatus.AWAITING_CHILD, 1) ∧
    (System.run exampleConfig (System.new exampleConfig)
        [Step.RunTasks 0 [⟨[exampleTask 0]⟩], Step.Start 1,
         Step.Switch 1 [TaskCall.RunSubtasksAndYield 0 [⟨[exampleTask 0]⟩]],
         Step.Continue 1, Step.Unguard 1, Step.Start 0, Step.Switch 0 []]).map
      (fun S => (S.worker 0, (S.sched.fiberContext 3).taskStatus,
        (S.sched.fiberContext 3).childrenFibersCount))
      = some (Worker.inFiber 2 3 1, FiberTaskStatus.RUNNED, 0) := by
  decide

/-- C6 fails on the code: `RestoreAwaitingTasks` changes nothing.  Fiber 3 runs
a task of group 0 that calls `WaitGroupAndYield(1)` and is parked; a task is
then submitted to group 1, started and finished, so the counter of group 1
reaches 0 and its event is signaled.  Afterwards fiber 3 is still on
`waitTaskQueues[1]` with status `AWAITING_GROUP`, both FIFOs are empty and both
workers are idle: nothing is scheduled to resume it. -/
theorem awaiting_fiber_stays_parked :
    (∀ st g, RestoreAwaitingTasks st g = st) ∧
    (System.run exampleConfig (System.new exampleConfig)
        [Step.RunTasks 0 [⟨[exampleTask 0]⟩], Step.Start 1,
         Step.Switch 1 [TaskCall.WaitGroupAndYield 1], Step.Continue 1, Step.Unguard 1,
         Step.RunTasks 1 [⟨[exampleTask 1]⟩], Step.Start 0, Step.Switch 0 [],
         Step.Continue 0]).map
      (fun S => ((S.sched.groupStats 1).inProgressTaskCount,
        (S.sched.groupStats 1).allDoneEvent.signaled,
        S.sched.waitTaskQueues 1, (S.sched.fiberContext 3).taskStatus))
      = some (0, true, [3], FiberTaskStatus.AWAITING_GROUP) ∧
    (System.run exampleConfig (System.new exampleConfig)
        [Step.RunTasks 0 [⟨[exampleTask 0]⟩], Step.Start 1,
         Step.Switch 1 [TaskCall.WaitGroupAndYield 1], Step.Continue 1, Step.Unguard 1,
         Step.RunTasks 1 [⟨[exampleTask 1]⟩], Step.Start 0, Step.Switch 0 [],
         Step.Continue 0]).map
      (fun S => ((S.sched.threadContext 0).queue, (S.sched.threadContext 1).queue,
        S.worker 0, S.worker 1))
      = some ([], [], Worker.idle, Worker.idle) := by
  refine ⟨fun _ _ => rfl, ?_, ?_⟩
  · decide
  · decide

/-- In every reachable state a fiber that `ExecuteTask` drives in its first
round has the guard on its children counter, and a fiber it drives in a later
round (a parent resumed by its last child) has a children counter of 0. -/
theorem guard_only_in_first_round (cfg : Config) (S : System) (h : System.Reachable cfg S)
    (w o c i : Nat) (hw : S.worker w = Worker.inFiber o c i) :
    (S.sched.fiberContext c).taskStatus = FiberTaskStatus.RUNNED ∧
    (i = 0 → (S.sched.fiberContext c).childrenFibersCount = 1) ∧
    (0 < i → (S.sched.fiberContext c).childrenFibersCount = 0) := by
  have hI := h.inv
  obtain ⟨hrun, _, hi0, hipos⟩ := hI.inFiber w o c i hw
  have hcount := hI.count_of_not_awaiting (p := c) (by rw [hrun]; simp)
  refine ⟨hrun, ?_, ?_⟩
  · intro hi
    have := hi0 hi
    subst this
    rw [hcount, hI.guards_first (v := w) (o := c) (by rw [hw]; rfl)]
    rfl
  · intro hi
    rw [hcount, (hipos hi).2]
    rfl

end MT
